import Mathlib

/-!
Staged operation manager of the Kyma environment broker.

A shallow embedding of `internal/process/staged_manager.go`.

* Time is an explicit clock read from a world state `W`; durations and instants
  are integers counting nanoseconds (`time.Duration` is an `int64`; overflow of
  the 64-bit range is not modelled).
* Storage, the event publisher, the steps and the clock are external
  collaborators: they are functions on the world state `W`, which is threaded
  through every call in program order.
* Logging (`logrus`, `operation.EventInfof`) is not modelled.
* Every call that `Execute` and `runStep` make to a collaborator is recorded, in
  program order, in a list of `Effect`s.  Three markers are recorded as well:
  `RunStep` when `Execute` hands a binding to `runStep`, `Returned` when
  `runStep` hands its three results back, `Panic` when a panic is recovered.
* The retry loop `for { ... }` of `runStep` is bounded by a fuel argument; a
  result without return value (`ret = none`) means the loop was still running
  when the fuel ran out.
-/

namespace KEB

/-! ## Data model -/

/-- Go `time.Duration` (and instants of the clock), in nanoseconds. -/
abbrev Duration := Int

/-- The constant `time.Second`. -/
def Second : Duration := 1000000000

/-- The type `domain.LastOperationState`: a string type whose values used by the
manager are `domain.Succeeded` and `domain.Failed`. -/
inductive LastOperationState
  | InProgress
  | Succeeded
  | Failed
  | Other (s : String)
  deriving DecidableEq, Repr

/-- Modelled from the spec: the classification carried by a `kebError.LastError`
(package `kebError` is not under src/): timeout-kind or any other reason. -/
inductive ErrReason
  | Timeout
  | Classified (code : String)
  deriving DecidableEq, Repr

/-- Modelled from the spec: `kebError.LastError` (not under src/), a classified
failure with a message. -/
structure LastError where
  message : String
  reason : ErrReason
  deriving DecidableEq, Repr

/-- Modelled from the spec: `kebError.TimeoutError(msg)` (not under src/) builds
the timeout-kind error with the given message. -/
def TimeoutError (msg : String) : LastError :=
  { message := msg, reason := ErrReason.Timeout }

/-- Modelled from the spec: `LastError.SetMessage` (not under src/) returns the
error with its message replaced and its classification kept. -/
def LastError.SetMessage (e : LastError) (msg : String) : LastError :=
  { e with message := msg }

/-- Modelled from the spec: `LastError.Error()` (not under src/) is the message. -/
def LastError.Error (e : LastError) : String := e.message

/-- Values of the Go interface `error` that reach the manager: plain errors
(from steps, storage, `errors.New`), storage update conflicts, and `LastError`
values used as errors.  The Go `nil` error is `none : Option GoError`. -/
inductive GoError
  | errorString (msg : String)
  | conflict (msg : String)
  | lastError (e : LastError)
  deriving DecidableEq, Repr

/-- The method `Error()` of an error value. -/
def GoError.Error : GoError → String
  | GoError.errorString msg => msg
  | GoError.conflict msg => msg
  | GoError.lastError e => e.Error

/-- The fields of `internal.Operation` read or written by the manager, and the
opaque payload owned by the steps. -/
structure Operation where
  ID : String
  InstanceID : String
  CreatedAt : Duration
  State : LastOperationState
  Description : String
  FinishedStages : List String
  LastError : Option LastError
  payload : Nat
  deriving DecidableEq, Repr

/-- Modelled from the spec: `Operation.IsStageFinished` (not under src/):
whether the stage name is present in `FinishedStages`. -/
def Operation.IsStageFinished (o : Operation) (stageName : String) : Bool :=
  decide (stageName ∈ o.FinishedStages)

/-- Modelled from the spec: `Operation.FinishStage` (not under src/):
`FinishedStages` is an append-only set of stage names, so the name is appended
unless it is already present. -/
def Operation.FinishStage (o : Operation) (stageName : String) : Operation :=
  if o.IsStageFinished stageName then o
  else { o with FinishedStages := o.FinishedStages ++ [stageName] }

/-- The payload `StepProcessed` of a step-processed event. -/
structure StepProcessed where
  StepName : String
  Duration : KEB.Duration
  When : KEB.Duration
  Error : Option GoError
  deriving DecidableEq, Repr

/-- The two events handed to the publisher. -/
inductive Event
  | OperationStepProcessed (sp : StepProcessed) (Operation OldOperation : KEB.Operation)
  | OperationSucceeded (Operation : KEB.Operation)
  deriving DecidableEq, Repr

/-- The calls made by the manager, in program order, and the three markers
`RunStep`, `Returned`, `Panic`. -/
inductive Effect
  | GetOperationByID (operationID : String)
  | UpdateOperation (op : Operation)
  | Publish (ev : Event)
  | Condition (stageName stepName : String) (op : Operation) (result : Bool)
  | RunStep (stageName stepName : String) (op : Operation)
  | Run (stepName : String) (op : Operation)
  | Sleep (d : Duration)
  | Panic (v : String)
  | OperationFailed (op : Operation) (description : String) (err : GoError)
  | Returned (op : Operation) (backoff : Duration) (err : Option GoError)
  deriving DecidableEq, Repr

/-- What a call of `step.Run` does: return its three results, or panic with a
value (rendered as by `fmt.Sprintf("%v", v)`). -/
inductive RunOutcome
  | returns (op : Operation) (backoff : Duration) (err : Option GoError)
  | panics (v : String)
  deriving DecidableEq, Repr

/-- The interface `Step`. -/
structure Step (W : Type) where
  Name : String
  Run : Operation → W → RunOutcome × W

/-- The function type `StepCondition`. -/
abbrev StepCondition := Operation → Bool

/-- The struct `StepWithCondition`: a step and an optional (`nil`-able) predicate. -/
structure StepWithCondition (W : Type) extends Step W where
  condition : Option StepCondition

/-- The struct `stage`. -/
structure stage (W : Type) where
  name : String
  steps : List (StepWithCondition W)

/-- The struct `StagedManagerConfiguration`. -/
structure StagedManagerConfiguration where
  MaxStepProcessingTime : Duration
  WorkersAmount : Int

/-- The configuration fields of `StagedManager`. -/
structure StagedManager (W : Type) where
  stages : List (stage W)
  operationTimeout : Duration
  speedFactor : Int
  cfg : StagedManagerConfiguration

/-- The collaborators of the manager: the clock (`time.Now`, `time.Sleep`), the
storage (`storage.Operations`), the publisher (`event.Publisher`) and the error
classifier `kebError.ReasonForError` (not under src/, taken as a parameter). -/
structure Env (W : Type) where
  now : W → Duration
  sleep : Duration → W → W
  GetOperationByID : String → W → Except GoError Operation × W
  UpdateOperation : Operation → W → Except GoError Operation × W
  Publish : Event → W → W
  ReasonForError : GoError → LastError

/-- What `runStep` hands back: its three results (or `none` when the retry loop
is still running), the effects, the world. -/
structure RunnerResult (W : Type) where
  ret : Option (Operation × Duration × Option GoError)
  trace : List Effect
  world : W

/-- How a loop of `Execute` ends: it falls through with the working copy,
`Execute` returns, or a retry loop inside is still running. -/
inductive Flow
  | next (op : Operation)
  | exit (when : Duration) (err : Option GoError)
  | stuck
  deriving DecidableEq, Repr

/-- The outcome of a loop of `Execute`. -/
structure LoopResult (W : Type) where
  flow : Flow
  trace : List Effect
  world : W

/-- The outcome of `Execute`: the returned pair (or `none` when a retry loop is
still running), the effects, the world. -/
structure ExecResult (W : Type) where
  ret : Option (Duration × Option GoError)
  trace : List Effect
  world : W

/-! ## The manager -/

variable {W : Type}

/-- Modelled from the spec: the classified failure that a terminal failure
leaves in `LastError` (the classifier is not under src/): the message of the
error, and a reason that indicates the description given, such as "recovered
from panic". -/
def failureOf (description : String) (err : GoError) : LastError :=
  { message := err.Error, reason := ErrReason.Classified description }

/-- Modelled from the spec: `OperationManager.OperationFailed` (not under src/)
forces the operation to `Failed`, sets `LastError` to the failure whose reason
indicates the description given, and persists it (the mutation-and-persist path
of terminal failures); the operation handed back is the stored one, or the
mutated one when storage fails. -/
def OperationFailed (env : Env W) (operation : Operation) (description : String)
    (err : GoError) (w : W) : Operation × List Effect × W :=
  let failed := { operation with
    State := LastOperationState.Failed, LastError := some (failureOf description err) }
  match env.UpdateOperation failed w with
  | (Except.ok op, w1) =>
    (op, [Effect.OperationFailed operation description err, Effect.UpdateOperation failed], w1)
  | (Except.error _, w1) =>
    (failed, [Effect.OperationFailed operation description err, Effect.UpdateOperation failed], w1)

/-- The deferred function of `runStep` when `recover()` yields `v`: the named
results become the operation handed back by `OperationFailed`, the backoff held
when the panic started, and the error `errors.New(fmt.Sprintf("%v", v))`. -/
def recovered (env : Env W) (operation : Operation) (backoff : Duration) (v : String)
    (w : W) : RunnerResult W :=
  let err := GoError.errorString v
  let r := OperationFailed env operation "recovered from panic" err w
  { ret := some (r.1, backoff, some err), trace := Effect.Panic v :: r.2.1, world := r.2.2 }

/-- The loop `for { ... }` of `runStep`, given the instant `begin`, the working
copy `processedOperation` and the named result `backoff`. -/
def runStepLoop (env : Env W) (m : StagedManager W) (step : Step W) (operation : Operation)
    (begin : Duration) : Nat → Operation → Duration → W → RunnerResult W
  | 0, _, _, w => { ret := none, trace := [], world := w }
  | fuel + 1, processedOperation, backoff, w =>
    let start := env.now w
    match step.Run processedOperation w with
    | (RunOutcome.panics v, w1) =>
      let r := recovered env operation backoff v w1
      { r with trace := Effect.Run step.Name processedOperation :: r.trace }
    | (RunOutcome.returns op backoff1 none, w1) =>
      let ev := Event.OperationStepProcessed
        { StepName := step.Name, Duration := env.now w1 - start, When := backoff1, Error := none }
        op operation
      let w3 := env.Publish ev w1
      if backoff1 = 0 ∨ env.now w3 - begin > m.cfg.MaxStepProcessingTime then
        { ret := some (op, backoff1, none),
          trace := [Effect.Run step.Name processedOperation, Effect.Publish ev],
          world := w3 }
      else if m.speedFactor = 0 then
        let r := recovered env operation backoff1 "runtime error: integer divide by zero" w3
        { r with trace := Effect.Run step.Name processedOperation :: Effect.Publish ev :: r.trace }
      else
        let d := Int.tdiv backoff1 m.speedFactor
        let r := runStepLoop env m step operation begin fuel op backoff1 (env.sleep d w3)
        { r with trace := Effect.Run step.Name processedOperation :: Effect.Publish ev ::
            Effect.Sleep d :: r.trace }
    | (RunOutcome.returns op backoff1 (some stepErr), w1) =>
      let op1 := { op with LastError := some (env.ReasonForError stepErr) }
      let saved := env.UpdateOperation op1 w1
      let err : Option GoError := match saved.1 with
        | Except.ok _ => none
        | Except.error e => some e
      let w2 := saved.2
      let ev := Event.OperationStepProcessed
        { StepName := step.Name, Duration := env.now w2 - start, When := backoff1, Error := err }
        op1 operation
      let w3 := env.Publish ev w2
      if backoff1 = 0 ∨ err ≠ none ∨ env.now w3 - begin > m.cfg.MaxStepProcessingTime then
        { ret := some (op1, backoff1, err),
          trace := [Effect.Run step.Name processedOperation, Effect.UpdateOperation op1,
            Effect.Publish ev],
          world := w3 }
      else if m.speedFactor = 0 then
        let r := recovered env operation backoff1 "runtime error: integer divide by zero" w3
        { r with trace := Effect.Run step.Name processedOperation :: Effect.UpdateOperation op1 ::
            Effect.Publish ev :: r.trace }
      else
        let d := Int.tdiv backoff1 m.speedFactor
        let r := runStepLoop env m step operation begin fuel op1 backoff1 (env.sleep d w3)
        { r with trace := Effect.Run step.Name processedOperation :: Effect.UpdateOperation op1 ::
            Effect.Publish ev :: Effect.Sleep d :: r.trace }

/-- The method `StagedManager.runStep`. -/
def runStep (env : Env W) (m : StagedManager W) (fuel : Nat) (step : Step W)
    (operation : Operation) (w : W) : RunnerResult W :=
  runStepLoop env m step operation (env.now w) fuel operation 0 w

/-- The method `StagedManager.saveFinishedStage`. -/
def saveFinishedStage (env : Env W) (operation : Operation) (s : stage W) (w : W) :
    Operation × Option GoError × List Effect × W :=
  let operation := operation.FinishStage s.name
  match env.UpdateOperation operation w with
  | (Except.error err, w1) => (operation, some err, [Effect.UpdateOperation operation], w1)
  | (Except.ok op, w1) => (op, none, [Effect.UpdateOperation operation], w1)

/-- The method `StagedManager.callPubSubOutsideSteps`. -/
def callPubSubOutsideSteps (env : Env W) (operation : Operation) (err : GoError) (w : W) :
    List Effect × W :=
  let ev := Event.OperationStepProcessed
    { StepName := "", Duration := env.now w - operation.CreatedAt, When := 0, Error := some err }
    operation operation
  ([Effect.Publish ev], env.Publish ev w)

/-- The test `step.condition != nil && !step.condition(processedOperation)`. -/
def skips (step : StepWithCondition W) (processedOperation : Operation) : Bool :=
  match step.condition with
  | none => false
  | some cnd => !cnd processedOperation

/-- The effect of that test: a predicate call when the predicate is not `nil`. -/
def conditionEffects (stageName : String) (step : StepWithCondition W)
    (processedOperation : Operation) : List Effect :=
  match step.condition with
  | none => []
  | some cnd =>
    [Effect.Condition stageName step.Name processedOperation (cnd processedOperation)]

/-- The loop `for _, step := range stage.steps` of `Execute`. -/
def stepsLoop (env : Env W) (m : StagedManager W) (fuel : Nat) (stageName : String) :
    List (StepWithCondition W) → Operation → W → LoopResult W
  | [], processedOperation, w => { flow := Flow.next processedOperation, trace := [], world := w }
  | step :: rest, processedOperation, w =>
    if skips step processedOperation then
      let r := stepsLoop env m fuel stageName rest processedOperation w
      { r with trace := conditionEffects stageName step processedOperation ++ r.trace }
    else
      let r := runStep env m fuel step.toStep processedOperation w
      let pre := conditionEffects stageName step processedOperation ++
        Effect.RunStep stageName step.Name processedOperation :: r.trace
      match r.ret with
      | none => { flow := Flow.stuck, trace := pre, world := r.world }
      | some (op, when, some err) =>
        { flow := Flow.exit 0 (some err), trace := pre ++ [Effect.Returned op when (some err)],
          world := r.world }
      | some (op, when, none) =>
        if op.State = LastOperationState.Failed ∨ op.State = LastOperationState.Succeeded then
          { flow := Flow.exit 0 none, trace := pre ++ [Effect.Returned op when none],
            world := r.world }
        else if when > 0 then
          { flow := Flow.exit when none, trace := pre ++ [Effect.Returned op when none],
            world := r.world }
        else
          let r2 := stepsLoop env m fuel stageName rest op r.world
          { r2 with trace := pre ++ Effect.Returned op when none :: r2.trace }

/-- The loop `for _, stage := range m.stages` of `Execute` and the code after it. -/
def stagesLoop (env : Env W) (m : StagedManager W) (fuel : Nat) :
    List (stage W) → Operation → W → ExecResult W
  | [], processedOperation, w =>
    let processedOperation := { processedOperation with
      State := LastOperationState.Succeeded, Description := "Processing finished" }
    let ev := Event.OperationSucceeded processedOperation
    let w1 := env.Publish ev w
    match env.UpdateOperation processedOperation w1 with
    | (Except.error err, w2) =>
      { ret := some (Second, some err),
        trace := [Effect.Publish ev, Effect.UpdateOperation processedOperation], world := w2 }
    | (Except.ok _, w2) =>
      { ret := some (0, none),
        trace := [Effect.Publish ev, Effect.UpdateOperation processedOperation], world := w2 }
  | s :: rest, processedOperation, w =>
    if processedOperation.IsStageFinished s.name then
      stagesLoop env m fuel rest processedOperation w
    else
      let r := stepsLoop env m fuel s.name s.steps processedOperation w
      match r.flow with
      | Flow.stuck => { ret := none, trace := r.trace, world := r.world }
      | Flow.exit when err => { ret := some (when, err), trace := r.trace, world := r.world }
      | Flow.next op =>
        match saveFinishedStage env op s r.world with
        | (_, some _, tr, w1) => { ret := some (Second, none), trace := r.trace ++ tr, world := w1 }
        | (op1, none, tr, w1) =>
          let r2 := stagesLoop env m fuel rest op1 w1
          { r2 with trace := r.trace ++ tr ++ r2.trace }

/-- The method `StagedManager.Execute`. -/
def Execute (env : Env W) (m : StagedManager W) (fuel : Nat) (operationID : String) (w : W) :
    ExecResult W :=
  match env.GetOperationByID operationID w with
  | (Except.error _, w1) =>
    { ret := some (3 * Second, none), trace := [Effect.GetOperationByID operationID], world := w1 }
  | (Except.ok operation, w1) =>
    if env.now w1 - operation.CreatedAt > m.operationTimeout then
      let timeoutErr := TimeoutError "operation has reached the time limit"
      let operation := { operation with
        LastError := some timeoutErr, State := LastOperationState.Failed }
      match env.UpdateOperation operation w1 with
      | (Except.error err, w2) =>
        let timeoutErr1 := timeoutErr.SetMessage (timeoutErr.Error ++ " and " ++ err.Error)
        let operation1 := { operation with LastError := some timeoutErr1 }
        let p := callPubSubOutsideSteps env operation1 (GoError.lastError timeoutErr) w2
        { ret := some (Second, some (GoError.lastError timeoutErr1)),
          trace := Effect.GetOperationByID operationID :: Effect.UpdateOperation operation :: p.1,
          world := p.2 }
      | (Except.ok _, w2) =>
        let p := callPubSubOutsideSteps env operation (GoError.lastError timeoutErr) w2
        { ret := some (0, some (GoError.lastError timeoutErr)),
          trace := Effect.GetOperationByID operationID :: Effect.UpdateOperation operation :: p.1,
          world := p.2 }
    else
      let r := stagesLoop env m fuel m.stages operation w1
      { r with trace := Effect.GetOperationByID operationID :: r.trace }

/-! ## Reading a list of effects -/

/-- Every effect of the list, taken with the effects recorded after it,
satisfies `Q`. -/
def EachWithRest (Q : Effect → List Effect → Prop) : List Effect → Prop
  | [] => True
  | x :: xs => Q x xs ∧ EachWithRest Q xs

/-- The effects that `runStep` records: calls of the step, storage, publisher,
sleep, and a recovered panic with its call of `OperationFailed`. -/
def Effect.inRunner : Effect → Bool
  | Effect.UpdateOperation _ => true
  | Effect.Publish _ => true
  | Effect.Run _ _ => true
  | Effect.Sleep _ => true
  | Effect.Panic _ => true
  | Effect.OperationFailed _ _ _ => true
  | _ => false

/-- The effects that invoke a step binding: a predicate call, the hand-over to
the runner, a call of `Run`. -/
def Effect.invokesStep : Effect → Bool
  | Effect.Condition _ _ _ _ => true
  | Effect.RunStep _ _ _ => true
  | Effect.Run _ _ => true
  | _ => false

/-- The pair that `Execute` returns right after the runner handed back
`(op, backoff, err)` (lines 153 to 168), or `none` when it goes on with the next
binding. -/
def exitOf (op : Operation) (backoff : Duration) (err : Option GoError) :
    Option (Duration × Option GoError) :=
  match err with
  | some e => some (0, some e)
  | none =>
    if op.State = LastOperationState.Failed ∨ op.State = LastOperationState.Succeeded then
      some (0, none)
    else if backoff > 0 then some (backoff, none)
    else none

/-- The pair returned by `Execute` when a loop of it ends that way. -/
def Flow.toRet : Flow → Option (Duration × Option GoError)
  | Flow.exit when err => some (when, err)
  | Flow.next _ => none
  | Flow.stuck => none

/-- The property of a `Returned` marker: when lines 153 to 168 return a pair
after it, nothing is recorded after it and that pair is what the call returns. -/
def ReturnedExit (ret : Option (Duration × Option GoError)) (x : Effect)
    (rest : List Effect) : Prop :=
  ∀ op backoff err out, x = Effect.Returned op backoff err → exitOf op backoff err = some out →
    rest = [] ∧ ret = some out

/-- The property of a `Panic` marker inside `runStep` called on `operation`. -/
def PanicInRunner (operation : Operation)
    (ret : Option (Operation × Duration × Option GoError)) (x : Effect)
    (rest : List Effect) : Prop :=
  ∀ v, x = Effect.Panic v →
    rest = [Effect.OperationFailed operation "recovered from panic" (GoError.errorString v),
      Effect.UpdateOperation
        { operation with State := LastOperationState.Failed,
                         LastError := some (failureOf "recovered from panic"
                           (GoError.errorString v)) }] ∧
    ∃ op backoff, ret = some (op, backoff, some (GoError.errorString v))

/-- The property of a `Panic` marker in a call of `Execute`. -/
def PanicRecovered (ret : Option (Duration × Option GoError)) (x : Effect)
    (rest : List Effect) : Prop :=
  ∀ v, x = Effect.Panic v →
    ∃ operation op backoff,
      rest = [Effect.OperationFailed operation "recovered from panic" (GoError.errorString v),
        Effect.UpdateOperation
          { operation with State := LastOperationState.Failed,
                           LastError := some (failureOf "recovered from panic"
                             (GoError.errorString v)) },
        Effect.Returned op backoff (some (GoError.errorString v))] ∧
      ret = some (0, some (GoError.errorString v))

/-- The property of a published `OperationSucceeded` event: the last storage
update of the call follows it and nothing else does. -/
def SucceededLast (x : Effect) (rest : List Effect) : Prop :=
  ∀ op, x = Effect.Publish (Event.OperationSucceeded op) → rest = [Effect.UpdateOperation op]

/-- Whether the effect is the publication of a completion (`OperationSucceeded`)
event. -/
def Effect.isCompletion : Effect → Bool
  | Effect.Publish (Event.OperationSucceeded _) => true
  | _ => false

/-- Whether the effect is a publication. -/
def Effect.isPublish : Effect → Bool
  | Effect.Publish _ => true
  | _ => false

/-- Whether the effect is a storage update. -/
def Effect.isUpdate : Effect → Bool
  | Effect.UpdateOperation _ => true
  | _ => false

/-- Whether the effect is the hand-over of a step binding to the runner. -/
def Effect.isRunStep : Effect → Bool
  | Effect.RunStep _ _ _ => true
  | _ => false

/-! ## The observable course of a run -/

/-- What is observed of a call of `Execute`: a call of `Run`, a published
step-processed event, a storage update (with the `FinishedStages` it carries),
a published completion event. -/
inductive Observation
  | ran (stepName : String)
  | stepProcessed (stepName : String)
  | persisted (finished : List String)
  | completed (finished : List String)
  deriving DecidableEq, Repr

/-- The observation made of an effect, if any. -/
def observe : Effect → Option Observation
  | Effect.Run n _ => some (Observation.ran n)
  | Effect.Publish (Event.OperationStepProcessed sp _ _) =>
    some (Observation.stepProcessed sp.StepName)
  | Effect.Publish (Event.OperationSucceeded op) => some (Observation.completed op.FinishedStages)
  | Effect.UpdateOperation op => some (Observation.persisted op.FinishedStages)
  | _ => none

/-- The observations expected of the bindings of one stage when every step is
run once: for each binding in order, its `Run` and one step-processed event. -/
def expectedSteps : List (StepWithCondition W) → List Observation
  | [] => []
  | b :: rest =>
    Observation.ran b.Name :: Observation.stepProcessed b.Name :: expectedSteps rest

/-- The observations expected of a run over `stages` when `done` lists the stages
finished so far: stage after stage, every step once, then the persist of
`FinishedStages` extended by that stage name; at the end one completion event
and the last persist. -/
def expectedRun (done : List String) : List (stage W) → List Observation
  | [] => [Observation.completed done, Observation.persisted done]
  | s :: rest =>
    expectedSteps s.steps ++
      Observation.persisted (done ++ [s.name]) :: expectedRun (done ++ [s.name]) rest

/-! ## The sequence of attempted steps, in the words of the specification -/

/-- The attempt recorded by a hand-over to the runner: stage name and step name. -/
def attemptOf : Effect → Option (String × String)
  | Effect.RunStep stageName stepName _ => some (stageName, stepName)
  | _ => none

/-- A binding is kept exactly when its predicate is absent or true on the
current snapshot. -/
def keeps (b : StepWithCondition W) (snapshot : Operation) : Bool :=
  match b.condition with
  | none => true
  | some cnd => cnd snapshot

/-- The sequence stops at a step that yields an error, a terminal state or a
positive delay. -/
def stopsAt (op : Operation) (backoff : Duration) (err : Option GoError) : Bool :=
  err.isSome || op.State == LastOperationState.Failed ||
    op.State == LastOperationState.Succeeded || decide (backoff > 0)

/-- The attempts within one stage, in binding order, from the current snapshot:
the kept bindings up to the first one that stops the sequence (or whose runner
is still running); with them, the snapshot and world left when the stage is
gone through, and nothing when the sequence stopped. -/
def stageAttempts (env : Env W) (m : StagedManager W) (fuel : Nat) (stageName : String) :
    List (StepWithCondition W) → Operation → W → List (String × String) × Option (Operation × W)
  | [], snapshot, w => ([], some (snapshot, w))
  | b :: rest, snapshot, w =>
    if keeps b snapshot then
      match (runStep env m fuel b.toStep snapshot w).ret with
      | none => ([(stageName, b.Name)], none)
      | some (op, backoff, err) =>
        if stopsAt op backoff err then ([(stageName, b.Name)], none)
        else
          let r := stageAttempts env m fuel stageName rest op
            (runStep env m fuel b.toStep snapshot w).world
          ((stageName, b.Name) :: r.1, r.2)
    else stageAttempts env m fuel stageName rest snapshot w

/-- The attempts over the stages, in registration order: a stage present in
`FinishedStages` of the current snapshot contributes nothing; the sequence ends
where a stage stopped it, and where persisting a finished stage fails. -/
def attemptSequence (env : Env W) (m : StagedManager W) (fuel : Nat) :
    List (stage W) → Operation → W → List (String × String)
  | [], _, _ => []
  | s :: rest, snapshot, w =>
    if s.name ∈ snapshot.FinishedStages then attemptSequence env m fuel rest snapshot w
    else
      match stageAttempts env m fuel s.name s.steps snapshot w with
      | (tried, none) => tried
      | (tried, some (op, w1)) =>
        match saveFinishedStage env op s w1 with
        | (_, some _, _, _) => tried
        | (op1, none, _, w2) => tried ++ attemptSequence env m fuel rest op1 w2

/-- The attempts of a call of `Execute`: none when the operation does not load or
is past the global timeout, else the attempts over the declared stages. -/
def expectedAttempts (env : Env W) (m : StagedManager W) (fuel : Nat) (operationID : String)
    (w : W) : List (String × String) :=
  match env.GetOperationByID operationID w with
  | (Except.error _, _) => []
  | (Except.ok operation, w1) =>
    if env.now w1 - operation.CreatedAt > m.operationTimeout then []
    else attemptSequence env m fuel m.stages operation w1

/-- The snapshot and world with which a loop of `Execute` falls through, if it
does. -/
def LoopResult.continuation (r : LoopResult W) : Option (Operation × W) :=
  match r.flow with
  | Flow.next op => some (op, r.world)
  | _ => none

/-! ## A concrete world for worked examples -/

/-- A world made of a clock, the stored operation, and the answers storage gives
to the coming updates (`true`: the update fails with a conflict; when the list
is used up every update succeeds). -/
structure World where
  clock : Duration
  failing : List Bool
  stored : Operation

/-- Collaborators over `World`: sleeping advances the clock, storage hands back
what it was given, publishing changes nothing. -/
def worldEnv : Env World where
  now w := w.clock
  sleep d w := { w with clock := w.clock + d }
  GetOperationByID _ w := (Except.ok w.stored, w)
  UpdateOperation op w :=
    match w.failing with
    | true :: rest => (Except.error (GoError.conflict "conflict"), { w with failing := rest })
    | false :: rest => (Except.ok op, { w with failing := rest, stored := op })
    | [] => (Except.ok op, { w with stored := op })
  Publish _ w := w
  ReasonForError e := { message := e.Error, reason := ErrReason.Classified "step" }

/-- An operation created at instant 0, in progress, with no finished stage. -/
def freshOp : Operation :=
  { ID := "op", InstanceID := "inst", CreatedAt := 0, State := LastOperationState.InProgress,
    Description := "", FinishedStages := [], LastError := none, payload := 0 }

/-- The world at instant 5 holding `op`, with the given storage answers. -/
def worldWith (op : Operation) (failing : List Bool) : World :=
  { clock := 5, failing := failing, stored := op }

/-- A binding without predicate whose step returns `(op, 0, nil)`. -/
def okStep (n : String) : StepWithCondition World :=
  { Name := n, Run := fun op w => (RunOutcome.returns op 0 none, w), condition := none }

/-- A binding whose step returns `(op, 0, nil)` and whose predicate is false. -/
def guardedStep (n : String) : StepWithCondition World :=
  { Name := n, Run := fun op w => (RunOutcome.returns op 0 none, w),
    condition := some (fun _ => false) }

/-- A binding without predicate whose step returns the error "boom" with no
delay and leaves the operation as it is. -/
def errStep (n : String) : StepWithCondition World :=
  { Name := n,
    Run := fun op w => (RunOutcome.returns op 0 (some (GoError.errorString "boom")), w),
    condition := none }

/-- A binding without predicate whose step panics with the value "boom". -/
def panicStep (n : String) : StepWithCondition World :=
  { Name := n, Run := fun _ w => (RunOutcome.panics "boom", w), condition := none }

/-- A binding without predicate whose step sets the given state and returns the
given delay and no error; the call takes one clock tick. -/
def stateStep (n : String) (st : LastOperationState) (d : Duration) : StepWithCondition World :=
  { Name := n,
    Run := fun op w => (RunOutcome.returns { op with State := st } d none,
      { w with clock := w.clock + 1 }),
    condition := none }

/-- A manager over `World` with the given maximal step processing time and
stages, an operation timeout of 100 and speed factor 1. -/
def managerWith (maxStepProcessingTime : Duration) (stages : List (stage World)) :
    StagedManager World :=
  { stages := stages, operationTimeout := 100, speedFactor := 1,
    cfg := { MaxStepProcessingTime := maxStepProcessingTime, WorkersAmount := 20 } }

/-- A manager over `World` with the given stages, an operation timeout of 100,
a maximal step processing time of 10 and speed factor 1. -/
def managerOf (stages : List (stage World)) : StagedManager World :=
  managerWith 10 stages

/-- One stage "A" with two bindings: the given one, then an always-succeeding
step "b" without predicate. -/
def stageWithFirst (first : StepWithCondition World) : List (stage World) :=
  [{ name := "A", steps := [first, okStep "b"] }]

/-- One stage "A" whose only binding has a false predicate. -/
def stageSkipped : List (stage World) :=
  [{ name := "A", steps := [guardedStep "g"] }]

/-- Collaborators over `World` whose storage never fails: every update succeeds
and hands back what it was given. -/
def reliableEnv : Env World where
  now w := w.clock
  sleep d w := { w with clock := w.clock + d }
  GetOperationByID _ w := (Except.ok w.stored, w)
  UpdateOperation op w := (Except.ok op, { w with stored := op })
  Publish _ w := w
  ReasonForError e := { message := e.Error, reason := ErrReason.Classified "step" }

/-- Two stages "A" and "B" with one always-succeeding step each. -/
def stagesAB : List (stage World) :=
  [{ name := "A", steps := [okStep "a"] }, { name := "B", steps := [okStep "b"] }]

/-! ## Setting up the manager -/

/-- The function `NewStagedManager`: no stage yet, speed factor 1. -/
def NewStagedManager (operationTimeout : Duration) (cfg : StagedManagerConfiguration) :
    StagedManager W :=
  { stages := [], operationTimeout := operationTimeout, speedFactor := 1, cfg := cfg }

/-- The method `StagedManager.SpeedUp`. -/
def SpeedUp (m : StagedManager W) (speedFactor : Int) : StagedManager W :=
  { m with speedFactor := speedFactor }

/-- The method `StagedManager.DefineStages`: one stage without bindings for each
name, in the order given. -/
def DefineStages (m : StagedManager W) (names : List String) : StagedManager W :=
  { m with stages := names.map fun n => { name := n, steps := [] } }

/-- The method `stage.AddStep`: the binding is appended to the stage. -/
def stage.AddStep (s : stage W) (step : Step W) (cnd : Option StepCondition) : stage W :=
  { s with steps := s.steps ++ [{ toStep := step, condition := cnd }] }

/-- The loop `for _, s := range m.stages` of `StagedManager.AddStep`: the stages
after the binding was added to the first stage of that name, or `none` when the
loop ends without finding one. -/
def addToStages (stageName : String) (step : Step W) (cnd : Option StepCondition) :
    List (stage W) → Option (List (stage W))
  | [] => none
  | s :: rest =>
    if s.name = stageName then some (s.AddStep step cnd :: rest)
    else (addToStages stageName step cnd rest).map fun stages => s :: stages

/-- The method `StagedManager.AddStep`: the manager afterwards and the error
returned. -/
def AddStep (m : StagedManager W) (stageName : String) (step : Step W)
    (cnd : Option StepCondition) : StagedManager W × Option GoError :=
  match addToStages stageName step cnd m.stages with
  | some stages => ({ m with stages := stages }, none)
  | none => (m, some (GoError.errorString ("stage " ++ stageName ++ " not defined")))

/-- The method `StagedManager.GetAllStages`. -/
def GetAllStages (m : StagedManager W) : List String :=
  m.stages.map fun s => s.name

/-! ## The EDP client (`internal/edp/client.go`) -/

namespace EDP

/-- The errors built by `NewEDPConflictError`, `NewEDPNotFoundError`,
`NewEDPBadRequestError` and `NewEDPOtherError`.  These constructors are declared
outside src/; an error is recorded by the constructor called, the resource id
and, for the last one, the status code given to it (the formatted message is
left out). -/
inductive EDPError
  | Conflict (id : String)
  | NotFound (id : String)
  | BadRequest (id : String)
  | Other (id : String) (code : Int)
  deriving DecidableEq, Repr

/-- The errors returned by `processResponse`: the wrapped error of a failed body
read, an EDP error returned as it is, or an EDP error wrapped by
`kebError.WrapNewTemporaryError` (a temporary, retryable error). -/
inductive ResponseError
  | readBody (code : Int) (err : GoError)
  | edp (e : EDPError)
  | temporary (e : EDPError)
  deriving DecidableEq, Repr

/-- What `processResponse` reads of a `*http.Response`: the status code and the
outcome of `ioutil.ReadAll(response.Body)`. -/
structure Response where
  StatusCode : Int
  Body : Except GoError String

/-- The constant `http.StatusCreated`. -/
def StatusCreated : Int := 201

/-- The constant `http.StatusNoContent`. -/
def StatusNoContent : Int := 204

/-- The constant `http.StatusBadRequest`. -/
def StatusBadRequest : Int := 400

/-- The constant `http.StatusNotFound`. -/
def StatusNotFound : Int := 404

/-- The constant `http.StatusRequestTimeout`. -/
def StatusRequestTimeout : Int := 408

/-- The constant `http.StatusConflict`. -/
def StatusConflict : Int := 409

/-- The method `Client.processResponse`; `none` is the Go `nil` error. -/
def processResponse (response : Response) (allowNotFound : Bool) (id : String) :
    Option ResponseError :=
  match response.Body with
  | Except.error err => some (ResponseError.readBody response.StatusCode err)
  | Except.ok _ =>
    if response.StatusCode = StatusCreated then none
    else if response.StatusCode = StatusConflict then
      some (ResponseError.edp (EDPError.Conflict id))
    else if response.StatusCode = StatusNoContent then none
    else if response.StatusCode = StatusNotFound then
      if allowNotFound then none
      else some (ResponseError.edp (EDPError.NotFound id))
    else if response.StatusCode = StatusRequestTimeout then
      some (ResponseError.temporary (EDPError.Other id StatusRequestTimeout))
    else if response.StatusCode = StatusBadRequest then
      some (ResponseError.edp (EDPError.BadRequest id))
    else if response.StatusCode ≥ 500 then
      some (ResponseError.temporary (EDPError.Other id response.StatusCode))
    else some (ResponseError.edp (EDPError.Other id response.StatusCode))

end EDP

/-! ## The step `CreateRuntimeWithoutKymaStep`
(`internal/process/provisioning/create_runtime_without_kyma_step.go`) -/

namespace Provisioning

/-- An error value with its chain of `fmt.Errorf("...: %w", err)` wrappers. -/
inductive WrappedError
  | cause (err : GoError)
  | wrap (msg : String) (inner : WrappedError)
  deriving DecidableEq, Repr

/-- The fields of `internal.Operation` read or written by the step. -/
structure Operation where
  ID : String
  InstanceID : String
  RuntimeID : String
  ProvisionerOperationID : String
  UpdatedAt : Duration
  GlobalAccountID : String
  SubAccountID : String
  RuntimeVersion : String
  deriving DecidableEq, Repr

/-- What the step reads of `gqlschema.ProvisionRuntimeInput`: the region of the
Gardener configuration; the rest is an opaque value. -/
structure ProvisionRuntimeInput where
  Region : String
  rest : Nat
  deriving DecidableEq, Repr

/-- The answer of the provisioner: operation id and runtime id (both are
dereferenced at line 79, so they are not nil on a run that gets further). -/
structure ProvisionerResponse where
  ID : String
  RuntimeID : String
  deriving DecidableEq, Repr

/-- What the step sets of `internal.RuntimeState`. -/
structure RuntimeState where
  RuntimeID : String
  OperationID : String
  input : ProvisionRuntimeInput
  KymaVersion : String
  deriving DecidableEq, Repr

/-- What the step sets of `internal.Instance`; the rest is an opaque value. -/
structure Instance where
  InstanceID : String
  RuntimeID : String
  ProviderRegion : String
  rest : Nat
  deriving DecidableEq, Repr

/-- The calls of the step that are recorded. -/
inductive Call
  | ProvisionRuntime (globalAccountID subAccountID : String) (input : ProvisionRuntimeInput)
  | UpdateOperation (op : Operation)
  | Insert (rs : RuntimeState)
  | updateInstance (id runtimeID region : String)
  | GetByID (id : String)
  | Update (inst : Instance)
  | OperationFailed (op : Operation) (description : String)
  deriving DecidableEq, Repr

/-- The collaborators of the step over a world state `S`: the clock, the input
creator, the provisioner client, the operation manager (`OperationFailed`,
`UpdateOperation`: not under src/, taken as parameters), the runtime-state and
instance storages, and the predicates `kebError.IsTemporaryError` and
`dberr.IsConflict` (not under src/, taken as parameters). -/
structure StepEnv (S : Type) where
  now : S → Duration
  CreateProvisionClusterInput : Operation → S → Except WrappedError ProvisionRuntimeInput × S
  ProvisionRuntime : String → String → ProvisionRuntimeInput → S →
    Except WrappedError ProvisionerResponse × S
  IsTemporaryError : WrappedError → Bool
  OperationFailed : Operation → String → Option WrappedError → S →
    (Operation × Duration × Option WrappedError) × S
  UpdateOperation : Operation → (Operation → Operation) → S → (Operation × Duration) × S
  Insert : RuntimeState → S → Option WrappedError × S
  GetByID : String → S → Except WrappedError Instance × S
  Update : Instance → S → Option WrappedError × S
  IsConflict : WrappedError → Bool

/-- The constant `CreateRuntimeTimeout`, one hour. -/
def CreateRuntimeTimeout : Duration := 3600 * Second

/-- The constant `time.Minute`. -/
def Minute : Duration := 60 * Second

variable {S : Type}

/-- The method `CreateRuntimeWithoutKymaStep.updateInstance`. -/
def updateInstance (env : StepEnv S) (id runtimeID region : String) (w : S) :
    Option WrappedError × List Call × S :=
  match env.GetByID id w with
  | (Except.error err, w1) =>
    (some (WrappedError.wrap "while getting instance" err),
      [Call.updateInstance id runtimeID region, Call.GetByID id], w1)
  | (Except.ok inst, w1) =>
    let inst := { inst with RuntimeID := runtimeID, ProviderRegion := region }
    match env.Update inst w1 with
    | (some err, w2) =>
      (some (WrappedError.wrap "while updating instance" err),
        [Call.updateInstance id runtimeID region, Call.GetByID id, Call.Update inst], w2)
    | (none, w2) =>
      (none, [Call.updateInstance id runtimeID region, Call.GetByID id, Call.Update inst], w2)

/-- The method `CreateRuntimeWithoutKymaStep.createProvisionInput`; the setters
of the input creator and the two fields set on the request are part of the
collaborator `CreateProvisionClusterInput`. -/
def createProvisionInput (env : StepEnv S) (operation : Operation) (w : S) :
    Except WrappedError ProvisionRuntimeInput × S :=
  match env.CreateProvisionClusterInput operation w with
  | (Except.error err, w1) =>
    (Except.error (WrappedError.wrap "while building input for provisioner" err), w1)
  | (Except.ok request, w1) => (Except.ok request, w1)

/-- The function given to `operationManager.UpdateOperation` at lines 82 to 87. -/
def setProvisionerIDs (provisionerResponse : ProvisionerResponse) (operation : Operation) :
    Operation :=
  { operation with ProvisionerOperationID := provisionerResponse.ID,
                   RuntimeID := provisionerResponse.RuntimeID }

/-- The method `CreateRuntimeWithoutKymaStep.Run`: its three results, the calls
made, the world afterwards. -/
def Run (env : StepEnv S) (operation : Operation) (w : S) :
    (Operation × Duration × Option WrappedError) × List Call × S :=
  if operation.RuntimeID ≠ "" then ((operation, 0, none), [], w)
  else if env.now w - operation.UpdatedAt > CreateRuntimeTimeout then
    let r := env.OperationFailed operation
      "operation has reached the time limit: 1h0m0s" none w
    (r.1, [Call.OperationFailed operation "operation has reached the time limit: 1h0m0s"], r.2)
  else
    match createProvisionInput env operation w with
    | (Except.error err, w1) =>
      let r := env.OperationFailed operation
        "invalid operation data - cannot create provisioning input" (some err) w1
      (r.1, [Call.OperationFailed operation
        "invalid operation data - cannot create provisioning input"], r.2)
    | (Except.ok requestInput, w1) =>
      match env.ProvisionRuntime operation.GlobalAccountID operation.SubAccountID requestInput
        w1 with
      | (Except.error err, w2) =>
        if env.IsTemporaryError err then
          ((operation, 5 * Second, none),
            [Call.ProvisionRuntime operation.GlobalAccountID operation.SubAccountID
              requestInput], w2)
        else
          let r := env.OperationFailed operation "call to the provisioner service failed"
            (some err) w2
          (r.1, [Call.ProvisionRuntime operation.GlobalAccountID operation.SubAccountID
              requestInput,
            Call.OperationFailed operation "call to the provisioner service failed"], r.2)
      | (Except.ok provisionerResponse, w2) =>
        let called := [Call.ProvisionRuntime operation.GlobalAccountID operation.SubAccountID
          requestInput, Call.UpdateOperation operation]
        match env.UpdateOperation operation (setProvisionerIDs provisionerResponse) w2 with
        | ((operation, again), w3) =>
          if again ≠ 0 then ((operation, 5 * Second, none), called, w3)
          else
            let rs : RuntimeState :=
              { RuntimeID := provisionerResponse.RuntimeID, OperationID := operation.ID,
                input := requestInput, KymaVersion := operation.RuntimeVersion }
            match env.Insert rs w3 with
            | (some _, w4) => ((operation, 10 * Second, none), called ++ [Call.Insert rs], w4)
            | (none, w4) =>
              let u := updateInstance env operation.InstanceID provisionerResponse.RuntimeID
                requestInput.Region w4
              match u.1 with
              | none => ((operation, 0, none), called ++ Call.Insert rs :: u.2.1, u.2.2)
              | some err =>
                if env.IsConflict err then
                  let u2 := updateInstance env operation.InstanceID
                    provisionerResponse.RuntimeID requestInput.Region u.2.2
                  match u2.1 with
                  | some _ =>
                    ((operation, 1 * Minute, none),
                      called ++ Call.Insert rs :: (u.2.1 ++ u2.2.1), u2.2.2)
                  | none =>
                    ((operation, 0, none),
                      called ++ Call.Insert rs :: (u.2.1 ++ u2.2.1), u2.2.2)
                else ((operation, 0, none), called ++ Call.Insert rs :: u.2.1, u.2.2)

/-- Whether the call is the start of an `updateInstance` attempt. -/
def Call.isUpdateInstance : Call → Bool
  | Call.updateInstance _ _ _ => true
  | _ => false

end Provisioning

namespace Provisioning

/-- Whether the chain of wrappers ends in a storage conflict. -/
def WrappedError.isConflict : WrappedError → Bool
  | WrappedError.cause (GoError.conflict _) => true
  | WrappedError.cause _ => false
  | WrappedError.wrap _ inner => inner.isConflict

/-- A concrete world for the step: the number of instance updates asked so far.
The provisioner, the operation manager and the runtime-state storage succeed;
the first instance update fails with a conflict and the later ones fail with
another error when `second` is true, and succeed otherwise. -/
def sampleEnv (second : Bool) : StepEnv Nat where
  now _ := 0
  CreateProvisionClusterInput _ w := (Except.ok { Region := "eu", rest := 0 }, w)
  ProvisionRuntime _ _ _ w := (Except.ok { ID := "pid", RuntimeID := "rid" }, w)
  IsTemporaryError _ := false
  OperationFailed op description _ w :=
    ((op, 0, some (WrappedError.cause (GoError.errorString description))), w)
  UpdateOperation op f w := ((f op, 0), w)
  Insert _ w := (none, w)
  GetByID id w :=
    (Except.ok { InstanceID := id, RuntimeID := "", ProviderRegion := "", rest := 0 }, w)
  Update _ w :=
    if w = 0 then (some (WrappedError.cause (GoError.conflict "conflict")), w + 1)
    else if second then (some (WrappedError.cause (GoError.errorString "down")), w + 1)
    else (none, w + 1)
  IsConflict err := err.isConflict

/-- An operation of the step without runtime id. -/
def sampleOperation : Operation :=
  { ID := "op", InstanceID := "inst", RuntimeID := "", ProvisionerOperationID := "",
    UpdatedAt := 0, GlobalAccountID := "ga", SubAccountID := "sa", RuntimeVersion := "2.0" }

end Provisioning

/-! ## The step `BTPOperatorCleanupStep`
(`internal/process/deprovisioning/btp_operator_cleanup.go`) -/

namespace Deprovisioning

/-- The fields of `internal.Operation` read by the step. -/
structure Operation where
  UserAgent : String
  Temporary : Bool
  PlanID : String
  RuntimeID : String
  GlobalAccountID : String
  deriving DecidableEq, Repr

/-- The type `schema.GroupVersionKind`. -/
structure GroupVersionKind where
  Group : String
  Version : String
  Kind : String
  deriving DecidableEq, Repr

/-- The constant `btpOperatorGroup`. -/
def btpOperatorGroup : String := "services.cloud.sap.com"

/-- The constant `btpOperatorApiVer`. -/
def btpOperatorApiVer : String := "v1"

/-- The constant `btpOperatorServiceInstance`. -/
def btpOperatorServiceInstance : String := "ServiceInstance"

/-- The constant `btpOperatorBinding`. -/
def btpOperatorBinding : String := "ServiceBinding"

/-- An error of the Kubernetes client: its message and what
`k8serrors.IsNotFound` and `meta.IsNoMatchError` answer for it. -/
structure KubeError where
  message : String
  notFound : Bool
  noMatch : Bool
  deriving DecidableEq, Repr

/-- The errors handled by the step: an error of the Kubernetes client, a plain
error (`fmt.Errorf`, the provisioner client), a temporary error of `kebError`. -/
inductive StepError
  | kube (e : KubeError)
  | errorString (msg : String)
  | temporary (msg : String)
  deriving DecidableEq, Repr

/-- The method `Error()`. -/
def StepError.Error : StepError → String
  | StepError.kube e => e.message
  | StepError.errorString msg => msg
  | StepError.temporary msg => msg

/-- What the step reads of an unstructured resource. -/
structure Resource where
  Namespace : String
  Name : String
  Finalizers : List String
  deriving DecidableEq, Repr

/-- The calls of `client.Client` made by the step, over a cluster state `K`:
listing the namespaces, listing the resources of a kind in a namespace (the
items read and the error), updating a resource, `DeleteAllOf` for a kind in a
namespace, and `Get` of a custom resource definition by name. -/
structure Client (K : Type) where
  ListNamespaces : K → Except KubeError (List String) × K
  ListResources : GroupVersionKind → String → K → (List Resource × Option KubeError) × K
  Update : Resource → K → Option KubeError × K
  DeleteAllOf : GroupVersionKind → String → K → Option KubeError × K
  Get : String → K → Option KubeError × K

/-- The collaborators of the step: `provisionerClient.RuntimeStatus` (the
kubeconfig pointer of the status, or an error), `k8sClientProvider` (the client,
which may be nil, or an error) and `handleError` (declared outside src/, taken
as a parameter). -/
structure CleanupEnv (K : Type) where
  RuntimeStatus : String → String → K → Except StepError (Option String) × K
  k8sClientProvider : String → K → Except StepError (Option (Client K)) × K
  handleError : String → Operation → StepError → String → K →
    (Operation × Duration × Option StepError) × K

variable {K : Type}

/-- The method `BTPOperatorCleanupStep.Name`. -/
def Name : String := "BTPOperator_Cleanup"

/-- The method `isNotFoundErr`: `strings.Contains(err.Error(), "not found")`. -/
def isNotFoundErr (err : StepError) : Bool :=
  decide ("not found".toList <:+: err.Error.toList)

/-- The method `getKubeClient`. -/
def getKubeClient (env : CleanupEnv K) (operation : Operation) (w : K) :
    (Option (Client K) × Option StepError) × K :=
  match env.RuntimeStatus operation.GlobalAccountID operation.RuntimeID w with
  | (Except.error err, w1) =>
    if isNotFoundErr err then ((none, none), w1) else ((none, some err), w1)
  | (Except.ok none, w1) => ((none, some (StepError.temporary "empty kubeconfig")), w1)
  | (Except.ok (some k), w1) =>
    if k.utf8ByteSize < 10 then
      ((none, some (StepError.temporary "kubeconfig suspiciously small, requeuing")), w1)
    else
      match env.k8sClientProvider k w1 with
      | (Except.error err, w2) =>
        ((none, some (StepError.temporary
          ("failed to create k8s client from the kubeconfig: " ++ err.Error))), w2)
      | (Except.ok cli, w2) => ((cli, none), w2)

/-- The method `checkCRDExistence`. -/
def checkCRDExistence (k8sClient : Client K) (gvk : GroupVersionKind) (w : K) :
    (Bool × Option StepError) × K :=
  let crdName := gvk.Kind.toLower ++ "s." ++ gvk.Group
  match k8sClient.Get crdName w with
  | (some err, w1) =>
    if err.notFound ∨ err.noMatch then ((false, none), w1)
    else ((false, some (StepError.kube err)), w1)
  | (none, w1) => ((true, none), w1)

/-- The inner loop `for _, r := range list.Items` of `removeFinalizers`. -/
def removeFinalizersOfItems (k8sClient : Client K) (gvk : GroupVersionKind) :
    List Resource → List String → K → List String × K
  | [], errors, w => (errors, w)
  | r :: rest, errors, w =>
    match k8sClient.Update { r with Finalizers := [] } w with
    | (some err, w1) =>
      removeFinalizersOfItems k8sClient gvk rest
        (errors ++ ["failed remove finalizer for resource " ++ gvk.Kind ++ " " ++
          r.Namespace ++ "/" ++ r.Name ++ ": " ++ err.message]) w1
    | (none, w1) => removeFinalizersOfItems k8sClient gvk rest errors w1

/-- The loop `for _, ns := range namespaces.Items` of `removeFinalizers`. -/
def removeFinalizersLoop (k8sClient : Client K) (gvk listGvk : GroupVersionKind) :
    List String → List String → K → List String × K
  | [], errors, w => (errors, w)
  | ns :: rest, errors, w =>
    match k8sClient.ListResources listGvk ns w with
    | ((items, some err), w1) =>
      let r := removeFinalizersOfItems k8sClient gvk items
        (errors ++ ["failed listing resource " ++ gvk.Kind ++ " in namespace " ++ ns ++ ": " ++
          err.message]) w1
      removeFinalizersLoop k8sClient gvk listGvk rest r.1 r.2
    | ((items, none), w1) =>
      let r := removeFinalizersOfItems k8sClient gvk items errors w1
      removeFinalizersLoop k8sClient gvk listGvk rest r.1 r.2

/-- The method `removeFinalizers`. -/
def removeFinalizers (k8sClient : Client K) (namespaces : List String) (gvk : GroupVersionKind)
    (w : K) : Option StepError × K :=
  let listGvk := { gvk with Kind := gvk.Kind ++ "List" }
  let r := removeFinalizersLoop k8sClient gvk listGvk namespaces [] w
  if r.1.length ≠ 0 then
    (some (StepError.errorString ("failed to remove finalizers: " ++ ";".intercalate r.1)), r.2)
  else (none, r.2)

/-- The loop `for _, ns := range namespaces.Items` of `removeResources`. -/
def deleteAllLoop (k8sClient : Client K) (gvk : GroupVersionKind) :
    List String → List String → K → List String × K
  | [], errors, w => (errors, w)
  | ns :: rest, errors, w =>
    match k8sClient.DeleteAllOf gvk ns w with
    | (some err, w1) => deleteAllLoop k8sClient gvk rest (errors ++ [err.message]) w1
    | (none, w1) => deleteAllLoop k8sClient gvk rest errors w1

/-- The method `removeResources`.  It has no result: the slice `errors` is a
parameter passed by value, so what it appends stays in its own copy.  That copy
is handed back here only to be looked at; the caller's slice is not touched. -/
def removeResources (k8sClient : Client K) (gvk : GroupVersionKind) (namespaces : List String)
    (errors : List String) (w : K) : List String × K :=
  let r := deleteAllLoop k8sClient gvk namespaces errors w
  match removeFinalizers k8sClient namespaces gvk r.2 with
  | (some err, w1) => (r.1 ++ [err.Error], w1)
  | (none, w1) => (r.1, w1)

/-- The method `attemptToRemoveFinalizers`. -/
def attemptToRemoveFinalizers (env : CleanupEnv K) (op : Operation) (w : K) : K :=
  match getKubeClient env op w with
  | ((_, some _), w1) => w1
  | ((none, none), w1) => w1
  | ((some k8sClient, none), w1) =>
    match k8sClient.ListNamespaces w1 with
    | (Except.error _, w2) => w2
    | (Except.ok namespaces, w2) =>
      let r := removeFinalizers k8sClient namespaces
        { Group := btpOperatorGroup, Version := btpOperatorApiVer, Kind := btpOperatorBinding } w2
      (removeFinalizers k8sClient namespaces
        { Group := btpOperatorGroup, Version := btpOperatorApiVer,
          Kind := btpOperatorServiceInstance } r.2).2

/-- The method `retryOnError`. -/
def retryOnError (env : CleanupEnv K) (op : Operation) (err : Option StepError) (msg : String)
    (w : K) : (Operation × Duration × Option StepError) × K :=
  match err with
  | some e =>
    match env.handleError Name op e msg w with
    | ((op, retry, err2), w1) =>
      if retry ≠ 0 then ((op, retry, err2), w1)
      else ((op, retry, err2), attemptToRemoveFinalizers env op w1)
  | none => ((op, 0, none), w)

/-- The method `softDelete`. -/
def softDelete (env : CleanupEnv K) (operation : Operation) (w : K) :
    (Operation × Duration × Option StepError) × K :=
  match getKubeClient env operation w with
  | ((_, some err), w1) => retryOnError env operation (some err) "failed to get kube client" w1
  | ((none, none), w1) => retryOnError env operation none "failed to get kube client" w1
  | ((some k8sClient, none), w1) =>
    match k8sClient.ListNamespaces w1 with
    | (Except.error err, w2) =>
      retryOnError env operation (some (StepError.kube err)) "failed to list namespaces" w2
    | (Except.ok namespaces, w2) =>
      let errors : List String := []
      let gvk : GroupVersionKind :=
        { Group := btpOperatorGroup, Version := btpOperatorApiVer, Kind := btpOperatorBinding }
      match checkCRDExistence k8sClient gvk w2 with
      | ((_, some err), w3) => ((operation, 0, some err), w3)
      | ((SBCrdExists, none), w3) =>
        let w4 := if SBCrdExists then (removeResources k8sClient gvk namespaces errors w3).2
          else w3
        let gvk := { gvk with Kind := btpOperatorServiceInstance }
        match checkCRDExistence k8sClient gvk w4 with
        | ((_, some err), w5) => ((operation, 0, some err), w5)
        | ((SICrdExists, none), w5) =>
          let w6 := if SICrdExists then
            (removeResources k8sClient gvk namespaces errors w5).2 else w5
          if errors.length ≠ 0 then
            retryOnError env operation (some (StepError.errorString (";".intercalate errors)))
              "failed to cleanup" w6
          else ((operation, 0, none), w6)

end Deprovisioning

namespace Deprovisioning

/-- A client over a trivial cluster state that knows one namespace and both
custom resource definitions, and whose every deletion, listing of resources and
update fails. -/
def failingClient : Client Unit where
  ListNamespaces w := (Except.ok ["default"], w)
  ListResources _ ns w :=
    (([{ Namespace := ns, Name := "binding", Finalizers := ["keep"] }],
      some { message := "list failed", notFound := false, noMatch := false }), w)
  Update _ w := (some { message := "update failed", notFound := false, noMatch := false }, w)
  DeleteAllOf _ _ w :=
    (some { message := "delete failed", notFound := false, noMatch := false }, w)
  Get _ w := (none, w)

/-- Collaborators that hand out `failingClient` for a kubeconfig of twelve
bytes; `handleError` asks for a retry in ten seconds. -/
def failingEnv : CleanupEnv Unit where
  RuntimeStatus _ _ w := (Except.ok (some "kubeconfig12"), w)
  k8sClientProvider _ w := (Except.ok (some failingClient), w)
  handleError _ op err _ w := ((op, 10 * Second, some err), w)

/-- An operation sent by the account cleanup job. -/
def cleanupOperation : Operation :=
  { UserAgent := "accountcleanup-job", Temporary := false, PlanID := "trial",
    RuntimeID := "rid", GlobalAccountID := "ga" }

end Deprovisioning

/-! ## The order in which stages are finished -/

/-- `FinishedStages` once the given stages have been gone through in order on
top of `finished`: the name of each stage is appended unless it is present. -/
def finishedAfter (finished : List String) : List (stage W) → List String
  | [] => finished
  | s :: rest =>
    finishedAfter (if s.name ∈ finished then finished else finished ++ [s.name]) rest

/-! ## The pacing of the retry loop -/

/-- Whether the effect is a call of `Run`. -/
def Effect.isRun : Effect → Bool
  | Effect.Run _ _ => true
  | _ => false

/-- Every sleep of the list directly follows a published step-processed event
and lasts the delay `When` of that event divided by `N` (integer division of
Go, truncating). -/
def SleepsScaled (N : Int) (l : List Effect) : Prop :=
  ∀ tr1 d tr2, l = tr1 ++ Effect.Sleep d :: tr2 →
    ∃ pre sp o o1, tr1 = pre ++ [Effect.Publish (Event.OperationStepProcessed sp o o1)] ∧
      d = Int.tdiv sp.When N

/-- A step that takes one clock tick, leaves the operation as it is and asks for
the delay `d`. -/
def delayStep (n : String) (d : Duration) : StepWithCondition World :=
  { Name := n,
    Run := fun op w => (RunOutcome.returns op d none, { w with clock := w.clock + 1 }),
    condition := none }

/-- The clock ticks an effect accounts for on a clock that only `Run` and
`Sleep` advance: for a published step-processed event its `Duration` (the time
the attempt took), for a sleep its length (a sleep of negative length returns at
once). -/
def Effect.ticks : Effect → Duration
  | Effect.Publish (Event.OperationStepProcessed sp _ _) => sp.Duration
  | Effect.Sleep d => max d 0
  | _ => 0

/-- The clock ticks accounted for by a list of effects. -/
def elapsedOf : List Effect → Duration
  | [] => 0
  | x :: xs => x.ticks + elapsedOf xs

/-- Every effect of the list, taken with the time elapsed before it (starting
from `acc`) and with the effects recorded after it, satisfies `Q`. -/
def EachWithElapsed (Q : Duration → Effect → List Effect → Prop) :
    Duration → List Effect → Prop
  | _, [] => True
  | acc, x :: xs => Q acc x xs ∧ EachWithElapsed Q (acc + x.ticks) xs

/-- The property of a sleep: it starts while the elapsed time is at most `T`. -/
def SleepWithin (T : Duration) (acc : Duration) (x : Effect) (_rest : List Effect) : Prop :=
  ∀ d, x = Effect.Sleep d → acc ≤ T

/-- The property of the event published at the end of an attempt: when another
attempt follows, the attempt completed with an elapsed time of at most `T`. -/
def AttemptWithin (T : Duration) (acc : Duration) (x : Effect) (rest : List Effect) : Prop :=
  ∀ ev, x = Effect.Publish ev → (∃ y ∈ rest, y.isRun = true) → acc + x.ticks ≤ T

/-- Stage "A" whose only binding has a false predicate, then stage "B" with one
always-succeeding step. -/
def stagesSkipRun : List (stage World) :=
  [{ name := "A", steps := [guardedStep "g"] }, { name := "B", steps := [okStep "b"] }]

/-- Whether the effect is a predicate call that answered false. -/
def Effect.isRefusal : Effect → Bool
  | Effect.Condition _ _ _ false => true
  | _ => false

/-- The manager obtained through `DefineStages` and `AddStep` when the name "A"
is declared twice and the always-succeeding steps "a" and "b" are added to "A":
both steps go to the first stage of that name. -/
def managerTwiceA : StagedManager World :=
  (AddStep (AddStep (DefineStages (managerOf []) ["A", "A"]) "A" (okStep "a").toStep none).1
    "A" (okStep "b").toStep none).1

/-- A binding whose step returns `(op, 0, nil)` and whose predicate holds of the
operations with payload 0. -/
def payloadStep (n : String) : StepWithCondition World :=
  { Name := n, Run := fun op w => (RunOutcome.returns op 0 none, w),
    condition := some (fun o => decide (o.payload = 0)) }

/-- Stage "A" with an always-succeeding step without predicate, then stage "B"
whose step has a predicate that holds of the operations with payload 0. -/
def stagesAsked : List (stage World) :=
  [{ name := "A", steps := [okStep "a"] }, { name := "B", steps := [payloadStep "b"] }]

end KEB

namespace KEB

variable {W : Type}

/-! ## Lists of effects -/

theorem eachWithRest_decompose {Q : Effect → List Effect → Prop} {tr : List Effect} :
    EachWithRest Q tr ↔ ∀ tr1 x tr2, tr = tr1 ++ x :: tr2 → Q x tr2 := by
  induction tr with
  | nil =>
    constructor
    · intro _ tr1 x tr2 h
      cases tr1 <;> simp at h
    · intro _
      trivial
  | cons y ys ih =>
    constructor
    · rintro ⟨hy, hys⟩ tr1 x tr2 h
      cases tr1 with
      | nil =>
        simp only [List.nil_append, List.cons.injEq] at h
        obtain ⟨rfl, rfl⟩ := h
        exact hy
      | cons z zs =>
        simp only [List.cons_append, List.cons.injEq] at h
        exact ih.mp hys zs x tr2 h.2
    · intro h
      refine ⟨h [] y ys rfl, ih.mpr ?_⟩
      intro tr1 x tr2 e
      exact h (y :: tr1) x tr2 (by simp [e])

theorem eachWithRest_append {P Q : Effect → List Effect → Prop} {a b : List Effect}
    (ha : EachWithRest P a) (h : ∀ x xs, P x xs → Q x (xs ++ b))
    (hb : EachWithRest Q b) : EachWithRest Q (a ++ b) := by
  induction a with
  | nil => simpa using hb
  | cons y ys ih => exact ⟨h y ys ha.1, ih ha.2⟩

theorem eachWithRest_of_forall {Q : Effect → List Effect → Prop} {a : List Effect}
    (h : ∀ x ∈ a, ∀ xs, Q x xs) : EachWithRest Q a := by
  induction a with
  | nil => trivial
  | cons y ys ih =>
    exact ⟨h y (List.mem_cons_self _ _) ys, ih (fun x hx => h x (List.mem_cons_of_mem _ hx))⟩

theorem eachWithRest_mono {P Q : Effect → List Effect → Prop} {a : List Effect}
    (ha : EachWithRest P a) (h : ∀ x xs, P x xs → Q x xs) : EachWithRest Q a := by
  induction a with
  | nil => trivial
  | cons y ys ih => exact ⟨h y ys ha.1, ih ha.2⟩

/-! ## The runner -/

theorem OperationFailed_trace (env : Env W) (operation : Operation) (description : String)
    (err : GoError) (w : W) :
    (OperationFailed env operation description err w).2.1 =
      [Effect.OperationFailed operation description err,
        Effect.UpdateOperation
          { operation with State := LastOperationState.Failed,
                           LastError := some (failureOf description err) }] := by
  simp only [OperationFailed]
  split <;> rfl

theorem recovered_trace (env : Env W) (operation : Operation) (backoff : Duration) (v : String)
    (w : W) :
    (recovered env operation backoff v w).trace =
      [Effect.Panic v,
        Effect.OperationFailed operation "recovered from panic" (GoError.errorString v),
        Effect.UpdateOperation
          { operation with State := LastOperationState.Failed,
                           LastError := some (failureOf "recovered from panic"
                             (GoError.errorString v)) }] := by
  simp [recovered, OperationFailed_trace]

theorem recovered_ret (env : Env W) (operation : Operation) (backoff : Duration) (v : String)
    (w : W) :
    ∃ op, (recovered env operation backoff v w).ret =
      some (op, backoff, some (GoError.errorString v)) :=
  ⟨_, rfl⟩

theorem runStepLoop_inRunner (env : Env W) (m : StagedManager W) (step : Step W)
    (operation : Operation) (begin : Duration) (fuel : Nat) :
    ∀ (processedOperation : Operation) (backoff : Duration) (w : W),
      ∀ e ∈ (runStepLoop env m step operation begin fuel processedOperation backoff w).trace,
        e.inRunner = true := by
  induction fuel with
  | zero => intro p b w e he; simp [runStepLoop] at he
  | succ n ih =>
    intro p b w e he
    unfold runStepLoop at he
    split at he
    · simp only [recovered_trace, List.mem_cons] at he
      rcases he with rfl | rfl | rfl | rfl | he <;> first | rfl | simp at he
    · simp only at he
      split_ifs at he
      · simp only [List.mem_cons] at he
        rcases he with rfl | rfl | he <;> first | rfl | simp at he
      · simp only [recovered_trace, List.mem_cons] at he
        rcases he with rfl | rfl | rfl | rfl | rfl | he <;> first | rfl | simp at he
      · simp only [List.mem_cons] at he
        rcases he with rfl | rfl | rfl | he
        · rfl
        · rfl
        · rfl
        · exact ih _ _ _ e he
    · simp only at he
      split_ifs at he
      · simp only [List.mem_cons] at he
        rcases he with rfl | rfl | rfl | he <;> first | rfl | simp at he
      · simp only [recovered_trace, List.mem_cons] at he
        rcases he with rfl | rfl | rfl | rfl | rfl | rfl | he <;> first | rfl | simp at he
      · simp only [List.mem_cons] at he
        rcases he with rfl | rfl | rfl | rfl | he
        · rfl
        · rfl
        · rfl
        · rfl
        · exact ih _ _ _ e he

theorem runStepLoop_panic (env : Env W) (m : StagedManager W) (step : Step W)
    (operation : Operation) (begin : Duration) (fuel : Nat) :
    ∀ (processedOperation : Operation) (backoff : Duration) (w : W),
      EachWithRest
        (PanicInRunner operation
          (runStepLoop env m step operation begin fuel processedOperation backoff w).ret)
        (runStepLoop env m step operation begin fuel processedOperation backoff w).trace := by
  induction fuel with
  | zero => intro p b w; simp [runStepLoop, EachWithRest]
  | succ n ih =>
    intro p b w
    unfold runStepLoop
    split
    · simp [EachWithRest, PanicInRunner, recovered, OperationFailed_trace]
    · dsimp only
      split_ifs
      · simp [EachWithRest, PanicInRunner]
      · simp [EachWithRest, PanicInRunner, recovered, OperationFailed_trace]
      · simp only [EachWithRest]
        refine ⟨?_, ?_, ?_, ih _ _ _⟩ <;> (intro v h; cases h)
    · dsimp only
      split_ifs
      · simp [EachWithRest, PanicInRunner]
      · simp [EachWithRest, PanicInRunner, recovered, OperationFailed_trace]
      · simp only [EachWithRest]
        refine ⟨?_, ?_, ?_, ?_, ih _ _ _⟩ <;> (intro v h; cases h)

theorem mem_conditionEffects {stageName : String} {step : StepWithCondition W}
    {op : Operation} {e : Effect} (h : e ∈ conditionEffects stageName step op) :
    ∃ r, e = Effect.Condition stageName step.Name op r := by
  unfold conditionEffects at h
  split at h
  · simp at h
  · simp only [List.mem_singleton] at h
    exact ⟨_, h⟩

/-! ## The loops of `Execute` -/

theorem stepsLoop_returnedExit (env : Env W) (m : StagedManager W) (fuel : Nat)
    (stageName : String) (steps : List (StepWithCondition W)) :
    ∀ (op : Operation) (w : W),
      EachWithRest (ReturnedExit (stepsLoop env m fuel stageName steps op w).flow.toRet)
        (stepsLoop env m fuel stageName steps op w).trace := by
  induction steps with
  | nil => intro op w; simp [stepsLoop, EachWithRest]
  | cons step rest ih =>
    intro op w
    have hpre : ∀ x ∈ conditionEffects stageName step op ++
        Effect.RunStep stageName step.Name op :: (runStep env m fuel step.toStep op w).trace,
        ∀ (Q : Option (Duration × Option GoError)) (xs : List Effect), ReturnedExit Q x xs := by
      intro x hx Q xs o b e out hxe _
      subst hxe
      simp only [List.mem_append, List.mem_cons] at hx
      rcases hx with hx | hx | hx
      · obtain ⟨r, hr⟩ := mem_conditionEffects hx
        cases hr
      · cases hx
      · have := runStepLoop_inRunner _ _ _ _ _ _ _ _ _ _ hx
        simp [Effect.inRunner] at this
    unfold stepsLoop
    split_ifs with hskip
    · simp only
      refine eachWithRest_append (P := fun x _ => ∀ xs, ReturnedExit _ x xs)
        (eachWithRest_of_forall ?_) (fun x xs h => h _) (ih op w)
      intro x hx _ xs
      exact hpre x (List.mem_append_left _ hx) _ xs
    · simp only
      split
      · exact eachWithRest_of_forall fun x hx xs => hpre x hx _ xs
      · refine eachWithRest_append (P := fun x _ => ∀ xs, ReturnedExit _ x xs)
          (eachWithRest_of_forall fun x hx _ xs => hpre x hx _ xs) (fun x xs h => h _) ?_
        refine ⟨?_, trivial⟩
        intro o b e out hx hout
        cases hx
        simp only [exitOf] at hout
        simp [Flow.toRet, ← hout]
      · split_ifs with hterm hwhen
        · refine eachWithRest_append (P := fun x _ => ∀ xs, ReturnedExit _ x xs)
            (eachWithRest_of_forall fun x hx _ xs => hpre x hx _ xs) (fun x xs h => h _) ?_
          refine ⟨?_, trivial⟩
          intro o b e out hx hout
          cases hx
          simp only [exitOf, hterm, if_true] at hout
          simp [Flow.toRet, ← hout]
        · refine eachWithRest_append (P := fun x _ => ∀ xs, ReturnedExit _ x xs)
            (eachWithRest_of_forall fun x hx _ xs => hpre x hx _ xs) (fun x xs h => h _) ?_
          refine ⟨?_, trivial⟩
          intro o b e out hx hout
          cases hx
          simp only [exitOf, hterm, if_false, hwhen, if_true] at hout
          simp [Flow.toRet, ← hout]
        · refine eachWithRest_append (P := fun x _ => ∀ xs, ReturnedExit _ x xs)
            (eachWithRest_of_forall fun x hx _ xs => hpre x hx _ xs) (fun x xs h => h _) ?_
          refine ⟨?_, ih _ _⟩
          intro o b e out hx hout
          cases hx
          simp [exitOf, hterm, hwhen] at hout

theorem stepsLoop_panicRecovered (env : Env W) (m : StagedManager W) (fuel : Nat)
    (stageName : String) (steps : List (StepWithCondition W)) :
    ∀ (op : Operation) (w : W),
      EachWithRest (PanicRecovered (stepsLoop env m fuel stageName steps op w).flow.toRet)
        (stepsLoop env m fuel stageName steps op w).trace := by
  induction steps with
  | nil => intro op w; simp [stepsLoop, EachWithRest]
  | cons step rest ih =>
    intro op w
    have hce : ∀ x ∈ conditionEffects stageName step op,
        ∀ (Q : Option (Duration × Option GoError)) (xs : List Effect), PanicRecovered Q x xs := by
      intro x hx Q xs v hv
      subst hv
      obtain ⟨r, hr⟩ := mem_conditionEffects hx
      cases hr
    have hrun := runStepLoop_panic env m step.toStep op (env.now w) fuel op 0 w
    have key : ∀ (ret : Option (Duration × Option GoError)) (tail : List Effect),
        (∀ x xs, PanicInRunner op (runStep env m fuel step.toStep op w).ret x xs →
          PanicRecovered ret x (xs ++ tail)) →
        EachWithRest (PanicRecovered ret) tail →
        EachWithRest (PanicRecovered ret)
          ((conditionEffects stageName step op ++
            Effect.RunStep stageName step.Name op ::
              (runStep env m fuel step.toStep op w).trace) ++ tail) := by
      intro ret tail h1 h2
      rw [List.append_assoc, List.cons_append]
      refine eachWithRest_append (P := fun x _ => ∀ xs, PanicRecovered ret x xs)
        (eachWithRest_of_forall fun x hx _ xs => hce x hx _ xs) (fun x xs h => h _) ?_
      refine ⟨(by intro v h; cases h), ?_⟩
      exact eachWithRest_append hrun h1 h2
    unfold stepsLoop
    split_ifs with hskip
    · dsimp only
      exact eachWithRest_append (P := fun x _ => ∀ xs, PanicRecovered _ x xs)
        (eachWithRest_of_forall fun x hx _ xs => hce x hx _ xs) (fun x xs h => h _) (ih op w)
    · dsimp only
      split
      · rename_i hret
        have := key none [] (by
          intro x xs h v hv
          obtain ⟨_, o, b, hb⟩ := h v hv
          rw [hret] at hb
          cases hb) trivial
        simpa [Flow.toRet] using this
      · rename_i o when err hret
        refine key _ _ ?_ ⟨(by intro v h; cases h), trivial⟩
        intro x xs h v hv
        obtain ⟨hxs, o1, b1, hb⟩ := h v hv
        rw [hret] at hb
        cases hb
        exact ⟨op, o, when, by simp [hxs], rfl⟩
      · rename_i o when hret
        have hno : ∀ (ret : Option (Duration × Option GoError)) (tail : List Effect),
            ∀ x xs, PanicInRunner op (runStep env m fuel step.toStep op w).ret x xs →
              PanicRecovered ret x (xs ++ tail) := by
          intro ret tail x xs h v hv
          obtain ⟨_, o1, b1, hb⟩ := h v hv
          rw [hret] at hb
          cases hb
        split_ifs with hterm hwhen
        · exact key _ _ (hno _ _) ⟨(by intro v h; cases h), trivial⟩
        · exact key _ _ (hno _ _) ⟨(by intro v h; cases h), trivial⟩
        · exact key _ _ (hno _ _) ⟨(by intro v h; cases h), ih _ _⟩

theorem saveFinishedStage_trace (env : Env W) (op : Operation) (s : stage W) (w : W) :
    (saveFinishedStage env op s w).2.2.1 = [Effect.UpdateOperation (op.FinishStage s.name)] := by
  simp only [saveFinishedStage]
  split <;> rfl

/-- A property of markers that holds along every steps loop holds along the
stages loop. -/
theorem stagesLoop_lift (env : Env W) (m : StagedManager W) (fuel : Nat)
    (Q : Option (Duration × Option GoError) → Effect → List Effect → Prop)
    (hsteps : ∀ stageName steps op w,
      EachWithRest (Q (stepsLoop env m fuel stageName steps op w).flow.toRet)
        (stepsLoop env m fuel stageName steps op w).trace)
    (hother : ∀ ret x xs, (∀ op d e, x ≠ Effect.Returned op d e) → (∀ v, x ≠ Effect.Panic v) →
      Q ret x xs)
    (hnone : ∀ ret x xs tail, Q none x xs → Q ret x (xs ++ tail))
    (stages : List (stage W)) :
    ∀ (op : Operation) (w : W),
      EachWithRest (Q (stagesLoop env m fuel stages op w).ret)
        (stagesLoop env m fuel stages op w).trace := by
  induction stages with
  | nil =>
    intro op w
    simp only [stagesLoop]
    split <;>
    · simp only [EachWithRest, and_true]
      exact ⟨hother _ _ _ (by intro _ _ _ h; cases h) (by intro _ h; cases h),
        hother _ _ _ (by intro _ _ _ h; cases h) (by intro _ h; cases h)⟩
  | cons s rest ih =>
    intro op w
    unfold stagesLoop
    split_ifs with hfin
    · exact ih op w
    · dsimp only
      have hs := hsteps s.name s.steps op w
      split
      · rename_i hflow
        rw [hflow] at hs
        exact hs
      · rename_i when err hflow
        rw [hflow] at hs
        exact hs
      · rename_i o hflow
        rw [hflow] at hs
        have htr := saveFinishedStage_trace env o s (stepsLoop env m fuel s.name s.steps op w).world
        split
        · rename_i hsave
          rw [hsave] at htr
          dsimp only at htr
          subst htr
          refine eachWithRest_append hs (fun x xs h => hnone _ x xs _ h) ⟨?_, trivial⟩
          exact hother _ _ _ (by intro _ _ _ h; cases h) (by intro _ h; cases h)
        · rename_i hsave
          rw [hsave] at htr
          dsimp only at htr
          subst htr
          dsimp only
          rw [List.append_assoc]
          refine eachWithRest_append hs (fun x xs h => hnone _ x xs _ h) ⟨?_, ih _ _⟩
          exact hother _ _ _ (by intro _ _ _ h; cases h) (by intro _ h; cases h)

/-- A property of markers that holds along every steps loop holds along
`Execute`. -/
theorem Execute_lift (env : Env W) (m : StagedManager W) (fuel : Nat)
    (Q : Option (Duration × Option GoError) → Effect → List Effect → Prop)
    (hsteps : ∀ stageName steps op w,
      EachWithRest (Q (stepsLoop env m fuel stageName steps op w).flow.toRet)
        (stepsLoop env m fuel stageName steps op w).trace)
    (hother : ∀ ret x xs, (∀ op d e, x ≠ Effect.Returned op d e) → (∀ v, x ≠ Effect.Panic v) →
      Q ret x xs)
    (hnone : ∀ ret x xs tail, Q none x xs → Q ret x (xs ++ tail))
    (operationID : String) (w : W) :
    EachWithRest (Q (Execute env m fuel operationID w).ret)
      (Execute env m fuel operationID w).trace := by
  have hget : ∀ ret xs, Q ret (Effect.GetOperationByID operationID) xs := fun ret xs =>
    hother _ _ _ (by intro _ _ _ h; cases h) (by intro _ h; cases h)
  have hupd : ∀ ret o xs, Q ret (Effect.UpdateOperation o) xs := fun ret o xs =>
    hother _ _ _ (by intro _ _ _ h; cases h) (by intro _ h; cases h)
  have hpub : ∀ ret e xs, Q ret (Effect.Publish e) xs := fun ret e xs =>
    hother _ _ _ (by intro _ _ _ h; cases h) (by intro _ h; cases h)
  unfold Execute
  split
  · exact ⟨hget _ _, trivial⟩
  · split_ifs with htime
    · dsimp only
      split
      · simp only [callPubSubOutsideSteps, EachWithRest, and_true]
        exact ⟨hget _ _, hupd _ _ _, hpub _ _ _⟩
      · simp only [callPubSubOutsideSteps, EachWithRest, and_true]
        exact ⟨hget _ _, hupd _ _ _, hpub _ _ _⟩
    · exact ⟨hget _ _, stagesLoop_lift env m fuel Q hsteps hother hnone _ _ _⟩

theorem stagesLoop_all_finished (env : Env W) (m : StagedManager W) (fuel : Nat)
    (stages : List (stage W)) (op : Operation) (w : W)
    (hfin : ∀ s ∈ stages, s.name ∈ op.FinishedStages) :
    stagesLoop env m fuel stages op w = stagesLoop env m fuel [] op w := by
  induction stages with
  | nil => rfl
  | cons s rest ih =>
    have hs : op.IsStageFinished s.name = true := by
      simp [Operation.IsStageFinished, hfin s (List.mem_cons_self _ _)]
    have hstep : stagesLoop env m fuel (s :: rest) op w = stagesLoop env m fuel rest op w := by
      conv_lhs => unfold stagesLoop
      rw [if_pos hs]
    rw [hstep]
    exact ih fun t ht => hfin t (List.mem_cons_of_mem _ ht)

theorem Execute_returnedExit (env : Env W) (m : StagedManager W) (fuel : Nat)
    (operationID : String) (w : W) :
    EachWithRest (ReturnedExit (Execute env m fuel operationID w).ret)
      (Execute env m fuel operationID w).trace := by
  refine Execute_lift env m fuel ReturnedExit (stepsLoop_returnedExit env m fuel) ?_ ?_
    operationID w
  · intro ret x xs hx _ op d e out h
    exact absurd h (hx op d e)
  · intro ret x xs tail h op d e out hx hout
    have := (h op d e out hx hout).2
    cases this

theorem Execute_panicRecovered (env : Env W) (m : StagedManager W) (fuel : Nat)
    (operationID : String) (w : W) :
    EachWithRest (PanicRecovered (Execute env m fuel operationID w).ret)
      (Execute env m fuel operationID w).trace := by
  refine Execute_lift env m fuel PanicRecovered (stepsLoop_panicRecovered env m fuel) ?_ ?_
    operationID w
  · intro ret x xs _ hx v h
    exact absurd h (hx v)
  · intro ret x xs tail h v hx
    obtain ⟨_, _, _, _, this⟩ := h v hx
    cases this

theorem runStepLoop_not_completion (env : Env W) (m : StagedManager W) (step : Step W)
    (operation : Operation) (begin : Duration) (fuel : Nat) :
    ∀ (processedOperation : Operation) (backoff : Duration) (w : W),
      ∀ e ∈ (runStepLoop env m step operation begin fuel processedOperation backoff w).trace,
        e.isCompletion = false := by
  induction fuel with
  | zero => intro p b w e he; simp [runStepLoop] at he
  | succ n ih =>
    intro p b w e he
    unfold runStepLoop at he
    split at he
    · simp only [recovered_trace, List.mem_cons] at he
      rcases he with rfl | rfl | rfl | rfl | he <;> first | rfl | simp at he
    · simp only at he
      split_ifs at he
      · simp only [List.mem_cons] at he
        rcases he with rfl | rfl | he <;> first | rfl | simp at he
      · simp only [recovered_trace, List.mem_cons] at he
        rcases he with rfl | rfl | rfl | rfl | rfl | he <;> first | rfl | simp at he
      · simp only [List.mem_cons] at he
        rcases he with rfl | rfl | rfl | he
        · rfl
        · rfl
        · rfl
        · exact ih _ _ _ e he
    · simp only at he
      split_ifs at he
      · simp only [List.mem_cons] at he
        rcases he with rfl | rfl | rfl | he <;> first | rfl | simp at he
      · simp only [recovered_trace, List.mem_cons] at he
        rcases he with rfl | rfl | rfl | rfl | rfl | rfl | he <;> first | rfl | simp at he
      · simp only [List.mem_cons] at he
        rcases he with rfl | rfl | rfl | rfl | he
        · rfl
        · rfl
        · rfl
        · rfl
        · exact ih _ _ _ e he

theorem stepsLoop_not_completion (env : Env W) (m : StagedManager W) (fuel : Nat)
    (stageName : String) (steps : List (StepWithCondition W)) :
    ∀ (op : Operation) (w : W),
      ∀ e ∈ (stepsLoop env m fuel stageName steps op w).trace, e.isCompletion = false := by
  induction steps with
  | nil => intro op w e he; simp [stepsLoop] at he
  | cons step rest ih =>
    intro op w e he
    have hce : ∀ x ∈ conditionEffects stageName step op, x.isCompletion = false := by
      intro x hx
      obtain ⟨r, rfl⟩ := mem_conditionEffects hx
      rfl
    have hrun : ∀ x ∈ (runStep env m fuel step.toStep op w).trace, x.isCompletion = false :=
      fun x hx => runStepLoop_not_completion _ _ _ _ _ _ _ _ _ _ hx
    unfold stepsLoop at he
    split_ifs at he with hskip
    · simp only [List.mem_append] at he
      rcases he with he | he
      · exact hce e he
      · exact ih _ _ e he
    · dsimp only at he
      split at he
      · simp only [List.mem_append, List.mem_cons] at he
        rcases he with he | rfl | he
        · exact hce e he
        · rfl
        · exact hrun e he
      · simp only [List.mem_append, List.mem_cons, List.mem_singleton, List.not_mem_nil,
            or_false] at he
        rcases he with (he | rfl | he) | rfl
        · exact hce e he
        · rfl
        · exact hrun e he
        · rfl
      · split_ifs at he
        · simp only [List.mem_append, List.mem_cons, List.mem_singleton, List.not_mem_nil,
            or_false] at he
          rcases he with (he | rfl | he) | rfl
          · exact hce e he
          · rfl
          · exact hrun e he
          · rfl
        · simp only [List.mem_append, List.mem_cons, List.mem_singleton, List.not_mem_nil,
            or_false] at he
          rcases he with (he | rfl | he) | rfl
          · exact hce e he
          · rfl
          · exact hrun e he
          · rfl
        · simp only [List.mem_append, List.mem_cons] at he
          rcases he with (he | rfl | he) | rfl | he
          · exact hce e he
          · rfl
          · exact hrun e he
          · rfl
          · exact ih _ _ e he

theorem succeededLast_of_not_completion {x : Effect} (h : x.isCompletion = false)
    (xs : List Effect) : SucceededLast x xs := by
  intro op hx
  subst hx
  simp [Effect.isCompletion] at h

theorem stagesLoop_succeededLast (env : Env W) (m : StagedManager W) (fuel : Nat)
    (stages : List (stage W)) :
    ∀ (op : Operation) (w : W),
      EachWithRest SucceededLast (stagesLoop env m fuel stages op w).trace := by
  induction stages with
  | nil =>
    intro op w
    simp only [stagesLoop]
    split <;>
    · simp only [EachWithRest, and_true]
      exact ⟨(fun o h => by cases h; rfl), (fun o h => by cases h)⟩
  | cons s rest ih =>
    intro op w
    have hs : EachWithRest (fun x _ => ∀ xs, SucceededLast x xs)
        (stepsLoop env m fuel s.name s.steps op w).trace :=
      eachWithRest_of_forall fun x hx _ xs =>
        succeededLast_of_not_completion (stepsLoop_not_completion env m fuel _ _ _ _ x hx) xs
    unfold stagesLoop
    split_ifs with hfin
    · exact ih op w
    · dsimp only
      split
      · exact eachWithRest_mono hs fun x xs h => h xs
      · exact eachWithRest_mono hs fun x xs h => h xs
      · rename_i o hflow
        have htr := saveFinishedStage_trace env o s (stepsLoop env m fuel s.name s.steps op w).world
        split
        · rename_i hsave
          rw [hsave] at htr
          dsimp only at htr
          subst htr
          exact eachWithRest_append hs (fun x xs h => h _) ⟨(fun o h => by cases h), trivial⟩
        · rename_i hsave
          rw [hsave] at htr
          dsimp only at htr
          subst htr
          dsimp only
          rw [List.append_assoc]
          exact eachWithRest_append hs (fun x xs h => h _) ⟨(fun o h => by cases h), ih _ _⟩

theorem Execute_succeededLast (env : Env W) (m : StagedManager W) (fuel : Nat)
    (operationID : String) (w : W) :
    EachWithRest SucceededLast (Execute env m fuel operationID w).trace := by
  unfold Execute
  split
  · exact ⟨(fun o h => by cases h), trivial⟩
  · split_ifs with htime
    · dsimp only
      split <;>
      · simp only [callPubSubOutsideSteps, EachWithRest, and_true]
        exact ⟨(fun o h => by cases h), (fun o h => by cases h), (fun o h => by cases h)⟩
    · exact ⟨(fun o h => by cases h), stagesLoop_succeededLast env m fuel _ _ _⟩

theorem FinishStage_State (op : Operation) (stageName : String) :
    (op.FinishStage stageName).State = op.State := by
  unfold Operation.FinishStage
  split <;> rfl

theorem runStepLoop_keeps_state (env : Env W) (m : StagedManager W) (step : Step W)
    (operation : Operation) (begin : Duration)
    (hstep : ∀ o w, ∃ o1 d e w1, step.Run o w = (RunOutcome.returns o1 d e, w1) ∧
      o1.State = o.State)
    (hspeed : m.speedFactor ≠ 0) (fuel : Nat) :
    ∀ (p : Operation) (b : Duration) (w : W),
      (∀ o, Effect.UpdateOperation o ∈ (runStepLoop env m step operation begin fuel p b w).trace →
        o.State = p.State) ∧
      (∀ o d e, (runStepLoop env m step operation begin fuel p b w).ret = some (o, d, e) →
        o.State = p.State) := by
  induction fuel with
  | zero => intro p b w; simp [runStepLoop]
  | succ n ih =>
    intro p b w
    obtain ⟨o1, d1, e1, w1, hr, hst⟩ := hstep p w
    unfold runStepLoop
    split
    · rename_i heq
      rw [hr] at heq
      cases heq
    · rename_i heq
      rw [hr] at heq
      cases heq
      dsimp only
      split_ifs
      · simp [hst]
      · constructor
        · intro o ho
          simp only [List.mem_cons] at ho
          rcases ho with ho | ho | ho | ho
          · cases ho
          · cases ho
          · cases ho
          · rw [(ih _ _ _).1 o ho, hst]
        · intro o d e ho
          rw [(ih _ _ _).2 o d e ho, hst]
    · rename_i heq
      rw [hr] at heq
      cases heq
      dsimp only
      split_ifs
      · constructor
        · intro o ho
          simp only [List.mem_cons, List.mem_singleton, List.not_mem_nil, or_false] at ho
          rcases ho with ho | ho | ho
          · cases ho
          · cases ho
            exact hst
          · cases ho
        · intro o d e ho
          cases ho
          exact hst
      · constructor
        · intro o ho
          simp only [List.mem_cons] at ho
          rcases ho with ho | ho | ho | ho | ho
          · cases ho
          · cases ho
            exact hst
          · cases ho
          · cases ho
          · rw [(ih _ _ _).1 o ho]
            exact hst
        · intro o d e ho
          rw [(ih _ _ _).2 o d e ho]
          exact hst

theorem stepsLoop_keeps_state (env : Env W) (m : StagedManager W) (fuel : Nat)
    (stageName : String) (hspeed : m.speedFactor ≠ 0) (steps : List (StepWithCondition W))
    (hsteps : ∀ b ∈ steps, ∀ o w, ∃ o1 d e w1,
      b.Run o w = (RunOutcome.returns o1 d e, w1) ∧ o1.State = o.State) :
    ∀ (op : Operation) (w : W),
      (op.State = LastOperationState.Failed ∨ op.State = LastOperationState.Succeeded) →
      (∀ o, Effect.UpdateOperation o ∈ (stepsLoop env m fuel stageName steps op w).trace →
        o.State = op.State) ∧
      (∀ o, (stepsLoop env m fuel stageName steps op w).flow = Flow.next o →
        o = op ∧ ∀ x ∈ (stepsLoop env m fuel stageName steps op w).trace,
          x.isRunStep = false) := by
  induction steps with
  | nil =>
    intro op w _
    simp only [stepsLoop, List.not_mem_nil, false_implies, implies_true, and_true, true_and]
    intro o h
    cases h
    rfl
  | cons step rest ih =>
    intro op w hterm
    have hce : ∀ x ∈ conditionEffects stageName step op,
        x.isRunStep = false ∧ ∀ o, x ≠ Effect.UpdateOperation o := by
      intro x hx
      obtain ⟨r, rfl⟩ := mem_conditionEffects hx
      exact ⟨rfl, fun o h => by cases h⟩
    have hrun := runStepLoop_keeps_state env m step.toStep op (env.now w)
      (hsteps step (List.mem_cons_self _ _)) hspeed fuel op 0 w
    have ihr := ih fun b hb => hsteps b (List.mem_cons_of_mem _ hb)
    unfold stepsLoop
    split_ifs with hskip
    · dsimp only
      obtain ⟨h1, h2⟩ := ihr op w hterm
      constructor
      · intro o ho
        simp only [List.mem_append] at ho
        rcases ho with ho | ho
        · exact absurd rfl ((hce _ ho).2 o)
        · exact h1 o ho
      · intro o ho
        obtain ⟨h3, h4⟩ := h2 o ho
        refine ⟨h3, fun x hx => ?_⟩
        simp only [List.mem_append] at hx
        rcases hx with hx | hx
        · exact (hce x hx).1
        · exact h4 x hx
    · dsimp only
      have hupd : ∀ o, Effect.UpdateOperation o ∈ conditionEffects stageName step op ++
          Effect.RunStep stageName step.Name op :: (runStep env m fuel step.toStep op w).trace →
          o.State = op.State := by
        intro o ho
        simp only [List.mem_append, List.mem_cons] at ho
        rcases ho with ho | ho | ho
        · exact absurd rfl ((hce _ ho).2 o)
        · cases ho
        · exact hrun.1 o ho
      split
      · exact ⟨hupd, fun o h => by cases h⟩
      · refine ⟨fun o ho => ?_, fun o h => by cases h⟩
        simp only [List.mem_append, List.mem_singleton] at ho
        rcases ho with ho | ho
        · exact hupd o (List.mem_append.mpr ho)
        · cases ho
      · rename_i o1 when hret
        have hst : o1.State = op.State := hrun.2 o1 when none hret
        have hterm1 : o1.State = LastOperationState.Failed ∨
            o1.State = LastOperationState.Succeeded := by rw [hst]; exact hterm
        rw [if_pos hterm1]
        refine ⟨fun o ho => ?_, fun o h => by cases h⟩
        simp only [List.mem_append, List.mem_singleton] at ho
        rcases ho with ho | ho
        · exact hupd o (List.mem_append.mpr ho)
        · cases ho

theorem stagesLoop_keeps_state (env : Env W) (m : StagedManager W) (fuel : Nat)
    (hspeed : m.speedFactor ≠ 0)
    (hstore : ∀ o w o1 w1, env.UpdateOperation o w = (Except.ok o1, w1) → o1.State = o.State)
    (stages : List (stage W))
    (hsteps : ∀ s ∈ stages, ∀ b ∈ s.steps, ∀ o w, ∃ o1 d e w1,
      b.Run o w = (RunOutcome.returns o1 d e, w1) ∧ o1.State = o.State) :
    ∀ (op : Operation) (w : W),
      (op.State = LastOperationState.Failed ∨ op.State = LastOperationState.Succeeded) →
      (∃ x ∈ (stagesLoop env m fuel stages op w).trace, x.isRunStep = true) →
      ∀ o, Effect.UpdateOperation o ∈ (stagesLoop env m fuel stages op w).trace →
        o.State = op.State := by
  induction stages with
  | nil =>
    intro op w _ hrun
    exfalso
    obtain ⟨x, hx, hx1⟩ := hrun
    simp only [stagesLoop] at hx
    split at hx <;>
    · simp only [List.mem_cons, List.mem_singleton, List.not_mem_nil, or_false] at hx
      rcases hx with rfl | rfl <;> simp [Effect.isRunStep] at hx1
  | cons s rest ih =>
    intro op w hterm
    have ihr := ih fun t ht => hsteps t (List.mem_cons_of_mem _ ht)
    have hs := stepsLoop_keeps_state env m fuel s.name hspeed s.steps
      (hsteps s (List.mem_cons_self _ _)) op w hterm
    unfold stagesLoop
    split_ifs with hfin
    · exact ihr op w hterm
    · dsimp only
      split
      · exact fun _ => hs.1
      · exact fun _ => hs.1
      · rename_i o1 hflow
        obtain ⟨ho1, hnorun⟩ := hs.2 o1 hflow
        subst ho1
        have htr := saveFinishedStage_trace env o1 s
          (stepsLoop env m fuel s.name s.steps o1 w).world
        split
        · rename_i hsave
          rw [hsave] at htr
          dsimp only at htr
          subst htr
          intro _ o ho
          simp only [List.mem_append, List.mem_singleton] at ho
          rcases ho with ho | ho
          · exact hs.1 o ho
          · cases ho
            exact FinishStage_State _ _
        · rename_i op2 tr w2 hsave
          rw [hsave] at htr
          dsimp only at htr
          subst htr
          dsimp only
          have hop2 : op2.State = o1.State := by
            have h := hsave
            simp only [saveFinishedStage] at h
            split at h
            · cases h
            · rename_i hupd
              cases h
              rw [hstore _ _ _ _ hupd, FinishStage_State]
          intro hrun o ho
          have hrun2 : ∃ x ∈ (stagesLoop env m fuel rest op2 w2).trace, x.isRunStep = true := by
            obtain ⟨x, hx, hx1⟩ := hrun
            simp only [List.mem_append, List.mem_singleton] at hx
            rcases hx with (hx | hx) | hx
            · rw [hnorun x hx] at hx1
              cases hx1
            · subst hx
              cases hx1
            · exact ⟨x, hx, hx1⟩
          simp only [List.mem_append, List.mem_singleton] at ho
          rcases ho with (ho | ho) | ho
          · exact hs.1 o ho
          · cases ho
            exact FinishStage_State _ _
          · rw [ihr op2 w2 (by rw [hop2]; exact hterm) hrun2 o ho, hop2]

theorem worldEnv_update_state (o : Operation) (w : World) (o1 : Operation) (w1 : World)
    (h : worldEnv.UpdateOperation o w = (Except.ok o1, w1)) : o1.State = o.State := by
  simp only [worldEnv] at h
  split at h <;> cases h <;> rfl

theorem runStep_once (env : Env W) (m : StagedManager W) (fuel : Nat) (step : Step W)
    (operation : Operation) (w : W) (o1 : Operation) (w1 : W)
    (h : step.Run operation w = (RunOutcome.returns o1 0 none, w1)) :
    (runStep env m (fuel + 1) step operation w).ret = some (o1, 0, none) ∧
      (runStep env m (fuel + 1) step operation w).trace.filterMap observe =
        [Observation.ran step.Name, Observation.stepProcessed step.Name] := by
  unfold runStep runStepLoop
  split
  · rename_i heq
    rw [h] at heq
    cases heq
  · rename_i heq
    rw [h] at heq
    cases heq
    simp [observe]
  · rename_i heq
    rw [h] at heq
    cases heq

theorem filterMap_observe_conditionEffects (stageName : String) (step : StepWithCondition W)
    (op : Operation) : (conditionEffects stageName step op).filterMap observe = [] := by
  unfold conditionEffects
  split <;> simp [observe]

theorem skips_refusal (stageName : String) (b : StepWithCondition W) (o : Operation)
    (h : skips b o = true) : ∃ x ∈ conditionEffects stageName b o, x.isRefusal = true := by
  unfold skips at h
  unfold conditionEffects
  split at h
  · cases h
  · rename_i c _
    have hfalse : c o = false := by simpa using h
    exact ⟨_, List.mem_singleton_self _, by rw [hfalse]; rfl⟩

theorem stepsLoop_cons_skip (env : Env W) (m : StagedManager W) (fuel : Nat)
    (stageName : String) (b : StepWithCondition W) (rest : List (StepWithCondition W))
    (op : Operation) (w : W) (hskip : skips b op = true) :
    (stepsLoop env m fuel stageName (b :: rest) op w).flow =
        (stepsLoop env m fuel stageName rest op w).flow ∧
      (stepsLoop env m fuel stageName (b :: rest) op w).trace =
        conditionEffects stageName b op ++ (stepsLoop env m fuel stageName rest op w).trace := by
  have key : ∀ r, r = stepsLoop env m fuel stageName (b :: rest) op w →
      r.flow = (stepsLoop env m fuel stageName rest op w).flow ∧
      r.trace =
        conditionEffects stageName b op ++ (stepsLoop env m fuel stageName rest op w).trace := by
    intro r hr
    unfold stepsLoop at hr
    rw [hskip] at hr
    simp only [if_true] at hr
    subst hr
    exact ⟨rfl, rfl⟩
  exact key _ rfl

theorem stepsLoop_cons_run (env : Env W) (m : StagedManager W) (fuel : Nat)
    (stageName : String) (b : StepWithCondition W) (rest : List (StepWithCondition W))
    (op o1 : Operation) (w : W) (hskip : skips b op = false)
    (hret : (runStep env m fuel b.toStep op w).ret = some (o1, 0, none))
    (hnf : o1.State ≠ LastOperationState.Failed)
    (hns : o1.State ≠ LastOperationState.Succeeded) :
    (stepsLoop env m fuel stageName (b :: rest) op w).flow =
        (stepsLoop env m fuel stageName rest o1
          (runStep env m fuel b.toStep op w).world).flow ∧
      (stepsLoop env m fuel stageName (b :: rest) op w).trace =
        (conditionEffects stageName b op ++
          Effect.RunStep stageName b.Name op :: (runStep env m fuel b.toStep op w).trace) ++
        Effect.Returned o1 0 none ::
          (stepsLoop env m fuel stageName rest o1
            (runStep env m fuel b.toStep op w).world).trace := by
  have key : ∀ r, r = stepsLoop env m fuel stageName (b :: rest) op w →
      r.flow = (stepsLoop env m fuel stageName rest o1
        (runStep env m fuel b.toStep op w).world).flow ∧
      r.trace =
        (conditionEffects stageName b op ++
          Effect.RunStep stageName b.Name op :: (runStep env m fuel b.toStep op w).trace) ++
        Effect.Returned o1 0 none ::
          (stepsLoop env m fuel stageName rest o1
            (runStep env m fuel b.toStep op w).world).trace := by
    intro r hr
    unfold stepsLoop at hr
    rw [hskip] at hr
    simp only [Bool.false_eq_true, if_false] at hr
    rw [hret] at hr
    simp only [hnf, hns, or_self, if_false, gt_iff_lt, lt_self_iff_false] at hr
    subst hr
    exact ⟨rfl, rfl⟩
  exact key _ rfl

theorem stepsLoop_all_run (env : Env W) (m : StagedManager W) (fuel : Nat) (stageName : String)
    (steps : List (StepWithCondition W))
    (hsteps : ∀ b ∈ steps, ∀ o w,
      o.State ≠ LastOperationState.Failed ∧ o.State ≠ LastOperationState.Succeeded →
      ∃ o1 w1, b.Run o w = (RunOutcome.returns o1 0 none, w1) ∧
        o1.FinishedStages = o.FinishedStages ∧ o1.State ≠ LastOperationState.Failed ∧
        o1.State ≠ LastOperationState.Succeeded) :
    ∀ (op : Operation) (w : W),
      op.State ≠ LastOperationState.Failed ∧ op.State ≠ LastOperationState.Succeeded →
      ∃ op1,
        (stepsLoop env m (fuel + 1) stageName steps op w).flow = Flow.next op1 ∧
        op1.FinishedStages = op.FinishedStages ∧
        (op1.State ≠ LastOperationState.Failed ∧ op1.State ≠ LastOperationState.Succeeded) ∧
        ((∀ x ∈ (stepsLoop env m (fuel + 1) stageName steps op w).trace,
            x.isRefusal = false) →
          (stepsLoop env m (fuel + 1) stageName steps op w).trace.filterMap observe =
            expectedSteps steps) := by
  induction steps with
  | nil => intro op w hop; exact ⟨op, rfl, rfl, hop, fun _ => rfl⟩
  | cons b rest ih =>
    intro op w hop
    cases hskip : skips b op with
    | true =>
      obtain ⟨hflow, htrace⟩ := stepsLoop_cons_skip env m (fuel + 1) stageName b rest op w hskip
      obtain ⟨op2, h1, h2, hst, _⟩ := ih (fun b hb => hsteps b (List.mem_cons_of_mem _ hb)) op w
        hop
      refine ⟨op2, hflow.trans h1, h2, hst, ?_⟩
      intro hno
      obtain ⟨x, hx, hx1⟩ := skips_refusal stageName b op hskip
      have := hno x (by rw [htrace]; exact List.mem_append_left _ hx)
      rw [hx1] at this
      cases this
    | false =>
      obtain ⟨o1, w1, hrun, hfs, hnf, hns⟩ := hsteps b (List.mem_cons_self _ _) op w hop
      obtain ⟨hret, htr⟩ := runStep_once env m fuel b.toStep op w o1 w1 hrun
      obtain ⟨hflow, htrace⟩ := stepsLoop_cons_run env m (fuel + 1) stageName b rest op o1 w
        hskip hret hnf hns
      obtain ⟨op2, h1, h2, hst, h3⟩ := ih (fun b hb => hsteps b (List.mem_cons_of_mem _ hb)) o1
        (runStep env m (fuel + 1) b.toStep op w).world ⟨hnf, hns⟩
      refine ⟨op2, hflow.trans h1, h2.trans hfs, hst, ?_⟩
      intro hno
      have h4 := h3 (fun x hx => hno x (by
        rw [htrace]
        exact List.mem_append_right _ (List.mem_cons_of_mem _ hx)))
      rw [htrace]
      simp only [List.filterMap_append, List.filterMap_cons, filterMap_observe_conditionEffects,
        htr, h4, observe, List.nil_append, expectedSteps, List.cons_append]

theorem stagesLoop_cons_next (env : Env W) (m : StagedManager W) (fuel : Nat) (s : stage W)
    (rest : List (stage W)) (op op1 op2 : Operation) (w w2 : W) (tr : List Effect)
    (hfin : op.IsStageFinished s.name = false)
    (hflow : (stepsLoop env m fuel s.name s.steps op w).flow = Flow.next op1)
    (hsave : saveFinishedStage env op1 s (stepsLoop env m fuel s.name s.steps op w).world =
      (op2, none, tr, w2)) :
    (stagesLoop env m fuel (s :: rest) op w).ret = (stagesLoop env m fuel rest op2 w2).ret ∧
      (stagesLoop env m fuel (s :: rest) op w).trace =
        (stepsLoop env m fuel s.name s.steps op w).trace ++ tr ++
          (stagesLoop env m fuel rest op2 w2).trace := by
  have key : ∀ r, r = stagesLoop env m fuel (s :: rest) op w →
      r.ret = (stagesLoop env m fuel rest op2 w2).ret ∧
      r.trace = (stepsLoop env m fuel s.name s.steps op w).trace ++ tr ++
        (stagesLoop env m fuel rest op2 w2).trace := by
    intro r hr
    unfold stagesLoop at hr
    rw [hfin] at hr
    simp only [Bool.false_eq_true, if_false] at hr
    rw [hflow] at hr
    dsimp only at hr
    rw [hsave] at hr
    subst hr
    exact ⟨rfl, rfl⟩
  exact key _ rfl

theorem saveFinishedStage_ok (env : Env W) (op : Operation) (s : stage W) (w w1 : W)
    (h : env.UpdateOperation (op.FinishStage s.name) w = (Except.ok (op.FinishStage s.name), w1)) :
    saveFinishedStage env op s w =
      (op.FinishStage s.name, none, [Effect.UpdateOperation (op.FinishStage s.name)], w1) := by
  simp only [saveFinishedStage]
  rw [h]

theorem stagesLoop_fresh (env : Env W) (m : StagedManager W) (fuel : Nat)
    (hstore : ∀ o w, ∃ w1, env.UpdateOperation o w = (Except.ok o, w1))
    (stages : List (stage W))
    (hsteps : ∀ s ∈ stages, ∀ b ∈ s.steps, ∀ o w,
      o.State ≠ LastOperationState.Failed ∧ o.State ≠ LastOperationState.Succeeded →
      ∃ o1 w1, b.Run o w = (RunOutcome.returns o1 0 none, w1) ∧
        o1.FinishedStages = o.FinishedStages ∧ o1.State ≠ LastOperationState.Failed ∧
        o1.State ≠ LastOperationState.Succeeded) :
    ∀ (op : Operation) (w : W),
      op.State ≠ LastOperationState.Failed ∧ op.State ≠ LastOperationState.Succeeded →
      (stages.map fun s => s.name).Nodup →
      (∀ s ∈ stages, s.name ∉ op.FinishedStages) →
      (stagesLoop env m (fuel + 1) stages op w).ret = some (0, none) ∧
      ((∀ x ∈ (stagesLoop env m (fuel + 1) stages op w).trace, x.isRefusal = false) →
        (stagesLoop env m (fuel + 1) stages op w).trace.filterMap observe =
          expectedRun op.FinishedStages stages) ∧
      ∃ final pre, final.State = LastOperationState.Succeeded ∧
        final.FinishedStages = op.FinishedStages ++ stages.map (fun s => s.name) ∧
        (stagesLoop env m (fuel + 1) stages op w).trace =
          pre ++ [Effect.Publish (Event.OperationSucceeded final),
            Effect.UpdateOperation final] := by
  induction stages with
  | nil =>
    intro op w _ _ _
    obtain ⟨w1, hw⟩ := hstore
      { op with State := LastOperationState.Succeeded, Description := "Processing finished" }
      (env.Publish (Event.OperationSucceeded
        { op with State := LastOperationState.Succeeded,
                  Description := "Processing finished" }) w)
    simp only [stagesLoop]
    rw [hw]
    refine ⟨rfl, fun _ => rfl, _, [], rfl, by simp, rfl⟩
  | cons s rest ih =>
    intro op w hop hnodup hnot
    have hfin : op.IsStageFinished s.name = false := by
      simp [Operation.IsStageFinished, hnot s (List.mem_cons_self _ _)]
    obtain ⟨op1, hflow, hfs, hst, htr⟩ := stepsLoop_all_run env m fuel s.name s.steps
      (hsteps s (List.mem_cons_self _ _)) op w hop
    have hfs1 : (op1.FinishStage s.name).FinishedStages = op.FinishedStages ++ [s.name] := by
      have : op1.IsStageFinished s.name = false := by
        simp [Operation.IsStageFinished, hfs, hnot s (List.mem_cons_self _ _)]
      simp [Operation.FinishStage, this, hfs]
    obtain ⟨w2, hw2⟩ := hstore (op1.FinishStage s.name)
      (stepsLoop env m (fuel + 1) s.name s.steps op w).world
    have hsave := saveFinishedStage_ok env op1 s _ w2 hw2
    obtain ⟨hret, htrace⟩ := stagesLoop_cons_next env m (fuel + 1) s rest op op1 _ w w2 _
      hfin hflow hsave
    simp only [List.map_cons, List.nodup_cons] at hnodup
    have hnot2 : ∀ t ∈ rest, t.name ∉ (op1.FinishStage s.name).FinishedStages := by
      intro t ht
      rw [hfs1]
      simp only [List.mem_append, List.mem_singleton, not_or]
      refine ⟨hnot t (List.mem_cons_of_mem _ ht), ?_⟩
      intro h
      exact hnodup.1 (List.mem_map.mpr ⟨t, ht, h⟩)
    obtain ⟨h1, h2, final, pre, h3, h4, h5⟩ := ih
      (fun t ht => hsteps t (List.mem_cons_of_mem _ ht))
      (op1.FinishStage s.name) w2 (by rw [FinishStage_State]; exact hst) hnodup.2 hnot2
    refine ⟨hret.trans h1, ?_, final, ?_, h3, ?_, ?_⟩
    · intro hno
      have htr1 := htr (fun x hx => hno x (by
        rw [htrace]
        exact List.mem_append_left _ (List.mem_append_left _ hx)))
      have h21 := h2 (fun x hx => hno x (by
        rw [htrace]
        exact List.mem_append_right _ hx))
      rw [htrace]
      simp only [List.filterMap_append, htr1, h21, hfs1, List.filterMap_cons, observe,
        List.filterMap_nil, expectedRun, List.append_assoc, List.singleton_append]
    · exact (stepsLoop env m (fuel + 1) s.name s.steps op w).trace ++
        [Effect.UpdateOperation (op1.FinishStage s.name)] ++ pre
    · rw [h4, hfs1]
      simp
    · rw [htrace, h5]
      simp

theorem stagesAsked_steps : ∀ s ∈ stagesAsked, ∀ b ∈ s.steps, ∀ (o : Operation) (w : World),
    o.State ≠ LastOperationState.Failed ∧ o.State ≠ LastOperationState.Succeeded →
    ∃ o1 w1, b.Run o w = (RunOutcome.returns o1 0 none, w1) ∧
      o1.FinishedStages = o.FinishedStages ∧ o1.State ≠ LastOperationState.Failed ∧
      o1.State ≠ LastOperationState.Succeeded := by
  intro s hs b hb o w ho
  simp only [stagesAsked, List.mem_cons, List.mem_singleton, List.not_mem_nil, or_false] at hs
  rcases hs with rfl | rfl
  · simp only [List.mem_singleton] at hb
    subst hb
    exact ⟨o, w, rfl, rfl, ho.1, ho.2⟩
  · simp only [List.mem_singleton] at hb
    subst hb
    exact ⟨o, w, rfl, rfl, ho.1, ho.2⟩

theorem stagesAB_steps : ∀ s ∈ stagesAB, ∀ b ∈ s.steps, ∀ (o : Operation) (w : World),
    o.State ≠ LastOperationState.Failed ∧ o.State ≠ LastOperationState.Succeeded →
    ∃ o1 w1, b.Run o w = (RunOutcome.returns o1 0 none, w1) ∧
      o1.FinishedStages = o.FinishedStages ∧ o1.State ≠ LastOperationState.Failed ∧
      o1.State ≠ LastOperationState.Succeeded := by
  intro s hs b hb o w ho
  simp only [stagesAB, List.mem_cons, List.mem_singleton, List.not_mem_nil, or_false] at hs
  rcases hs with rfl | rfl
  · simp only [List.mem_singleton] at hb
    subst hb
    exact ⟨o, w, rfl, rfl, ho.1, ho.2⟩
  · simp only [List.mem_singleton] at hb
    subst hb
    exact ⟨o, w, rfl, rfl, ho.1, ho.2⟩

theorem filterMap_attemptOf_runner (env : Env W) (m : StagedManager W) (fuel : Nat)
    (step : Step W) (op : Operation) (w : W) :
    (runStep env m fuel step op w).trace.filterMap attemptOf = [] := by
  rw [List.filterMap_eq_nil_iff]
  intro x hx
  have := runStepLoop_inRunner _ _ _ _ _ _ _ _ _ x hx
  cases x <;> first | rfl | simp [Effect.inRunner] at this

theorem filterMap_attemptOf_conditionEffects (stageName : String) (step : StepWithCondition W)
    (op : Operation) : (conditionEffects stageName step op).filterMap attemptOf = [] := by
  unfold conditionEffects
  split <;> simp [attemptOf]

theorem keeps_eq_not_skips (b : StepWithCondition W) (op : Operation) :
    keeps b op = !skips b op := by
  unfold keeps skips
  split <;> simp

theorem stopsAt_eq_false_iff (op : Operation) (backoff : Duration) (err : Option GoError) :
    stopsAt op backoff err = false ↔
      err = none ∧ ¬ (op.State = LastOperationState.Failed ∨
        op.State = LastOperationState.Succeeded) ∧ ¬ backoff > 0 := by
  cases err <;> simp [stopsAt, not_or]

theorem stopsAt_of_terminal (op : Operation) (backoff : Duration)
    (h : op.State = LastOperationState.Failed ∨ op.State = LastOperationState.Succeeded) :
    stopsAt op backoff none = true := by
  rcases h with h | h <;> simp [stopsAt, h]

theorem stopsAt_of_delay (op : Operation) (backoff : Duration) (h : backoff > 0) :
    stopsAt op backoff none = true := by
  simp [stopsAt, h]

theorem stepsLoop_attempts (env : Env W) (m : StagedManager W) (fuel : Nat)
    (stageName : String) (steps : List (StepWithCondition W)) :
    ∀ (op : Operation) (w : W),
      stageAttempts env m fuel stageName steps op w =
        ((stepsLoop env m fuel stageName steps op w).trace.filterMap attemptOf,
          (stepsLoop env m fuel stageName steps op w).continuation) := by
  induction steps with
  | nil => intro op w; rfl
  | cons b rest ih =>
    intro op w
    have hce := filterMap_attemptOf_conditionEffects stageName b op
    have hrt := filterMap_attemptOf_runner env m fuel b.toStep op w
    unfold stepsLoop stageAttempts
    rw [keeps_eq_not_skips]
    cases hskip : skips b op with
    | true =>
      simp only [Bool.not_true, Bool.false_eq_true, if_false, if_true, List.filterMap_append, hce,
        List.nil_append]
      rw [ih op w]
      rfl
    | false =>
      simp only [Bool.not_false, if_true, Bool.false_eq_true, if_false]
      generalize (runStep env m fuel b.toStep op w).ret = r
      rcases r with _ | ⟨o, when, _ | err⟩
      · simp [hce, hrt, attemptOf, LoopResult.continuation]
      · by_cases hterm : o.State = LastOperationState.Failed ∨
            o.State = LastOperationState.Succeeded
        · simp only [stopsAt_of_terminal o when hterm, if_true, hterm]
          simp [hce, hrt, attemptOf, LoopResult.continuation]
        · by_cases hwhen : when > 0
          · simp only [stopsAt_of_delay o when hwhen, if_true, hterm, if_false, hwhen]
            simp [hce, hrt, attemptOf, LoopResult.continuation]
          · have hstop : stopsAt o when none = false :=
              (stopsAt_eq_false_iff _ _ _).mpr ⟨rfl, hterm, hwhen⟩
            simp only [hstop, Bool.false_eq_true, if_false, hterm, hwhen]
            rw [ih]
            simp [hce, hrt, attemptOf, LoopResult.continuation]
      · simp [hce, hrt, attemptOf, LoopResult.continuation, stopsAt]

theorem stagesLoop_attempts (env : Env W) (m : StagedManager W) (fuel : Nat)
    (stages : List (stage W)) :
    ∀ (op : Operation) (w : W),
      (stagesLoop env m fuel stages op w).trace.filterMap attemptOf =
        attemptSequence env m fuel stages op w := by
  induction stages with
  | nil =>
    intro op w
    simp only [stagesLoop, attemptSequence]
    split <;> rfl
  | cons s rest ih =>
    intro op w
    unfold stagesLoop attemptSequence
    by_cases hfin : s.name ∈ op.FinishedStages
    · simp only [Operation.IsStageFinished, hfin, decide_True, if_true]
      exact ih op w
    · simp only [Operation.IsStageFinished, hfin, decide_False, Bool.false_eq_true, if_false]
      rw [stepsLoop_attempts]
      generalize stepsLoop env m fuel s.name s.steps op w = r
      rcases r with ⟨flow, tr, w1⟩
      cases flow with
      | stuck => rfl
      | exit when err => rfl
      | next o =>
        simp only [LoopResult.continuation]
        have htr := saveFinishedStage_trace env o s w1
        generalize saveFinishedStage env o s w1 = sv at htr
        rcases sv with ⟨o2, _ | err, tr2, w2⟩
        · dsimp only at htr ⊢
          subst htr
          simp [ih, attemptOf]
        · dsimp only at htr ⊢
          subst htr
          simp [attemptOf]

/-! ## The claims -/

/-- C1: an operation that loads and whose elapsed time since `CreatedAt` exceeds
`operationTimeout` makes `Execute` record exactly three effects, whatever the
stages and `FinishedStages` are: the load, a storage update of the operation with
state `Failed` and `LastError` the timeout error, and the out-of-band event.  No
step and no predicate is invoked.  `Execute` returns a timeout-classified error:
the very error stored as `LastError`, with delay 0, when the update succeeds. -/
theorem Execute_timeout (env : Env W) (m : StagedManager W) (fuel : Nat) (operationID : String)
    (w w1 : W) (operation : Operation)
    (hload : env.GetOperationByID operationID w = (Except.ok operation, w1))
    (htime : env.now w1 - operation.CreatedAt > m.operationTimeout) :
    ∃ (failed : Operation) (ev : Event) (d : Duration) (e : LastError),
      failed = { operation with
        LastError := some (TimeoutError "operation has reached the time limit"),
        State := LastOperationState.Failed } ∧
      (Execute env m fuel operationID w).trace =
        [Effect.GetOperationByID operationID, Effect.UpdateOperation failed, Effect.Publish ev] ∧
      (∀ x ∈ (Execute env m fuel operationID w).trace, x.invokesStep = false) ∧
      (Execute env m fuel operationID w).ret = some (d, some (GoError.lastError e)) ∧
      e.reason = ErrReason.Timeout ∧
      (∀ saved w2, env.UpdateOperation failed w1 = (Except.ok saved, w2) →
        d = 0 ∧ e = TimeoutError "operation has reached the time limit") := by
  unfold Execute
  rw [hload]
  dsimp only
  rw [if_pos htime]
  split
  · rename_i err w2 hupd
    refine ⟨_, _, _, _, rfl, rfl, ?_, rfl, rfl, ?_⟩
    · intro x hx
      simp only [callPubSubOutsideSteps, List.mem_cons, List.mem_singleton, List.not_mem_nil,
        or_false] at hx
      rcases hx with rfl | rfl | rfl <;> rfl
    · intro saved w3 h
      rw [h] at hupd
      cases hupd
  · rename_i saved w2 hupd
    refine ⟨_, _, _, _, rfl, rfl, ?_, rfl, rfl, ?_⟩
    · intro x hx
      simp only [callPubSubOutsideSteps, List.mem_cons, List.mem_singleton, List.not_mem_nil,
        or_false] at hx
      rcases hx with rfl | rfl | rfl <;> rfl
    · intro _ _ _
      exact ⟨rfl, rfl⟩

/-- Witness of C1: the operation created at instant 0 and loaded at instant 500
under a timeout of 100, with a stage whose step is never run. -/
theorem Execute_timeout_witness :
    worldEnv.GetOperationByID "op" { clock := 500, failing := [], stored := freshOp } =
        (Except.ok freshOp, { clock := 500, failing := [], stored := freshOp }) ∧
      worldEnv.now { clock := 500, failing := [], stored := freshOp } - freshOp.CreatedAt >
        (managerOf [{ name := "A", steps := [okStep "a"] }]).operationTimeout ∧
      ∃ (failed : Operation) (ev : Event) (d : Duration) (e : LastError),
        failed = { freshOp with
          LastError := some (TimeoutError "operation has reached the time limit"),
          State := LastOperationState.Failed } ∧
        (Execute worldEnv (managerOf [{ name := "A", steps := [okStep "a"] }]) 1 "op"
            { clock := 500, failing := [], stored := freshOp }).trace =
          [Effect.GetOperationByID "op", Effect.UpdateOperation failed, Effect.Publish ev] ∧
        (∀ x ∈ (Execute worldEnv (managerOf [{ name := "A", steps := [okStep "a"] }]) 1 "op"
            { clock := 500, failing := [], stored := freshOp }).trace, x.invokesStep = false) ∧
        (Execute worldEnv (managerOf [{ name := "A", steps := [okStep "a"] }]) 1 "op"
            { clock := 500, failing := [], stored := freshOp }).ret =
          some (d, some (GoError.lastError e)) ∧
        e.reason = ErrReason.Timeout ∧
        (∀ saved w2, worldEnv.UpdateOperation failed
            { clock := 500, failing := [], stored := freshOp } = (Except.ok saved, w2) →
          d = 0 ∧ e = TimeoutError "operation has reached the time limit") :=
  ⟨rfl, by decide,
    Execute_timeout worldEnv (managerOf [{ name := "A", steps := [okStep "a"] }]) 1 "op"
      { clock := 500, failing := [], stored := freshOp }
      { clock := 500, failing := [], stored := freshOp } freshOp rfl (by decide)⟩

/-- C2: a panic of `Run` is recovered.  Whatever the attempt (`runStepLoop` in
any state of the retry loop), when `Run` panics with `v` the loop returns: it
calls `OperationFailed` on the operation given to `runStep` with the reason
"recovered from panic", which asks storage to persist it with state `Failed`
and a `LastError` whose reason is "recovered from panic" and whose message is
that of the error made from `v`; the error result is that error.  In every call
of `Execute`
every recovered panic is followed by exactly that call of `OperationFailed`, its
storage update and the return of the runner: no step binding is invoked after
it, and `Execute` returns the non-nil error made from `v`. -/
theorem Execute_panic_recovered (env : Env W) (m : StagedManager W) :
    (∀ (step : Step W) (operation processedOperation : Operation) (begin backoff : Duration)
        (fuel : Nat) (w w1 : W) (v : String),
        step.Run processedOperation w = (RunOutcome.panics v, w1) →
        (runStepLoop env m step operation begin (fuel + 1) processedOperation backoff w).trace =
          [Effect.Run step.Name processedOperation, Effect.Panic v,
            Effect.OperationFailed operation "recovered from panic" (GoError.errorString v),
            Effect.UpdateOperation
              { operation with State := LastOperationState.Failed,
                               LastError := some { message := v, reason :=
                                 ErrReason.Classified "recovered from panic" } }] ∧
        ∃ op, (runStepLoop env m step operation begin (fuel + 1) processedOperation backoff
          w).ret = some (op, backoff, some (GoError.errorString v))) ∧
    (∀ (fuel : Nat) (operationID : String) (w : W) (tr1 tr2 : List Effect) (v : String),
        (Execute env m fuel operationID w).trace = tr1 ++ Effect.Panic v :: tr2 →
        ∃ operation op backoff,
          tr2 = [Effect.OperationFailed operation "recovered from panic" (GoError.errorString v),
            Effect.UpdateOperation
              { operation with State := LastOperationState.Failed,
                               LastError := some { message := v, reason :=
                                 ErrReason.Classified "recovered from panic" } },
            Effect.Returned op backoff (some (GoError.errorString v))] ∧
          (Execute env m fuel operationID w).ret = some (0, some (GoError.errorString v))) := by
  constructor
  · intro step operation p begin b fuel w w1 v hrun
    unfold runStepLoop
    rw [hrun]
    exact ⟨by simp [recovered, OperationFailed_trace, failureOf, GoError.Error], _, rfl⟩
  · intro fuel operationID w tr1 tr2 v h
    exact eachWithRest_decompose.mp (Execute_panicRecovered env m fuel operationID w)
      tr1 _ tr2 h v rfl

/-- Witness of C2: a stage whose first step panics with "boom" and whose second
step is never reached; the operation left in storage is `Failed` and its
`LastError` has the reason "recovered from panic". -/
theorem Execute_panic_recovered_witness :
    (Execute worldEnv (managerOf (stageWithFirst (panicStep "p"))) 1 "op"
        (worldWith freshOp [])).world.stored.State = LastOperationState.Failed ∧
      (Execute worldEnv (managerOf (stageWithFirst (panicStep "p"))) 1 "op"
        (worldWith freshOp [])).world.stored.LastError =
        some { message := "boom", reason := ErrReason.Classified "recovered from panic" } ∧
    (Execute worldEnv (managerOf (stageWithFirst (panicStep "p"))) 1 "op"
        (worldWith freshOp [])).trace =
      [Effect.GetOperationByID "op", Effect.RunStep "A" "p" freshOp, Effect.Run "p" freshOp] ++
        Effect.Panic "boom" ::
          [Effect.OperationFailed freshOp "recovered from panic" (GoError.errorString "boom"),
            Effect.UpdateOperation
              { freshOp with State := LastOperationState.Failed,
                             LastError := some { message := "boom", reason :=
                               ErrReason.Classified "recovered from panic" } },
            Effect.Returned
              { freshOp with State := LastOperationState.Failed,
                             LastError := some { message := "boom", reason :=
                               ErrReason.Classified "recovered from panic" } }
              0 (some (GoError.errorString "boom"))] ∧
      (Execute worldEnv (managerOf (stageWithFirst (panicStep "p"))) 1 "op"
        (worldWith freshOp [])).ret = some (0, some (GoError.errorString "boom")) := by
  have htrace : (Execute worldEnv
      (managerOf (stageWithFirst (panicStep "p"))) 1 "op"
        (worldWith freshOp [])).trace =
      [Effect.GetOperationByID "op", Effect.RunStep "A" "p" freshOp, Effect.Run "p" freshOp] ++
        Effect.Panic "boom" ::
          [Effect.OperationFailed freshOp "recovered from panic" (GoError.errorString "boom"),
            Effect.UpdateOperation
              { freshOp with State := LastOperationState.Failed,
                             LastError := some { message := "boom", reason :=
                               ErrReason.Classified "recovered from panic" } },
            Effect.Returned
              { freshOp with State := LastOperationState.Failed,
                             LastError := some { message := "boom", reason :=
                               ErrReason.Classified "recovered from panic" } }
              0 (some (GoError.errorString "boom"))] := rfl
  obtain ⟨_, _, _, _, h⟩ := (Execute_panic_recovered worldEnv
    (managerOf (stageWithFirst (panicStep "p")))).2 1 "op"
    (worldWith freshOp []) _ _ "boom" htrace
  exact ⟨by decide, by decide, htrace, h⟩

/-- C5: an operation that loads, is not past the global timeout and whose
`FinishedStages` holds every declared stage name makes `Execute` record exactly
three effects: the load, the publication of one `OperationSucceeded` event for
the operation with state `Succeeded`, and the storage update of that operation.
No step and no predicate is invoked, and `Execute` returns `(0, nil)` when that
update succeeds. -/
theorem Execute_all_finished (env : Env W) (m : StagedManager W) (fuel : Nat)
    (operationID : String) (w w1 : W) (operation : Operation)
    (hload : env.GetOperationByID operationID w = (Except.ok operation, w1))
    (htime : ¬ env.now w1 - operation.CreatedAt > m.operationTimeout)
    (hfin : ∀ s ∈ m.stages, s.name ∈ operation.FinishedStages) :
    ∃ done : Operation,
      done = { operation with
        State := LastOperationState.Succeeded, Description := "Processing finished" } ∧
      (Execute env m fuel operationID w).trace =
        [Effect.GetOperationByID operationID, Effect.Publish (Event.OperationSucceeded done),
          Effect.UpdateOperation done] ∧
      (∀ x ∈ (Execute env m fuel operationID w).trace, x.invokesStep = false) ∧
      (∀ saved w2,
        env.UpdateOperation done (env.Publish (Event.OperationSucceeded done) w1) =
          (Except.ok saved, w2) →
        (Execute env m fuel operationID w).ret = some (0, none)) := by
  unfold Execute
  rw [hload]
  dsimp only
  rw [if_neg htime, stagesLoop_all_finished env m fuel m.stages operation w1 hfin]
  simp only [stagesLoop]
  split
  · rename_i err w2 hupd
    refine ⟨_, rfl, rfl, ?_, ?_⟩
    · intro x hx
      simp only [List.mem_cons, List.mem_singleton, List.not_mem_nil, or_false] at hx
      rcases hx with rfl | rfl | rfl <;> rfl
    · intro saved w3 h
      rw [h] at hupd
      cases hupd
  · refine ⟨_, rfl, rfl, ?_, fun _ _ _ => rfl⟩
    intro x hx
    simp only [List.mem_cons, List.mem_singleton, List.not_mem_nil, or_false] at hx
    rcases hx with rfl | rfl | rfl <;> rfl

/-- Witness of C5: two declared stages, both already finished. -/
theorem Execute_all_finished_witness :
    worldEnv.GetOperationByID "op" (worldWith { freshOp with FinishedStages := ["A", "B"] } []) =
        (Except.ok { freshOp with FinishedStages := ["A", "B"] },
          worldWith { freshOp with FinishedStages := ["A", "B"] } []) ∧
      (∀ s ∈ (managerOf stagesAB).stages,
        s.name ∈ ({ freshOp with FinishedStages := ["A", "B"] } : Operation).FinishedStages) ∧
      ∃ done : Operation,
        done = { freshOp with
          FinishedStages := ["A", "B"],
          State := LastOperationState.Succeeded, Description := "Processing finished" } ∧
        (Execute worldEnv (managerOf stagesAB) 1 "op"
            (worldWith { freshOp with FinishedStages := ["A", "B"] } [])).trace =
          [Effect.GetOperationByID "op", Effect.Publish (Event.OperationSucceeded done),
            Effect.UpdateOperation done] ∧
        (Execute worldEnv (managerOf stagesAB) 1 "op"
            (worldWith { freshOp with FinishedStages := ["A", "B"] } [])).ret = some (0, none) := by
  have hfin : ∀ s ∈ (managerOf stagesAB).stages,
      s.name ∈ ({ freshOp with FinishedStages := ["A", "B"] } : Operation).FinishedStages := by
    intro s hs
    simp only [managerOf, managerWith, stagesAB, List.mem_cons, List.mem_singleton,
      List.not_mem_nil, or_false] at hs
    rcases hs with rfl | rfl <;> simp
  obtain ⟨done, hdone, htrace, _, hret⟩ := Execute_all_finished worldEnv
    (managerOf stagesAB)
    1 "op" (worldWith { freshOp with FinishedStages := ["A", "B"] } [])
    (worldWith { freshOp with FinishedStages := ["A", "B"] } [])
    { freshOp with FinishedStages := ["A", "B"] } rfl (by decide) hfin
  exact ⟨rfl, hfin, done, hdone, htrace, hret done _ rfl⟩

/-- C7: in every call of `Execute`, whenever the runner hands back a non-terminal
operation, no error and a delay `d > 0`, nothing is recorded after that return
(no further step binding, no `FinishStage` persist of this or a later stage)
and `Execute` returns exactly `(d, nil)`. -/
theorem Execute_delay_returns (env : Env W) (m : StagedManager W) (fuel : Nat)
    (operationID : String) (w : W) (tr1 tr2 : List Effect) (op : Operation) (d : Duration)
    (htrace : (Execute env m fuel operationID w).trace = tr1 ++ Effect.Returned op d none :: tr2)
    (hstate : op.State ≠ LastOperationState.Failed ∧ op.State ≠ LastOperationState.Succeeded)
    (hd : d > 0) :
    (Execute env m fuel operationID w).ret = some (d, none) ∧ tr2 = [] ∧
      (∀ x ∈ tr2, x.invokesStep = false) ∧ (∀ o, Effect.UpdateOperation o ∉ tr2) := by
  have h := eachWithRest_decompose.mp (Execute_returnedExit env m fuel operationID w)
    tr1 _ tr2 htrace op d none (d, none) rfl (by simp [exitOf, hstate.1, hstate.2, hd])
  obtain ⟨h1, h2⟩ := h
  subst h1
  exact ⟨h2, rfl, by simp, by simp⟩

/-- Witness of C7: the first step of stage "A" asks for a delay of 7 while the
maximal step processing time is 0, so the retry loop yields at once. -/
theorem Execute_delay_returns_witness :
    (Execute worldEnv
        (managerWith 0 (stageWithFirst (stateStep "a" LastOperationState.InProgress 7)))
        1 "op" (worldWith freshOp [])).trace =
      [Effect.GetOperationByID "op", Effect.RunStep "A" "a" freshOp, Effect.Run "a" freshOp,
        Effect.Publish (Event.OperationStepProcessed
          { StepName := "a", Duration := 1, When := 7, Error := none } freshOp freshOp)] ++
        Effect.Returned freshOp 7 none :: [] ∧
      (Execute worldEnv
        (managerWith 0 (stageWithFirst (stateStep "a" LastOperationState.InProgress 7)))
        1 "op" (worldWith freshOp [])).ret = some (7, none) := by
  have htrace : (Execute worldEnv
        (managerWith 0 (stageWithFirst (stateStep "a" LastOperationState.InProgress 7)))
        1 "op" (worldWith freshOp [])).trace =
      [Effect.GetOperationByID "op", Effect.RunStep "A" "a" freshOp, Effect.Run "a" freshOp,
        Effect.Publish (Event.OperationStepProcessed
          { StepName := "a", Duration := 1, When := 7, Error := none } freshOp freshOp)] ++
        Effect.Returned freshOp 7 none :: [] := rfl
  exact ⟨htrace, (Execute_delay_returns worldEnv _ 1 "op" (worldWith freshOp []) _ _ freshOp 7
    htrace (by decide) (by decide)).1⟩

/-- C8: terminal wins over delay.  In every call of `Execute`, whenever the
runner hands back no error and an operation whose state is `Succeeded` or
`Failed`, nothing is recorded after that return (no further step binding, no
finished-stage persist) and `Execute` returns `(0, nil)`, whatever delay `d` the
runner handed back alongside. -/
theorem Execute_terminal_wins (env : Env W) (m : StagedManager W) (fuel : Nat)
    (operationID : String) (w : W) (tr1 tr2 : List Effect) (op : Operation) (d : Duration)
    (htrace : (Execute env m fuel operationID w).trace = tr1 ++ Effect.Returned op d none :: tr2)
    (hstate : op.State = LastOperationState.Failed ∨ op.State = LastOperationState.Succeeded) :
    (Execute env m fuel operationID w).ret = some (0, none) ∧ tr2 = [] ∧
      (∀ x ∈ tr2, x.invokesStep = false) ∧ (∀ o, Effect.UpdateOperation o ∉ tr2) := by
  have h := eachWithRest_decompose.mp (Execute_returnedExit env m fuel operationID w)
    tr1 _ tr2 htrace op d none (0, none) rfl (by simp [exitOf, hstate])
  obtain ⟨h1, h2⟩ := h
  subst h1
  exact ⟨h2, rfl, by simp, by simp⟩

/-- Witness of C8: the first step of stage "A" sets the state `Failed` and asks
for a delay of 7 at the same time. -/
theorem Execute_terminal_wins_witness :
    (Execute worldEnv
        (managerWith 0 (stageWithFirst (stateStep "a" LastOperationState.Failed 7)))
        1 "op" (worldWith freshOp [])).trace =
      [Effect.GetOperationByID "op", Effect.RunStep "A" "a" freshOp, Effect.Run "a" freshOp,
        Effect.Publish (Event.OperationStepProcessed
          { StepName := "a", Duration := 1, When := 7, Error := none }
          { freshOp with State := LastOperationState.Failed } freshOp)] ++
        Effect.Returned { freshOp with State := LastOperationState.Failed } 7 none :: [] ∧
      (Execute worldEnv
        (managerWith 0 (stageWithFirst (stateStep "a" LastOperationState.Failed 7)))
        1 "op" (worldWith freshOp [])).ret = some (0, none) := by
  have htrace : (Execute worldEnv
        (managerWith 0 (stageWithFirst (stateStep "a" LastOperationState.Failed 7)))
        1 "op" (worldWith freshOp [])).trace =
      [Effect.GetOperationByID "op", Effect.RunStep "A" "a" freshOp, Effect.Run "a" freshOp,
        Effect.Publish (Event.OperationStepProcessed
          { StepName := "a", Duration := 1, When := 7, Error := none }
          { freshOp with State := LastOperationState.Failed } freshOp)] ++
        Effect.Returned { freshOp with State := LastOperationState.Failed } 7 none :: [] := rfl
  exact ⟨htrace, (Execute_terminal_wins worldEnv _ 1 "op" (worldWith freshOp []) _ _ _ 7
    htrace (Or.inl rfl)).1⟩

/-- C3, the code at a failing input: the first step of stage "A" returns
`(op, 0, err)` with the error "boom".  When persisting `LastError` succeeds the
runner hands back a nil error, the second step "b" is run, the stage is marked
finished and `Execute` returns `(0, nil)` after persisting `Succeeded`; when that
persist fails with a conflict, `Execute` returns the storage conflict and not
the error of the step. -/
theorem Execute_step_error_overwritten :
    (errStep "a").Run freshOp (worldWith freshOp []) =
        (RunOutcome.returns freshOp 0 (some (GoError.errorString "boom")), worldWith freshOp []) ∧
      (Execute worldEnv (managerOf (stageWithFirst (errStep "a"))) 1 "op"
        (worldWith freshOp [])).ret = some (0, none) ∧
      (Execute worldEnv (managerOf (stageWithFirst (errStep "a"))) 1 "op"
        (worldWith freshOp [])).trace.filterMap
          (fun x => match x with
            | Effect.Run n _ => some n
            | Effect.Returned _ _ err => some (toString (err.map GoError.Error))
            | _ => none) = ["a", "none", "b", "none"] ∧
      (Execute worldEnv (managerOf (stageWithFirst (errStep "a"))) 1 "op"
        (worldWith freshOp [])).trace.getLast? =
        some (Effect.UpdateOperation
          { freshOp with
            State := LastOperationState.Succeeded, Description := "Processing finished",
            FinishedStages := ["A"],
            LastError := some { message := "boom", reason := ErrReason.Classified "step" } }) ∧
      (Execute worldEnv (managerOf (stageWithFirst (errStep "a"))) 1 "op"
        (worldWith freshOp [true])).ret = some (0, some (GoError.conflict "conflict")) := by
  refine ⟨rfl, rfl, ?_, rfl, rfl⟩
  decide

/-- C4, as stated, fails: `Execute` does not look at the state it loads.  An
operation stored as `Succeeded` that is past the global timeout is persisted as
`Failed`; an operation stored as `Failed`, not past the timeout, whose only
binding is skipped by its predicate is persisted as `Succeeded`. -/
theorem Execute_terminal_reverted :
    Effect.UpdateOperation
        { freshOp with
          State := LastOperationState.Failed,
          LastError := some (TimeoutError "operation has reached the time limit") } ∈
      (Execute worldEnv (managerOf stagesAB) 1 "op"
        { clock := 500, failing := [],
          stored := { freshOp with State := LastOperationState.Succeeded } }).trace ∧
    Effect.UpdateOperation
        { freshOp with
          State := LastOperationState.Succeeded, Description := "Processing finished",
          FinishedStages := ["A"] } ∈
      (Execute worldEnv (managerOf stageSkipped) 1 "op"
        (worldWith { freshOp with State := LastOperationState.Failed } [])).trace := by
  constructor <;> decide

/-- C4, amended: an operation that loads with state `Succeeded` or `Failed` and
is not past the global timeout is never persisted with another state in a call
of `Execute` that hands a step binding to the runner, provided that the steps
return (no panic) an operation with the state they were given, that the speed
factor is not 0 and that storage hands back the state it was given. -/
theorem Execute_terminal_kept (env : Env W) (m : StagedManager W) (fuel : Nat)
    (operationID : String) (w w1 : W) (operation : Operation)
    (hload : env.GetOperationByID operationID w = (Except.ok operation, w1))
    (htime : ¬ env.now w1 - operation.CreatedAt > m.operationTimeout)
    (hterm : operation.State = LastOperationState.Failed ∨
      operation.State = LastOperationState.Succeeded)
    (hsteps : ∀ s ∈ m.stages, ∀ b ∈ s.steps, ∀ o w, ∃ o1 d e w1,
      b.Run o w = (RunOutcome.returns o1 d e, w1) ∧ o1.State = o.State)
    (hspeed : m.speedFactor ≠ 0)
    (hstore : ∀ o w o1 w1, env.UpdateOperation o w = (Except.ok o1, w1) → o1.State = o.State)
    (hrun : ∃ x ∈ (Execute env m fuel operationID w).trace, x.isRunStep = true) :
    ∀ o, Effect.UpdateOperation o ∈ (Execute env m fuel operationID w).trace →
      o.State = operation.State := by
  unfold Execute at hrun ⊢
  rw [hload] at hrun ⊢
  dsimp only at hrun ⊢
  rw [if_neg htime] at hrun ⊢
  dsimp only at hrun ⊢
  intro o ho
  simp only [List.mem_cons] at ho
  rcases ho with ho | ho
  · cases ho
  · refine stagesLoop_keeps_state env m fuel hspeed hstore m.stages hsteps operation w1 hterm ?_
      o ho
    obtain ⟨x, hx, hx1⟩ := hrun
    simp only [List.mem_cons] at hx
    rcases hx with rfl | hx
    · cases hx1
    · exact ⟨x, hx, hx1⟩

theorem stagesSkipRun_keep_state : ∀ s ∈ stagesSkipRun, ∀ b ∈ s.steps,
    ∀ (o : Operation) (w : World),
    ∃ o1 d e w1, b.Run o w = (RunOutcome.returns o1 d e, w1) ∧ o1.State = o.State := by
  intro s hs b hb o w
  simp only [stagesSkipRun, List.mem_cons, List.mem_singleton, List.not_mem_nil, or_false] at hs
  rcases hs with rfl | rfl
  · simp only [List.mem_singleton] at hb
    subst hb
    exact ⟨o, 0, none, w, rfl, rfl⟩
  · simp only [List.mem_singleton] at hb
    subst hb
    exact ⟨o, 0, none, w, rfl, rfl⟩

/-- Witness of C4 amended: an operation stored as `Failed` passes stage "A",
whose only binding is skipped, so that storage is asked to persist it with "A"
finished and the state `Failed` it had; then the step of stage "B" runs, leaves
the state as it is, and the call returns with nothing else persisted. -/
theorem Execute_terminal_kept_witness :
    (Execute worldEnv (managerOf stagesSkipRun) 1 "op"
        (worldWith { freshOp with State := LastOperationState.Failed } [])).trace =
      [Effect.GetOperationByID "op",
        Effect.Condition "A" "g" { freshOp with State := LastOperationState.Failed } false,
        Effect.UpdateOperation
          { freshOp with State := LastOperationState.Failed, FinishedStages := ["A"] },
        Effect.RunStep "B" "b"
          { freshOp with State := LastOperationState.Failed, FinishedStages := ["A"] },
        Effect.Run "b"
          { freshOp with State := LastOperationState.Failed, FinishedStages := ["A"] },
        Effect.Publish (Event.OperationStepProcessed
          { StepName := "b", Duration := 0, When := 0, Error := none }
          { freshOp with State := LastOperationState.Failed, FinishedStages := ["A"] }
          { freshOp with State := LastOperationState.Failed, FinishedStages := ["A"] }),
        Effect.Returned
          { freshOp with State := LastOperationState.Failed, FinishedStages := ["A"] } 0 none] ∧
      (∃ x ∈ (Execute worldEnv (managerOf stagesSkipRun) 1 "op"
          (worldWith { freshOp with State := LastOperationState.Failed } [])).trace,
        x.isRunStep = true) ∧
      Effect.UpdateOperation
          { freshOp with State := LastOperationState.Failed, FinishedStages := ["A"] } ∈
        (Execute worldEnv (managerOf stagesSkipRun) 1 "op"
          (worldWith { freshOp with State := LastOperationState.Failed } [])).trace ∧
      ({ freshOp with State := LastOperationState.Failed, FinishedStages := ["A"] } :
        Operation).State = LastOperationState.Failed :=
  ⟨by decide, by decide, by decide,
    Execute_terminal_kept worldEnv (managerOf stagesSkipRun) 1 "op"
      (worldWith { freshOp with State := LastOperationState.Failed } [])
      (worldWith { freshOp with State := LastOperationState.Failed } [])
      { freshOp with State := LastOperationState.Failed } rfl (by decide) (Or.inl rfl)
      stagesSkipRun_keep_state (by decide) worldEnv_update_state (by decide)
      { freshOp with State := LastOperationState.Failed, FinishedStages := ["A"] }
      (by decide)⟩

/-- C9, as stated, fails: the first step of stage "A" sets the state `Succeeded`
and returns no error; `Execute` returns `(0, nil)` having recorded the load, the
runner with its step-processed event and nothing else: no completion event is
published and storage is not asked to persist anything. -/
theorem Execute_terminal_step_trace :
    (Execute worldEnv (managerOf (stageWithFirst (stateStep "a" LastOperationState.Succeeded 0)))
        1 "op" (worldWith freshOp [])).trace =
      [Effect.GetOperationByID "op", Effect.RunStep "A" "a" freshOp, Effect.Run "a" freshOp,
        Effect.Publish (Event.OperationStepProcessed
          { StepName := "a", Duration := 1, When := 0, Error := none }
          { freshOp with State := LastOperationState.Succeeded } freshOp),
        Effect.Returned { freshOp with State := LastOperationState.Succeeded } 0 none] ∧
      (Execute worldEnv (managerOf (stageWithFirst (stateStep "a" LastOperationState.Succeeded 0)))
        1 "op" (worldWith freshOp [])).ret = some (0, none) ∧
      (∀ x ∈ (Execute worldEnv
          (managerOf (stageWithFirst (stateStep "a" LastOperationState.Succeeded 0)))
          1 "op" (worldWith freshOp [])).trace, x.isCompletion = false ∧ x.isUpdate = false) := by
  refine ⟨rfl, rfl, ?_⟩
  decide

/-- C9, amended: in every call of `Execute`, whenever the runner hands back no
error and an operation whose state is `Succeeded` or `Failed`, `Execute` returns
`(0, nil)` at once: after that return it publishes nothing and asks storage for
nothing, and no completion (`OperationSucceeded`) event is published in the
whole call. -/
theorem Execute_terminal_returns_directly (env : Env W) (m : StagedManager W) (fuel : Nat)
    (operationID : String) (w : W) (tr1 tr2 : List Effect) (op : Operation) (d : Duration)
    (htrace : (Execute env m fuel operationID w).trace = tr1 ++ Effect.Returned op d none :: tr2)
    (hstate : op.State = LastOperationState.Failed ∨ op.State = LastOperationState.Succeeded) :
    (Execute env m fuel operationID w).ret = some (0, none) ∧
      (∀ x ∈ tr2, x.isPublish = false ∧ x.isUpdate = false) ∧
      (∀ x ∈ (Execute env m fuel operationID w).trace, x.isCompletion = false) := by
  have h := eachWithRest_decompose.mp (Execute_returnedExit env m fuel operationID w)
    tr1 _ tr2 htrace op d none (0, none) rfl (by simp [exitOf, hstate])
  obtain ⟨h1, h2⟩ := h
  subst h1
  refine ⟨h2, by simp, ?_⟩
  intro x hx
  rw [htrace] at hx
  simp only [List.mem_append, List.mem_singleton] at hx
  rcases hx with hx | rfl
  · cases hcomp : x.isCompletion with
    | false => rfl
    | true =>
      exfalso
      obtain ⟨a, b, hab⟩ := List.append_of_mem hx
      have hx2 : ∃ o, x = Effect.Publish (Event.OperationSucceeded o) := by
        cases x with
        | Publish ev =>
          cases ev with
          | OperationSucceeded o => exact ⟨o, rfl⟩
          | OperationStepProcessed _ _ _ => simp [Effect.isCompletion] at hcomp
        | _ => simp [Effect.isCompletion] at hcomp
      obtain ⟨o, rfl⟩ := hx2
      have hlast := eachWithRest_decompose.mp (Execute_succeededLast env m fuel operationID w)
        a _ (b ++ [Effect.Returned op d none]) (by rw [htrace, hab]; simp) o rfl
      cases b with
      | nil => simp at hlast
      | cons y ys => simp at hlast
  · rfl

/-- Witness of C9 amended: the first step of stage "A" sets the state
`Succeeded` and asks for a delay of 3. -/
theorem Execute_terminal_returns_directly_witness :
    (Execute worldEnv
        (managerWith 0 (stageWithFirst (stateStep "a" LastOperationState.Succeeded 3)))
        1 "op" (worldWith freshOp [])).trace =
      [Effect.GetOperationByID "op", Effect.RunStep "A" "a" freshOp, Effect.Run "a" freshOp,
        Effect.Publish (Event.OperationStepProcessed
          { StepName := "a", Duration := 1, When := 3, Error := none }
          { freshOp with State := LastOperationState.Succeeded } freshOp)] ++
        Effect.Returned { freshOp with State := LastOperationState.Succeeded } 3 none :: [] ∧
      (Execute worldEnv
        (managerWith 0 (stageWithFirst (stateStep "a" LastOperationState.Succeeded 3)))
        1 "op" (worldWith freshOp [])).ret = some (0, none) := by
  have htrace : (Execute worldEnv
        (managerWith 0 (stageWithFirst (stateStep "a" LastOperationState.Succeeded 3)))
        1 "op" (worldWith freshOp [])).trace =
      [Effect.GetOperationByID "op", Effect.RunStep "A" "a" freshOp, Effect.Run "a" freshOp,
        Effect.Publish (Event.OperationStepProcessed
          { StepName := "a", Duration := 1, When := 3, Error := none }
          { freshOp with State := LastOperationState.Succeeded } freshOp)] ++
        Effect.Returned { freshOp with State := LastOperationState.Succeeded } 3 none :: [] := rfl
  exact ⟨htrace, (Execute_terminal_returns_directly worldEnv _ 1 "op" (worldWith freshOp []) _ _
    _ 3 htrace (Or.inr rfl)).1⟩

/-- C6, as stated, fails in two ways, with every step returning `(op, 0, nil)`
on a fresh operation and a storage that never fails.  When a binding has a
predicate that is false, its step "g" is never run.  When the name "A" is
declared twice (`GetAllStages` lists two stages) and the steps "a" and "b" are
added to "A", both steps run, but `FinishedStages` is persisted once, after the
first stage: the second stage of that name counts as finished and nothing is
persisted after it. -/
theorem Execute_fresh_run_skips :
    ((Execute reliableEnv (managerOf stageSkipped) 1 "op" (worldWith freshOp [])).trace.filterMap
        observe =
      [Observation.persisted ["A"], Observation.completed ["A"], Observation.persisted ["A"]] ∧
      (Execute reliableEnv (managerOf stageSkipped) 1 "op" (worldWith freshOp [])).ret =
        some (0, none)) ∧
    (GetAllStages managerTwiceA = ["A", "A"] ∧
      (Execute reliableEnv managerTwiceA 1 "op" (worldWith freshOp [])).trace.filterMap observe =
        [Observation.ran "a", Observation.stepProcessed "a", Observation.ran "b",
          Observation.stepProcessed "b", Observation.persisted ["A"],
          Observation.completed ["A"], Observation.persisted ["A"]] ∧
      (Execute reliableEnv managerTwiceA 1 "op" (worldWith freshOp [])).ret =
        some (0, none)) := by
  refine ⟨⟨?_, rfl⟩, ⟨rfl, ?_, rfl⟩⟩ <;> decide

/-- C6, amended: for declared stages with pairwise distinct names and a fresh
operation (it loads, is not past the timeout, has no finished stage and a
non-terminal state), when every step given a non-terminal operation returns
`(op1, 0, nil)` with a non-terminal state and `FinishedStages` untouched, every
storage update succeeds handing back what was saved, and no predicate asked in
the call answers false (on the snapshot it is asked about), one call of
`Execute` returns `(0, nil)` and what it does is exactly: stage after stage,
each step run once in binding order with one step-processed event each, then a
persist of `FinishedStages` extended by that stage name; at the end one
completion event and the persist of the operation with state `Succeeded` and
all declared stages finished. -/
theorem Execute_fresh_run (env : Env W) (m : StagedManager W) (fuel : Nat)
    (operationID : String) (w w1 : W) (operation : Operation)
    (hload : env.GetOperationByID operationID w = (Except.ok operation, w1))
    (htime : ¬ env.now w1 - operation.CreatedAt > m.operationTimeout)
    (hfresh : operation.FinishedStages = [])
    (hstate : operation.State ≠ LastOperationState.Failed ∧
      operation.State ≠ LastOperationState.Succeeded)
    (hnodup : (m.stages.map fun s => s.name).Nodup)
    (hcond : ∀ x ∈ (Execute env m (fuel + 1) operationID w).trace, x.isRefusal = false)
    (hsteps : ∀ s ∈ m.stages, ∀ b ∈ s.steps, ∀ o w,
      o.State ≠ LastOperationState.Failed ∧ o.State ≠ LastOperationState.Succeeded →
      ∃ o1 w1, b.Run o w = (RunOutcome.returns o1 0 none, w1) ∧
        o1.FinishedStages = o.FinishedStages ∧ o1.State ≠ LastOperationState.Failed ∧
        o1.State ≠ LastOperationState.Succeeded)
    (hstore : ∀ o w, ∃ w1, env.UpdateOperation o w = (Except.ok o, w1)) :
    (Execute env m (fuel + 1) operationID w).ret = some (0, none) ∧
      (Execute env m (fuel + 1) operationID w).trace.filterMap observe =
        expectedRun [] m.stages ∧
      ∃ final pre, final.State = LastOperationState.Succeeded ∧
        final.FinishedStages = m.stages.map (fun s => s.name) ∧
        (Execute env m (fuel + 1) operationID w).trace =
          pre ++ [Effect.Publish (Event.OperationSucceeded final),
            Effect.UpdateOperation final] := by
  obtain ⟨h1, h2, final, pre, h3, h4, h5⟩ := stagesLoop_fresh env m fuel hstore m.stages
    hsteps operation w1 hstate hnodup (by simp [hfresh])
  unfold Execute at hcond ⊢
  rw [hload] at hcond ⊢
  dsimp only at hcond ⊢
  rw [if_neg htime] at hcond ⊢
  dsimp only at hcond ⊢
  refine ⟨h1, ?_, final, Effect.GetOperationByID operationID :: pre, h3, ?_, ?_⟩
  · rw [List.filterMap_cons, h2 (fun x hx => hcond x (List.mem_cons_of_mem _ hx)), hfresh]
    rfl
  · rw [h4, hfresh]
    rfl
  · rw [h5]
    rfl

/-- Witness of C6 amended: stage "A" with an always-succeeding step and stage
"B" whose step has a predicate that holds of the operations with payload 0 (as
the fresh operation, and not of every operation), on a storage that never
fails: the predicate is asked once and answers true, and both steps run. -/
theorem Execute_fresh_run_witness :
    freshOp.FinishedStages = [] ∧
      ((managerOf stagesAsked).stages.map fun s => s.name).Nodup ∧
      (payloadStep "b").condition.map (fun c => c { freshOp with payload := 1 }) =
        some false ∧
      Effect.Condition "B" "b" { freshOp with FinishedStages := ["A"] } true ∈
        (Execute reliableEnv (managerOf stagesAsked) 1 "op" (worldWith freshOp [])).trace ∧
      (∀ x ∈ (Execute reliableEnv (managerOf stagesAsked) 1 "op" (worldWith freshOp [])).trace,
        x.isRefusal = false) ∧
      (Execute reliableEnv (managerOf stagesAsked) 1 "op" (worldWith freshOp [])).ret =
        some (0, none) ∧
      (Execute reliableEnv (managerOf stagesAsked) 1 "op" (worldWith freshOp [])).trace.filterMap
          observe =
        [Observation.ran "a", Observation.stepProcessed "a", Observation.persisted ["A"],
          Observation.ran "b", Observation.stepProcessed "b", Observation.persisted ["A", "B"],
          Observation.completed ["A", "B"], Observation.persisted ["A", "B"]] := by
  have h := Execute_fresh_run reliableEnv (managerOf stagesAsked) 0 "op" (worldWith freshOp [])
    (worldWith freshOp []) freshOp rfl (by decide) rfl (by decide) (by decide) (by decide)
    stagesAsked_steps (fun o w => ⟨_, rfl⟩)
  exact ⟨rfl, by decide, by decide, by decide, by decide, h.1, h.2.1⟩

/-- C10, as stated, fails: the sequence of attempts also ends where persisting a
finished stage fails.  With stages "A" and "B" of one step each and a storage
that rejects the first update, the only attempt is step "a" of stage "A"; it
handed back the fresh operation (not terminal, no finished stage), delay 0 and
no error, yet the step of the unfinished stage "B" is not attempted and
`Execute` returns `(1s, nil)`. -/
theorem Execute_attempts_end_at_failed_persist :
    (Execute worldEnv (managerOf stagesAB) 1 "op" (worldWith freshOp [true])).trace.filterMap
        attemptOf = [("A", "a")] ∧
      Effect.Returned freshOp 0 none ∈
        (Execute worldEnv (managerOf stagesAB) 1 "op" (worldWith freshOp [true])).trace ∧
      (Execute worldEnv (managerOf stagesAB) 1 "op" (worldWith freshOp [true])).ret =
        some (Second, none) := by
  refine ⟨?_, ?_, rfl⟩ <;> decide

/-- C10, amended: in every call of `Execute` the sequence of step bindings
handed to the runner is the one the specification describes, `expectedAttempts`:
none when the operation does not load or is past the global timeout; otherwise
the bindings of the stages not present in `FinishedStages` of the current
snapshot, in registration order and then binding order, keeping a binding
exactly when its predicate is absent or true on the current snapshot, up to the
first step that yields an error, a terminal state or a positive delay (or whose
retry loop is still running), and up to the first finished-stage persist that
fails. -/
theorem Execute_attempts (env : Env W) (m : StagedManager W) (fuel : Nat)
    (operationID : String) (w : W) :
    (Execute env m fuel operationID w).trace.filterMap attemptOf =
      expectedAttempts env m fuel operationID w := by
  unfold Execute expectedAttempts
  split
  · rfl
  · dsimp only
    split_ifs with htime
    · split <;> rfl
    · simp only [List.filterMap_cons, attemptOf]
      exact stagesLoop_attempts env m fuel _ _ _

/-! ## Setting up the manager -/

theorem addToStages_none (stageName : String) (step : Step W) (cnd : Option StepCondition)
    (stages : List (stage W)) (h : stageName ∉ stages.map fun s => s.name) :
    addToStages stageName step cnd stages = none := by
  induction stages with
  | nil => rfl
  | cons s rest ih =>
    simp only [List.map_cons, List.mem_cons, not_or] at h
    simp only [addToStages, if_neg (Ne.symm h.1), ih h.2, Option.map_none']

theorem addToStages_some (stageName : String) (step : Step W) (cnd : Option StepCondition)
    (stages : List (stage W)) (h : stageName ∈ stages.map fun s => s.name) :
    ∃ pre s post, stages = pre ++ s :: post ∧ s.name = stageName ∧
      (∀ t ∈ pre, t.name ≠ stageName) ∧
      addToStages stageName step cnd stages =
        some (pre ++ { s with steps := s.steps ++ [{ toStep := step, condition := cnd }] } ::
          post) := by
  induction stages with
  | nil => simp at h
  | cons s rest ih =>
    by_cases hs : s.name = stageName
    · refine ⟨[], s, rest, rfl, hs, by simp, ?_⟩
      simp [addToStages, hs, stage.AddStep]
    · have hrest : stageName ∈ rest.map fun s => s.name := by
        simp only [List.map_cons, List.mem_cons] at h
        rcases h with h | h
        · exact absurd h.symm hs
        · exact h
      obtain ⟨pre, t, post, h1, h2, h3, h4⟩ := ih hrest
      refine ⟨s :: pre, t, post, by simp [h1], h2, ?_, ?_⟩
      · intro u hu
        simp only [List.mem_cons] at hu
        rcases hu with rfl | hu
        · exact hs
        · exact h3 u hu
      · simp [addToStages, hs, h4]

/-- C14: `AddStep` with a stage name that is not among the declared names returns
the error "stage <name> not defined" and leaves the manager as it is; with a
declared name it returns nil and appends exactly the binding (that step with
that predicate) at the end of the first stage of that name, every stage before
and after it, the stage names and their order being unchanged. -/
theorem AddStep_spec (m : StagedManager W) (stageName : String) (step : Step W)
    (cnd : Option StepCondition) :
    (stageName ∉ GetAllStages m →
      AddStep m stageName step cnd =
        (m, some (GoError.errorString ("stage " ++ stageName ++ " not defined")))) ∧
    (stageName ∈ GetAllStages m →
      ∃ pre s post, m.stages = pre ++ s :: post ∧ s.name = stageName ∧
        (∀ t ∈ pre, t.name ≠ stageName) ∧
        AddStep m stageName step cnd =
          ({ m with stages := pre ++
              { s with steps := s.steps ++ [{ toStep := step, condition := cnd }] } :: post },
            none) ∧
        GetAllStages (AddStep m stageName step cnd).1 = GetAllStages m) := by
  constructor
  · intro h
    simp only [AddStep, addToStages_none stageName step cnd m.stages h]
  · intro h
    obtain ⟨pre, s, post, h1, h2, h3, h4⟩ := addToStages_some stageName step cnd m.stages h
    refine ⟨pre, s, post, h1, h2, h3, ?_, ?_⟩
    · simp only [AddStep, h4]
    · simp only [AddStep, h4, GetAllStages]
      rw [h1]
      simp only [List.map_append, List.map_cons]

/-- Witness of C14: after declaring "A" and "B", a step is attached to "B"; the
name "C" is refused. -/
theorem AddStep_spec_witness :
    "C" ∉ GetAllStages (managerOf stagesAB) ∧
      (AddStep (managerOf stagesAB) "C" (okStep "c").toStep none).2 =
        some (GoError.errorString "stage C not defined") ∧
      "B" ∈ GetAllStages (managerOf stagesAB) ∧
      GetAllStages (AddStep (managerOf stagesAB) "B" (okStep "c").toStep none).1 = ["A", "B"] ∧
      ((AddStep (managerOf stagesAB) "B" (okStep "c").toStep none).1.stages.map
        fun s => s.steps.map fun b => b.Name) = [["a"], ["b", "c"]] := by
  have h := AddStep_spec (managerOf stagesAB) "C" (okStep "c").toStep none
  have h2 := AddStep_spec (managerOf stagesAB) "B" (okStep "c").toStep none
  have hC : "C" ∉ GetAllStages (managerOf stagesAB) := by decide
  have hB : "B" ∈ GetAllStages (managerOf stagesAB) := by decide
  obtain ⟨pre, s, post, _, _, _, _, h3⟩ := h2.2 hB
  refine ⟨hC, ?_, hB, ?_, by decide⟩
  · rw [h.1 hC]
    rfl
  · rw [h3]
    rfl

/-- C15, as stated, fails: `DefineStages` accepts a list with a repeated name; it
has no error result, and afterwards `GetAllStages` holds the name twice. -/
theorem DefineStages_keeps_repeated_names :
    GetAllStages (DefineStages (managerOf []) ["A", "A"]) = ["A", "A"] ∧
      ¬ (GetAllStages (DefineStages (managerOf []) ["A", "A"])).Nodup := by
  constructor <;> decide

/-- C15, amended: `DefineStages` accepts every list of names and cannot fail;
afterwards `GetAllStages` is exactly the declared list, every stage is without
bindings, and `GetAllStages` is free of repeated names exactly when the declared
list is. -/
theorem GetAllStages_DefineStages (m : StagedManager W) (names : List String) :
    GetAllStages (DefineStages m names) = names ∧
      (∀ s ∈ (DefineStages m names).stages, s.steps = []) ∧
      ((GetAllStages (DefineStages m names)).Nodup ↔ names.Nodup) := by
  have h : GetAllStages (DefineStages m names) = names := by
    simp [GetAllStages, DefineStages, Function.comp_def]
  refine ⟨h, ?_, by rw [h]⟩
  intro s hs
  simp only [DefineStages, List.mem_map] at hs
  obtain ⟨n, _, rfl⟩ := hs
  rfl

/-- C16, the code at a failing input: with stages "A" and "B" of one step each,
the two finished-stage updates succeed and the update that saves the final
`Succeeded` state fails with a conflict; `Execute` returns the delay of one
second together with the conflict error, not with nil.  On the sibling path, a
conflict while saving the finished stage "A" gives `(1s, nil)`. -/
theorem Execute_final_save_conflict :
    (Execute worldEnv (managerOf stagesAB) 1 "op" (worldWith freshOp [false, false, true])).ret =
        some (Second, some (GoError.conflict "conflict")) ∧
      (Execute worldEnv (managerOf stagesAB) 1 "op"
          (worldWith freshOp [false, false, true])).trace.getLast? =
        some (Effect.UpdateOperation
          { freshOp with
            State := LastOperationState.Succeeded, Description := "Processing finished",
            FinishedStages := ["A", "B"] }) ∧
      (Execute worldEnv (managerOf stagesAB) 1 "op" (worldWith freshOp [true])).ret =
        some (Second, none) ∧
      (Execute worldEnv (managerOf stagesAB) 1 "op" (worldWith freshOp [true])).trace.getLast? =
        some (Effect.UpdateOperation { freshOp with FinishedStages := ["A"] }) :=
  ⟨rfl, rfl, rfl, rfl⟩

/-- C19: for every status code `s` and flag `allowNotFound`, when the body is
readable, `processResponse` returns nil exactly when `s` is 201, 204, or 404 with
`allowNotFound`; a temporary error exactly when `s` is 408 or `s ≥ 500` (it wraps
the 'other' error carrying `s`); and otherwise a non-temporary EDP error:
conflict for 409, not-found for 404 without `allowNotFound`, bad-request for
400, and the 'other' error carrying `s` in every remaining case. -/
theorem processResponse_by_status (s : Int) (allowNotFound : Bool) (id body : String) :
    (EDP.processResponse { StatusCode := s, Body := Except.ok body } allowNotFound id = none ↔
        s = 201 ∨ s = 204 ∨ (s = 404 ∧ allowNotFound = true)) ∧
      ((∃ e, EDP.processResponse { StatusCode := s, Body := Except.ok body } allowNotFound id =
          some (EDP.ResponseError.temporary e)) ↔ s = 408 ∨ s ≥ 500) ∧
      (s = 408 ∨ s ≥ 500 →
        EDP.processResponse { StatusCode := s, Body := Except.ok body } allowNotFound id =
          some (EDP.ResponseError.temporary (EDP.EDPError.Other id s))) ∧
      (s = 409 →
        EDP.processResponse { StatusCode := s, Body := Except.ok body } allowNotFound id =
          some (EDP.ResponseError.edp (EDP.EDPError.Conflict id))) ∧
      (s = 404 → allowNotFound = false →
        EDP.processResponse { StatusCode := s, Body := Except.ok body } allowNotFound id =
          some (EDP.ResponseError.edp (EDP.EDPError.NotFound id))) ∧
      (s = 400 →
        EDP.processResponse { StatusCode := s, Body := Except.ok body } allowNotFound id =
          some (EDP.ResponseError.edp (EDP.EDPError.BadRequest id))) ∧
      (s ≠ 201 → s ≠ 204 → s ≠ 400 → s ≠ 404 → s ≠ 408 → s ≠ 409 → s < 500 →
        EDP.processResponse { StatusCode := s, Body := Except.ok body } allowNotFound id =
          some (EDP.ResponseError.edp (EDP.EDPError.Other id s))) := by
  simp only [EDP.processResponse, EDP.StatusCreated, EDP.StatusConflict, EDP.StatusNoContent,
    EDP.StatusNotFound, EDP.StatusRequestTimeout, EDP.StatusBadRequest]
  refine ⟨?_, ?_, ?_, ?_, ?_, ?_, ?_⟩
  · split_ifs <;> simp_all
  · split_ifs <;> simp_all
  · intro h
    split_ifs <;> simp_all
  · intro h
    subst h
    simp
  · intro h h2
    subst h
    simp [h2]
  · intro h
    subst h
    simp
  · intro h1 h2 h3 h4 h5 h6 h7
    simp [h1, h2, h3, h4, h5, h6, not_le.mpr h7]

/-- Witness of C19: the status codes 204, 404, 409, 408, 503 and 302. -/
theorem processResponse_by_status_witness :
    EDP.processResponse { StatusCode := 204, Body := Except.ok "" } false "id" = none ∧
      EDP.processResponse { StatusCode := 404, Body := Except.ok "" } true "id" = none ∧
      EDP.processResponse { StatusCode := 409, Body := Except.ok "" } true "id" =
        some (EDP.ResponseError.edp (EDP.EDPError.Conflict "id")) ∧
      EDP.processResponse { StatusCode := 408, Body := Except.ok "" } false "id" =
        some (EDP.ResponseError.temporary (EDP.EDPError.Other "id" 408)) ∧
      EDP.processResponse { StatusCode := 503, Body := Except.ok "" } false "id" =
        some (EDP.ResponseError.temporary (EDP.EDPError.Other "id" 503)) ∧
      EDP.processResponse { StatusCode := 302, Body := Except.ok "" } false "id" =
        some (EDP.ResponseError.edp (EDP.EDPError.Other "id" 302)) :=
  ⟨(processResponse_by_status 204 false "id" "").1.mpr (Or.inr (Or.inl rfl)),
    (processResponse_by_status 404 true "id" "").1.mpr (Or.inr (Or.inr ⟨rfl, rfl⟩)),
    (processResponse_by_status 409 true "id" "").2.2.2.1 rfl,
    (processResponse_by_status 408 false "id" "").2.2.1 (Or.inl rfl),
    (processResponse_by_status 503 false "id" "").2.2.1 (Or.inr (by decide)),
    (processResponse_by_status 302 false "id" "").2.2.2.2.2.2 (by decide) (by decide) (by decide)
      (by decide) (by decide) (by decide) (by decide)⟩

/-! ## The step `CreateRuntimeWithoutKymaStep` -/

theorem updateInstance_attempts {S : Type} (env : Provisioning.StepEnv S)
    (id runtimeID region : String) (w : S) :
    (Provisioning.updateInstance env id runtimeID region w).2.1.countP
      Provisioning.Call.isUpdateInstance = 1 := by
  simp only [Provisioning.updateInstance]
  split
  · rfl
  · split <;> rfl

/-- C18: in `CreateRuntimeWithoutKymaStep.Run`, once the provisioner call, the
operation update (handing back `op1`) and the runtime-state insert have
succeeded: when `updateInstance` succeeds, or fails with an error that is not a
conflict, `Run` returns `(op1, 0, nil)` after that single attempt; when it fails
with a conflict, exactly one more attempt is made, and `Run` returns
`(op1, 1 minute, nil)` if and only if that second attempt fails, `(op1, 0, nil)`
otherwise. -/
theorem Run_instance_update {S : Type} (env : Provisioning.StepEnv S)
    (operation op1 : Provisioning.Operation) (w w1 w2 w3 w4 : S)
    (requestInput : Provisioning.ProvisionRuntimeInput)
    (provisionerResponse : Provisioning.ProvisionerResponse)
    (hid : operation.RuntimeID = "")
    (htime : ¬ env.now w - operation.UpdatedAt > Provisioning.CreateRuntimeTimeout)
    (hinput : env.CreateProvisionClusterInput operation w = (Except.ok requestInput, w1))
    (hprov : env.ProvisionRuntime operation.GlobalAccountID operation.SubAccountID requestInput
      w1 = (Except.ok provisionerResponse, w2))
    (hupd : env.UpdateOperation operation (Provisioning.setProvisionerIDs provisionerResponse)
      w2 = ((op1, 0), w3))
    (hins : env.Insert
      { RuntimeID := provisionerResponse.RuntimeID, OperationID := op1.ID,
        input := requestInput, KymaVersion := op1.RuntimeVersion } w3 = (none, w4)) :
    let u := Provisioning.updateInstance env op1.InstanceID provisionerResponse.RuntimeID
      requestInput.Region w4
    let u2 := Provisioning.updateInstance env op1.InstanceID provisionerResponse.RuntimeID
      requestInput.Region u.2.2
    let r := Provisioning.Run env operation w
    (u.1 = none →
      r.1 = (op1, 0, none) ∧ r.2.1.countP Provisioning.Call.isUpdateInstance = 1) ∧
    (∀ err, u.1 = some err → env.IsConflict err = false →
      r.1 = (op1, 0, none) ∧ r.2.1.countP Provisioning.Call.isUpdateInstance = 1) ∧
    (∀ err, u.1 = some err → env.IsConflict err = true →
      r.2.1.countP Provisioning.Call.isUpdateInstance = 2 ∧
      (r.1 = (op1, 1 * Provisioning.Minute, none) ↔ u2.1 ≠ none) ∧
      (u2.1 = none → r.1 = (op1, 0, none))) := by
  intro u u2 r
  have hr : r = Provisioning.Run env operation w := rfl
  have hu1 := updateInstance_attempts env op1.InstanceID provisionerResponse.RuntimeID
    requestInput.Region w4
  have hu2 := updateInstance_attempts env op1.InstanceID provisionerResponse.RuntimeID
    requestInput.Region u.2.2
  simp only [Provisioning.Run, hid, ne_eq, not_true_eq_false, if_false, htime,
    Provisioning.createProvisionInput, hinput, hprov, hupd, hins] at hr
  refine ⟨?_, ?_, ?_⟩
  · intro h
    have h' : (Provisioning.updateInstance env op1.InstanceID provisionerResponse.RuntimeID
        requestInput.Region w4).1 = none := h
    simp only [h'] at hr
    rw [hr]
    refine ⟨rfl, ?_⟩
    simp [List.countP_append, List.countP_cons, hu1, Provisioning.Call.isUpdateInstance]
  · intro err h hc
    have h' : (Provisioning.updateInstance env op1.InstanceID provisionerResponse.RuntimeID
        requestInput.Region w4).1 = some err := h
    simp only [h', hc, Bool.false_eq_true, if_false] at hr
    rw [hr]
    refine ⟨rfl, ?_⟩
    simp [List.countP_append, List.countP_cons, hu1, Provisioning.Call.isUpdateInstance]
  · intro err h hc
    have h' : (Provisioning.updateInstance env op1.InstanceID provisionerResponse.RuntimeID
        requestInput.Region w4).1 = some err := h
    simp only [h', hc, if_true] at hr
    cases h2 : u2.1 with
    | none =>
      have h2' : (Provisioning.updateInstance env op1.InstanceID
          provisionerResponse.RuntimeID requestInput.Region
          (Provisioning.updateInstance env op1.InstanceID provisionerResponse.RuntimeID
            requestInput.Region w4).2.2).1 = none := h2
      simp only [h2'] at hr
      rw [hr]
      refine ⟨?_, ?_, fun _ => rfl⟩
      · simp [List.countP_append, List.countP_cons, hu1, hu2,
          Provisioning.Call.isUpdateInstance]
      · simp [Provisioning.Minute, Second]
    | some e2 =>
      have h2' : (Provisioning.updateInstance env op1.InstanceID
          provisionerResponse.RuntimeID requestInput.Region
          (Provisioning.updateInstance env op1.InstanceID provisionerResponse.RuntimeID
            requestInput.Region w4).2.2).1 = some e2 := h2
      simp only [h2'] at hr
      rw [hr]
      refine ⟨?_, ?_, fun h => by cases h⟩
      · simp [List.countP_append, List.countP_cons, hu1, hu2,
          Provisioning.Call.isUpdateInstance]
      · simp

/-- Witness of C18: the first instance update fails with a conflict; when the
second attempt fails too `Run` asks for one minute, when it succeeds `Run`
returns no delay. -/
theorem Run_instance_update_witness :
    (Provisioning.Run (Provisioning.sampleEnv true) Provisioning.sampleOperation 0).1 =
        ({ Provisioning.sampleOperation with ProvisionerOperationID := "pid", RuntimeID := "rid" },
          1 * Provisioning.Minute, none) ∧
      (Provisioning.Run (Provisioning.sampleEnv true) Provisioning.sampleOperation 0).2.1.countP
        Provisioning.Call.isUpdateInstance = 2 ∧
      (Provisioning.Run (Provisioning.sampleEnv false) Provisioning.sampleOperation 0).1 =
        ({ Provisioning.sampleOperation with ProvisionerOperationID := "pid", RuntimeID := "rid" },
          0, none) := by
  have h := Run_instance_update (Provisioning.sampleEnv true) Provisioning.sampleOperation
    { Provisioning.sampleOperation with ProvisionerOperationID := "pid", RuntimeID := "rid" }
    0 0 0 0 0 { Region := "eu", rest := 0 } { ID := "pid", RuntimeID := "rid" }
    rfl (by decide) rfl rfl rfl rfl
  have h2 := Run_instance_update (Provisioning.sampleEnv false) Provisioning.sampleOperation
    { Provisioning.sampleOperation with ProvisionerOperationID := "pid", RuntimeID := "rid" }
    0 0 0 0 0 { Region := "eu", rest := 0 } { ID := "pid", RuntimeID := "rid" }
    rfl (by decide) rfl rfl rfl rfl
  obtain ⟨h3, h4, _⟩ := h.2.2
    (Provisioning.WrappedError.wrap "while updating instance"
      (Provisioning.WrappedError.cause (GoError.conflict "conflict"))) rfl rfl
  obtain ⟨_, _, h5⟩ := h2.2.2
    (Provisioning.WrappedError.wrap "while updating instance"
      (Provisioning.WrappedError.cause (GoError.conflict "conflict"))) rfl rfl
  exact ⟨h4.mpr (by decide), h3, h5 rfl⟩

/-! ## The step `BTPOperatorCleanupStep` -/

/-- C17: in every run of `softDelete` in which a kube client and the namespace
list are obtained and both existence checks of the custom resource definitions
return without error, `softDelete` returns the operation unchanged, no delay and
no error, whatever `DeleteAllOf`, the listing and the update of resources answer
inside `removeResources`: the slice `errors` of `softDelete` is never appended
to, so the branch "failed to cleanup" is not taken. -/
theorem softDelete_ignores_removal_failures {K : Type} (env : Deprovisioning.CleanupEnv K)
    (operation : Deprovisioning.Operation) (w w1 w2 w3 : K)
    (k8sClient : Deprovisioning.Client K) (namespaces : List String) (SBCrdExists : Bool)
    (hclient : Deprovisioning.getKubeClient env operation w = ((some k8sClient, none), w1))
    (hlist : k8sClient.ListNamespaces w1 = (Except.ok namespaces, w2))
    (hsb : Deprovisioning.checkCRDExistence k8sClient
      { Group := Deprovisioning.btpOperatorGroup, Version := Deprovisioning.btpOperatorApiVer,
        Kind := Deprovisioning.btpOperatorBinding } w2 = ((SBCrdExists, none), w3))
    (hsi : (Deprovisioning.checkCRDExistence k8sClient
      { Group := Deprovisioning.btpOperatorGroup, Version := Deprovisioning.btpOperatorApiVer,
        Kind := Deprovisioning.btpOperatorServiceInstance }
      (if SBCrdExists then
        (Deprovisioning.removeResources k8sClient
          { Group := Deprovisioning.btpOperatorGroup,
            Version := Deprovisioning.btpOperatorApiVer,
            Kind := Deprovisioning.btpOperatorBinding } namespaces [] w3).2
        else w3)).1.2 = none) :
    (Deprovisioning.softDelete env operation w).1 = (operation, 0, none) := by
  unfold Deprovisioning.softDelete
  rw [hclient]
  dsimp only
  rw [hlist]
  dsimp only
  rw [hsb]
  dsimp only
  split
  · rename_i heq
    rw [heq] at hsi
    cases hsi
  · rfl

/-- Witness of C17: every `DeleteAllOf`, every listing and every update of a
resource fails; the copy of `errors` inside `removeResources` holds two
messages, and `softDelete` returns `(operation, 0, nil)`. -/
theorem softDelete_ignores_removal_failures_witness :
    (Deprovisioning.removeResources Deprovisioning.failingClient
        { Group := Deprovisioning.btpOperatorGroup, Version := Deprovisioning.btpOperatorApiVer,
          Kind := Deprovisioning.btpOperatorBinding } ["default"] [] ()).1.length = 2 ∧
      (Deprovisioning.softDelete Deprovisioning.failingEnv Deprovisioning.cleanupOperation ()).1 =
        (Deprovisioning.cleanupOperation, 0, none) :=
  ⟨by decide,
    softDelete_ignores_removal_failures Deprovisioning.failingEnv
      Deprovisioning.cleanupOperation () () () () Deprovisioning.failingClient ["default"] true
      rfl rfl rfl rfl⟩

/-! ## The order in which stages are finished -/

theorem finishedAfter_subset (stages : List (stage W)) :
    ∀ (finished : List String), ∀ n ∈ finished, n ∈ finishedAfter finished stages := by
  induction stages with
  | nil => intro finished n hn; exact hn
  | cons s rest ih =>
    intro finished n hn
    simp only [finishedAfter]
    apply ih
    split_ifs
    · exact hn
    · exact List.mem_append_left _ hn

theorem finishedAfter_nodup (stages : List (stage W)) :
    ∀ (finished : List String), finished.Nodup → (finishedAfter finished stages).Nodup := by
  induction stages with
  | nil => intro finished h; exact h
  | cons s rest ih =>
    intro finished h
    simp only [finishedAfter]
    apply ih
    split_ifs with hs
    · exact h
    · rw [List.nodup_append]
      refine ⟨h, List.nodup_singleton _, ?_⟩
      intro a ha hb
      simp only [List.mem_singleton] at hb
      subst hb
      exact hs ha

theorem finishedAfter_mem (stages : List (stage W)) :
    ∀ (finished : List String), ∀ s ∈ stages, s.name ∈ finishedAfter finished stages := by
  induction stages with
  | nil => intro finished s hs; cases hs
  | cons t rest ih =>
    intro finished s hs
    simp only [finishedAfter]
    simp only [List.mem_cons] at hs
    rcases hs with rfl | hs
    · apply finishedAfter_subset
      split_ifs with h
      · exact h
      · simp
    · exact ih _ s hs

theorem finishedAfter_origin (stages : List (stage W)) :
    ∀ (finished : List String), ∀ n ∈ finishedAfter finished stages,
      n ∈ finished ∨ ∃ s ∈ stages, s.name = n := by
  induction stages with
  | nil => intro finished n hn; exact Or.inl hn
  | cons t rest ih =>
    intro finished n hn
    simp only [finishedAfter] at hn
    rcases ih _ n hn with h | ⟨s, hs, rfl⟩
    · split_ifs at h with ht
      · exact Or.inl h
      · simp only [List.mem_append, List.mem_singleton] at h
        rcases h with h | rfl
        · exact Or.inl h
        · exact Or.inr ⟨t, List.mem_cons_self _ _, rfl⟩
    · exact Or.inr ⟨s, List.mem_cons_of_mem _ hs, rfl⟩

theorem OperationFailed_finished (env : Env W)
    (hstore : ∀ o w o1 w1, env.UpdateOperation o w = (Except.ok o1, w1) →
      o1.FinishedStages = o.FinishedStages)
    (operation : Operation) (description : String) (err : GoError) (w : W) :
    (OperationFailed env operation description err w).1.FinishedStages =
      operation.FinishedStages := by
  simp only [OperationFailed]
  split
  · rename_i hupd
    have h := hstore _ _ _ _ hupd
    exact h
  · rfl

theorem runStepLoop_keeps_finished (env : Env W) (m : StagedManager W) (step : Step W)
    (operation : Operation) (begin : Duration)
    (hstep : ∀ o w o1 d e w1, step.Run o w = (RunOutcome.returns o1 d e, w1) →
      o1.FinishedStages = o.FinishedStages)
    (hstore : ∀ o w o1 w1, env.UpdateOperation o w = (Except.ok o1, w1) →
      o1.FinishedStages = o.FinishedStages) (fuel : Nat) :
    ∀ (p : Operation) (b : Duration) (w : W), p.FinishedStages = operation.FinishedStages →
      (∀ o, Effect.UpdateOperation o ∈ (runStepLoop env m step operation begin fuel p b w).trace →
        o.FinishedStages = operation.FinishedStages) ∧
      (∀ o d e, (runStepLoop env m step operation begin fuel p b w).ret = some (o, d, e) →
        o.FinishedStages = operation.FinishedStages) := by
  induction fuel with
  | zero => intro p b w _; simp [runStepLoop]
  | succ n ih =>
    intro p b w hp
    have hrec : ∀ (bk : Duration) (w0 : W),
        (∀ o, Effect.UpdateOperation o ∈ (recovered env operation bk
            "runtime error: integer divide by zero" w0).trace →
          o.FinishedStages = operation.FinishedStages) ∧
        (∀ o d e, (recovered env operation bk "runtime error: integer divide by zero" w0).ret =
          some (o, d, e) → o.FinishedStages = operation.FinishedStages) := by
      intro bk w0
      constructor
      · intro o ho
        simp only [recovered_trace, List.mem_cons, List.mem_singleton, List.not_mem_nil,
          or_false] at ho
        rcases ho with ho | ho | ho
        · cases ho
        · cases ho
        · cases ho
          rfl
      · intro o d e ho
        simp only [recovered, Option.some.injEq, Prod.mk.injEq] at ho
        rw [← ho.1]
        exact OperationFailed_finished env hstore _ _ _ _
    unfold runStepLoop
    split
    · rename_i v w1 hrun
      dsimp only
      constructor
      · intro o ho
        simp only [recovered_trace, List.mem_cons, List.mem_singleton, List.not_mem_nil,
          or_false] at ho
        rcases ho with ho | ho | ho | ho
        · cases ho
        · cases ho
        · cases ho
        · cases ho
          rfl
      · intro o d e ho
        simp only [recovered, Option.some.injEq, Prod.mk.injEq] at ho
        rw [← ho.1]
        exact OperationFailed_finished env hstore _ _ _ _
    · rename_i o1 d1 w1 hrun
      have hst : o1.FinishedStages = operation.FinishedStages :=
        (hstep _ _ _ _ _ _ hrun).trans hp
      dsimp only
      split_ifs
      · simp [hst]
      · constructor
        · intro o ho
          simp only [List.mem_cons] at ho
          rcases ho with ho | ho | ho
          · cases ho
          · cases ho
          · exact (hrec _ _).1 o ho
        · intro o d e ho
          exact (hrec _ _).2 o d e ho
      · constructor
        · intro o ho
          simp only [List.mem_cons] at ho
          rcases ho with ho | ho | ho | ho
          · cases ho
          · cases ho
          · cases ho
          · exact (ih _ _ _ hst).1 o ho
        · intro o d e ho
          exact (ih _ _ _ hst).2 o d e ho
    · rename_i o1 d1 stepErr w1 hrun
      have hst : o1.FinishedStages = operation.FinishedStages :=
        (hstep _ _ _ _ _ _ hrun).trans hp
      dsimp only
      split_ifs
      · constructor
        · intro o ho
          simp only [List.mem_cons, List.mem_singleton, List.not_mem_nil, or_false] at ho
          rcases ho with ho | ho | ho
          · cases ho
          · cases ho
            exact hst
          · cases ho
        · intro o d e ho
          cases ho
          exact hst
      · constructor
        · intro o ho
          simp only [List.mem_cons] at ho
          rcases ho with ho | ho | ho | ho
          · cases ho
          · cases ho
            exact hst
          · cases ho
          · exact (hrec _ _).1 o ho
        · intro o d e ho
          exact (hrec _ _).2 o d e ho
      · constructor
        · intro o ho
          simp only [List.mem_cons] at ho
          rcases ho with ho | ho | ho | ho | ho
          · cases ho
          · cases ho
            exact hst
          · cases ho
          · cases ho
          · exact (ih _ _ _ (by exact hst)).1 o ho
        · intro o d e ho
          exact (ih _ _ _ (by exact hst)).2 o d e ho

theorem stepsLoop_keeps_finished (env : Env W) (m : StagedManager W) (fuel : Nat)
    (stageName : String)
    (hstore : ∀ o w o1 w1, env.UpdateOperation o w = (Except.ok o1, w1) →
      o1.FinishedStages = o.FinishedStages)
    (steps : List (StepWithCondition W))
    (hsteps : ∀ b ∈ steps, ∀ o w o1 d e w1, b.Run o w = (RunOutcome.returns o1 d e, w1) →
      o1.FinishedStages = o.FinishedStages) :
    ∀ (op : Operation) (w : W),
      (∀ o, Effect.UpdateOperation o ∈ (stepsLoop env m fuel stageName steps op w).trace →
        o.FinishedStages = op.FinishedStages) ∧
      (∀ o, (stepsLoop env m fuel stageName steps op w).flow = Flow.next o →
        o.FinishedStages = op.FinishedStages) := by
  induction steps with
  | nil =>
    intro op w
    simp only [stepsLoop, List.not_mem_nil, false_implies, implies_true, true_and]
    intro o h
    cases h
    rfl
  | cons step rest ih =>
    intro op w
    have hce : ∀ o, Effect.UpdateOperation o ∉ conditionEffects stageName step op := by
      intro o ho
      obtain ⟨r, hr⟩ := mem_conditionEffects ho
      cases hr
    have hrun := runStepLoop_keeps_finished env m step.toStep op (env.now w)
      (hsteps step (List.mem_cons_self _ _)) hstore fuel op 0 w rfl
    have ihr := ih fun b hb => hsteps b (List.mem_cons_of_mem _ hb)
    have hupd : ∀ o, Effect.UpdateOperation o ∈ conditionEffects stageName step op ++
        Effect.RunStep stageName step.Name op :: (runStep env m fuel step.toStep op w).trace →
        o.FinishedStages = op.FinishedStages := by
      intro o ho
      simp only [List.mem_append, List.mem_cons] at ho
      rcases ho with ho | ho | ho
      · exact absurd ho (hce o)
      · cases ho
      · exact hrun.1 o ho
    unfold stepsLoop
    split_ifs with hskip
    · dsimp only
      obtain ⟨h1, h2⟩ := ihr op w
      refine ⟨fun o ho => ?_, h2⟩
      simp only [List.mem_append] at ho
      rcases ho with ho | ho
      · exact absurd ho (hce o)
      · exact h1 o ho
    · dsimp only
      split
      · exact ⟨hupd, fun o h => by cases h⟩
      · refine ⟨fun o ho => ?_, fun o h => by cases h⟩
        simp only [List.mem_append, List.mem_singleton] at ho
        rcases ho with ho | ho
        · exact hupd o (List.mem_append.mpr ho)
        · cases ho
      · rename_i o1 when hret
        have hst : o1.FinishedStages = op.FinishedStages := hrun.2 o1 when none hret
        split_ifs
        · refine ⟨fun o ho => ?_, fun o h => by cases h⟩
          simp only [List.mem_append, List.mem_singleton] at ho
          rcases ho with ho | ho
          · exact hupd o (List.mem_append.mpr ho)
          · cases ho
        · refine ⟨fun o ho => ?_, fun o h => by cases h⟩
          simp only [List.mem_append, List.mem_singleton] at ho
          rcases ho with ho | ho
          · exact hupd o (List.mem_append.mpr ho)
          · cases ho
        · obtain ⟨h1, h2⟩ := ihr o1 (runStep env m fuel step.toStep op w).world
          dsimp only
          refine ⟨fun o ho => ?_, fun o ho => (h2 o ho).trans hst⟩
          simp only [List.mem_append, List.mem_cons] at ho
          rcases ho with (ho | ho | ho) | ho | ho
          · exact absurd ho (hce o)
          · cases ho
          · exact hrun.1 o ho
          · cases ho
          · exact (h1 o ho).trans hst

theorem finishedAfter_cons_take (finished : List String) (s : stage W) (rest : List (stage W))
    (j : Nat) :
    finishedAfter finished ((s :: rest).take (j + 1)) =
      finishedAfter (if s.name ∈ finished then finished else finished ++ [s.name])
        (rest.take j) := by
  simp only [List.take_succ_cons, finishedAfter]

theorem stagesLoop_finished_in_order (env : Env W) (m : StagedManager W) (fuel : Nat)
    (hstore : ∀ o w o1 w1, env.UpdateOperation o w = (Except.ok o1, w1) →
      o1.FinishedStages = o.FinishedStages)
    (stages : List (stage W))
    (hsteps : ∀ s ∈ stages, ∀ b ∈ s.steps, ∀ o w o1 d e w1,
      b.Run o w = (RunOutcome.returns o1 d e, w1) → o1.FinishedStages = o.FinishedStages) :
    ∀ (op : Operation) (w : W),
      ∀ o, Effect.UpdateOperation o ∈ (stagesLoop env m fuel stages op w).trace →
        ∃ k, k ≤ stages.length ∧
          o.FinishedStages = finishedAfter op.FinishedStages (stages.take k) := by
  induction stages with
  | nil =>
    intro op w o ho
    refine ⟨0, le_refl _, ?_⟩
    simp only [stagesLoop] at ho
    split at ho <;>
    · simp only [List.mem_cons, List.mem_singleton, List.not_mem_nil, or_false] at ho
      rcases ho with ho | ho
      · cases ho
      · cases ho
        rfl
  | cons s rest ih =>
    intro op w o ho
    have ihr := ih fun t ht => hsteps t (List.mem_cons_of_mem _ ht)
    have hs := stepsLoop_keeps_finished env m fuel s.name hstore s.steps
      (hsteps s (List.mem_cons_self _ _)) op w
    have hzero : ∀ o : Operation, o.FinishedStages = op.FinishedStages →
        ∃ k, k ≤ (s :: rest).length ∧
          o.FinishedStages = finishedAfter op.FinishedStages ((s :: rest).take k) :=
      fun o h => ⟨0, Nat.zero_le _, by simpa [finishedAfter] using h⟩
    unfold stagesLoop at ho
    split_ifs at ho with hfin
    · obtain ⟨k, hk, hfs⟩ := ihr op w o ho
      refine ⟨k + 1, by simpa using hk, ?_⟩
      have hmem : s.name ∈ op.FinishedStages := by
        simpa [Operation.IsStageFinished] using hfin
      rw [finishedAfter_cons_take, if_pos hmem]
      exact hfs
    · have hnot : s.name ∉ op.FinishedStages := by
        simpa [Operation.IsStageFinished] using hfin
      dsimp only at ho
      split at ho
      · exact hzero o (hs.1 o ho)
      · exact hzero o (hs.1 o ho)
      · rename_i o1 hflow
        have ho1 : o1.FinishedStages = op.FinishedStages := hs.2 o1 hflow
        have hfs1 : (o1.FinishStage s.name).FinishedStages = op.FinishedStages ++ [s.name] := by
          have : o1.IsStageFinished s.name = false := by
            simp [Operation.IsStageFinished, ho1, hnot]
          simp [Operation.FinishStage, this, ho1]
        have hone : ∃ k, k ≤ (s :: rest).length ∧
            (o1.FinishStage s.name).FinishedStages =
              finishedAfter op.FinishedStages ((s :: rest).take k) := by
          refine ⟨1, by simp, ?_⟩
          rw [finishedAfter_cons_take, if_neg hnot, hfs1]
          simp [finishedAfter]
        have htr := saveFinishedStage_trace env o1 s
          (stepsLoop env m fuel s.name s.steps op w).world
        split at ho
        · rename_i hsave
          rw [hsave] at htr
          dsimp only at htr
          subst htr
          simp only [List.mem_append, List.mem_singleton] at ho
          rcases ho with ho | ho
          · exact hzero o (hs.1 o ho)
          · cases ho
            exact hone
        · rename_i op2 tr w2 hsave
          rw [hsave] at htr
          dsimp only at htr
          subst htr
          dsimp only at ho
          have hop2 : op2.FinishedStages = op.FinishedStages ++ [s.name] := by
            have h := hsave
            simp only [saveFinishedStage] at h
            split at h
            · cases h
            · rename_i hupd
              cases h
              have h3 := hstore _ _ _ _ hupd
              rw [h3, hfs1]
          simp only [List.mem_append, List.mem_singleton] at ho
          rcases ho with (ho | ho) | ho
          · exact hzero o (hs.1 o ho)
          · cases ho
            exact hone
          · obtain ⟨k, hk, hfs⟩ := ihr op2 w2 o ho
            refine ⟨k + 1, by simpa using hk, ?_⟩
            rw [finishedAfter_cons_take, if_neg hnot, ← hop2]
            exact hfs

/-- C11: assuming that steps hand back `FinishedStages` as they got it and that
storage hands back the `FinishedStages` it was given, every operation that a
call of `Execute` asks storage to persist carries the loaded `FinishedStages`
extended, in registration order, by the names of the first `k` declared stages
(each appended unless already present), for some `k`.  Hence no name is
repeated if none was, every one of these `k` stages is in it, and a name that is
new in it belongs to one of these `k` stages: a stage is never marked finished
while a stage declared before it is unfinished. -/
theorem Execute_finished_in_order (env : Env W) (m : StagedManager W) (fuel : Nat)
    (operationID : String) (w w1 : W) (operation : Operation)
    (hload : env.GetOperationByID operationID w = (Except.ok operation, w1))
    (hsteps : ∀ s ∈ m.stages, ∀ b ∈ s.steps, ∀ o w o1 d e w1,
      b.Run o w = (RunOutcome.returns o1 d e, w1) → o1.FinishedStages = o.FinishedStages)
    (hstore : ∀ o w o1 w1, env.UpdateOperation o w = (Except.ok o1, w1) →
      o1.FinishedStages = o.FinishedStages) :
    ∀ o, Effect.UpdateOperation o ∈ (Execute env m fuel operationID w).trace →
      ∃ k, k ≤ m.stages.length ∧
        o.FinishedStages = finishedAfter operation.FinishedStages (m.stages.take k) ∧
        (operation.FinishedStages.Nodup → o.FinishedStages.Nodup) ∧
        (∀ s ∈ m.stages.take k, s.name ∈ o.FinishedStages) ∧
        (∀ n ∈ o.FinishedStages,
          n ∈ operation.FinishedStages ∨ ∃ s ∈ m.stages.take k, s.name = n) := by
  intro o ho
  have key : ∃ k, k ≤ m.stages.length ∧
      o.FinishedStages = finishedAfter operation.FinishedStages (m.stages.take k) := by
    unfold Execute at ho
    rw [hload] at ho
    dsimp only at ho
    split_ifs at ho with htime
    · refine ⟨0, Nat.zero_le _, ?_⟩
      split at ho <;>
      · simp only [callPubSubOutsideSteps, List.mem_cons, List.mem_singleton, List.not_mem_nil,
          or_false] at ho
        rcases ho with ho | ho | ho
        · cases ho
        · cases ho
          rfl
        · cases ho
    · dsimp only at ho
      simp only [List.mem_cons] at ho
      rcases ho with ho | ho
      · cases ho
      · exact stagesLoop_finished_in_order env m fuel hstore m.stages hsteps operation w1 o ho
  obtain ⟨k, hk, hfs⟩ := key
  refine ⟨k, hk, hfs, ?_, ?_, ?_⟩
  · intro h
    rw [hfs]
    exact finishedAfter_nodup _ _ h
  · intro s hs
    rw [hfs]
    exact finishedAfter_mem _ _ s hs
  · intro n hn
    rw [hfs] at hn
    exact finishedAfter_origin _ _ n hn

theorem stagesAB_keep_finished : ∀ s ∈ stagesAB, ∀ b ∈ s.steps,
    ∀ (o : Operation) (w : World) (o1 : Operation) (d : Duration) (e : Option GoError)
      (w1 : World),
      b.Run o w = (RunOutcome.returns o1 d e, w1) → o1.FinishedStages = o.FinishedStages := by
  intro s hs b hb o w o1 d e w1 h
  simp only [stagesAB, List.mem_cons, List.mem_singleton, List.not_mem_nil, or_false] at hs
  rcases hs with rfl | rfl
  · simp only [List.mem_singleton] at hb
    subst hb
    cases h
    rfl
  · simp only [List.mem_singleton] at hb
    subst hb
    cases h
    rfl

theorem worldEnv_update_finished (o : Operation) (w : World) (o1 : Operation) (w1 : World)
    (h : worldEnv.UpdateOperation o w = (Except.ok o1, w1)) :
    o1.FinishedStages = o.FinishedStages := by
  simp only [worldEnv] at h
  split at h <;> cases h <;> rfl

/-- Witness of C11: the run over the stages "A" and "B"; the operation persisted
after stage "B" carries the names of the first two declared stages. -/
theorem Execute_finished_in_order_witness :
    Effect.UpdateOperation { freshOp with FinishedStages := ["A", "B"] } ∈
        (Execute worldEnv (managerOf stagesAB) 1 "op" (worldWith freshOp [])).trace ∧
      ∃ k, k ≤ (managerOf stagesAB).stages.length ∧
        ({ freshOp with FinishedStages := ["A", "B"] } : Operation).FinishedStages =
          finishedAfter freshOp.FinishedStages ((managerOf stagesAB).stages.take k) :=
  ⟨by decide,
    (Execute_finished_in_order worldEnv (managerOf stagesAB) 1 "op" (worldWith freshOp [])
      (worldWith freshOp []) freshOp rfl stagesAB_keep_finished worldEnv_update_finished
      { freshOp with FinishedStages := ["A", "B"] } (by decide)).imp fun _ h => ⟨h.1, h.2.1⟩⟩

/-! ## The pacing of the retry loop -/

theorem sleepsScaled_of_no_sleep (N : Int) (l : List Effect)
    (h : ∀ x ∈ l, ∀ d, x ≠ Effect.Sleep d) : SleepsScaled N l := by
  intro tr1 d tr2 hl
  exact absurd rfl (h (Effect.Sleep d) (by rw [hl]; simp) d)

theorem sleepsScaled_cons (N : Int) (x : Effect) (l : List Effect) (hl : SleepsScaled N l)
    (hx : ∀ d, x ≠ Effect.Sleep d) (hhead : ∀ d rest, l ≠ Effect.Sleep d :: rest) :
    SleepsScaled N (x :: l) := by
  intro tr1 d tr2 h
  cases tr1 with
  | nil =>
    simp only [List.nil_append, List.cons.injEq] at h
    exact absurd h.1 (hx d)
  | cons y t =>
    simp only [List.cons_append, List.cons.injEq] at h
    obtain ⟨rfl, h⟩ := h
    cases t with
    | nil => exact absurd h (hhead d tr2)
    | cons z t1 =>
      obtain ⟨pre, sp, o, o1, hpre, hd⟩ := hl (z :: t1) d tr2 h
      exact ⟨x :: pre, sp, o, o1, by rw [hpre]; rfl, hd⟩

theorem sleepsScaled_publish_sleep (N : Int) (sp : StepProcessed) (o o1 : Operation)
    (l : List Effect) (hl : SleepsScaled N l) (hhead : ∀ d rest, l ≠ Effect.Sleep d :: rest) :
    SleepsScaled N (Effect.Publish (Event.OperationStepProcessed sp o o1) ::
      Effect.Sleep (Int.tdiv sp.When N) :: l) := by
  intro tr1 d tr2 h
  cases tr1 with
  | nil =>
    simp only [List.nil_append, List.cons.injEq] at h
    cases h.1
  | cons y t =>
    simp only [List.cons_append, List.cons.injEq] at h
    obtain ⟨rfl, h⟩ := h
    cases t with
    | nil =>
      simp only [List.nil_append, List.cons.injEq, Effect.Sleep.injEq] at h
      exact ⟨[], sp, o, o1, rfl, h.1.symm⟩
    | cons z t1 =>
      simp only [List.cons_append, List.cons.injEq] at h
      obtain ⟨rfl, h⟩ := h
      cases t1 with
      | nil => exact absurd h (hhead d tr2)
      | cons z1 t2 =>
        obtain ⟨pre, sp1, o2, o3, hpre, hd⟩ := hl (z1 :: t2) d tr2 h
        exact ⟨Effect.Publish (Event.OperationStepProcessed sp o o1) ::
          Effect.Sleep (Int.tdiv sp.When N) :: pre, sp1, o2, o3, by rw [hpre]; rfl, hd⟩

theorem runStepLoop_head (env : Env W) (m : StagedManager W) (step : Step W)
    (operation : Operation) (begin : Duration) (fuel : Nat) (p : Operation) (b : Duration)
    (w : W) :
    ∀ d rest, (runStepLoop env m step operation begin fuel p b w).trace ≠
      Effect.Sleep d :: rest := by
  intro d rest h
  cases fuel with
  | zero => simp [runStepLoop] at h
  | succ n =>
    unfold runStepLoop at h
    split at h
    · simp at h
    · dsimp only at h
      split_ifs at h <;> simp at h
    · dsimp only at h
      split_ifs at h <;> simp at h

theorem runStepLoop_sleepsScaled (env : Env W) (m : StagedManager W) (step : Step W)
    (operation : Operation) (begin : Duration) (fuel : Nat) :
    ∀ (p : Operation) (b : Duration) (w : W),
      SleepsScaled m.speedFactor (runStepLoop env m step operation begin fuel p b w).trace := by
  induction fuel with
  | zero =>
    intro p b w
    exact sleepsScaled_of_no_sleep _ _ (by simp [runStepLoop])
  | succ n ih =>
    intro p b w
    have hrec : ∀ (bk : Duration) (v : String) (w0 : W),
        ∀ x ∈ (recovered env operation bk v w0).trace, ∀ d, x ≠ Effect.Sleep d := by
      intro bk v w0 x hx d hd
      subst hd
      simp [recovered_trace] at hx
    unfold runStepLoop
    split
    · dsimp only
      refine sleepsScaled_of_no_sleep _ _ ?_
      intro x hx d hd
      subst hd
      simp [recovered_trace] at hx
    · dsimp only
      split_ifs
      · exact sleepsScaled_of_no_sleep _ _ (by simp)
      · refine sleepsScaled_of_no_sleep _ _ ?_
        intro x hx d hd
        subst hd
        simp [recovered_trace] at hx
      · refine sleepsScaled_cons _ _ _ ?_ (by simp) (by simp)
        exact sleepsScaled_publish_sleep _ _ _ _ _ (ih _ _ _) (runStepLoop_head _ _ _ _ _ _ _ _ _)
    · dsimp only
      split_ifs
      · exact sleepsScaled_of_no_sleep _ _ (by simp)
      · refine sleepsScaled_of_no_sleep _ _ ?_
        intro x hx d hd
        subst hd
        simp [recovered_trace] at hx
      · refine sleepsScaled_cons _ _ _ ?_ (by simp) (by simp)
        refine sleepsScaled_cons _ _ _ ?_ (by simp) (by simp)
        exact sleepsScaled_publish_sleep _ _ _ _ _ (ih _ _ _) (runStepLoop_head _ _ _ _ _ _ _ _ _)

/-- C13, as stated, fails: the number of attempts depends on the speed factor.
With a maximal step processing time of 10 ticks and a step that takes one tick
and asks for a delay of 100, `runStep` calls `Run` twice under speed factor 1
(one sleep of 100) and six times under speed factor 100 (sleeps of 1). -/
theorem runStep_attempts_depend_on_speedFactor :
    (runStep worldEnv (SpeedUp (managerOf []) 1) 20 (delayStep "a" 100).toStep freshOp
        (worldWith freshOp [])).trace.countP Effect.isRun = 2 ∧
      (runStep worldEnv (SpeedUp (managerOf []) 100) 20 (delayStep "a" 100).toStep freshOp
        (worldWith freshOp [])).trace.countP Effect.isRun = 6 ∧
      (runStep worldEnv (SpeedUp (managerOf []) 1) 20 (delayStep "a" 100).toStep freshOp
        (worldWith freshOp [])).ret = some (freshOp, 100, none) ∧
      (runStep worldEnv (SpeedUp (managerOf []) 100) 20 (delayStep "a" 100).toStep freshOp
        (worldWith freshOp [])).ret = some (freshOp, 100, none) := by
  refine ⟨?_, ?_, ?_, ?_⟩ <;> decide

/-- C13, amended: `SpeedUp(N)` changes the speed factor and nothing else of the
manager, and in `runStep` every sleep directly follows the step-processed event
of an attempt and lasts the delay of that attempt divided by `N`.  (The number
of attempts is not kept: the loop goes on until the elapsed time exceeds the
maximal step processing time.) -/
theorem runStep_sleeps_scaled (env : Env W) (m : StagedManager W) (N : Int) (fuel : Nat)
    (step : Step W) (operation : Operation) (w : W) :
    (SpeedUp m N).speedFactor = N ∧ (SpeedUp m N).stages = m.stages ∧
      (SpeedUp m N).operationTimeout = m.operationTimeout ∧ (SpeedUp m N).cfg = m.cfg ∧
      ∀ tr1 d tr2,
        (runStep env (SpeedUp m N) fuel step operation w).trace = tr1 ++ Effect.Sleep d :: tr2 →
        ∃ pre sp o o1,
          tr1 = pre ++ [Effect.Publish (Event.OperationStepProcessed sp o o1)] ∧
          d = Int.tdiv sp.When N :=
  ⟨rfl, rfl, rfl, rfl,
    runStepLoop_sleepsScaled env (SpeedUp m N) step operation (env.now w) fuel operation 0 w⟩

/-- Witness of C13 amended: under speed factor 100 the first sleep after the
attempt that asked for 100 lasts 1. -/
theorem runStep_sleeps_scaled_witness :
    (runStep worldEnv (SpeedUp (managerOf []) 100) 1 (delayStep "a" 100).toStep freshOp
        (worldWith freshOp [])).trace =
      [Effect.Run "a" freshOp,
        Effect.Publish (Event.OperationStepProcessed
          { StepName := "a", Duration := 1, When := 100, Error := none } freshOp freshOp)] ++
        Effect.Sleep 1 :: [] ∧
      ∃ pre sp o o1,
        [Effect.Run "a" freshOp,
          Effect.Publish (Event.OperationStepProcessed
            { StepName := "a", Duration := 1, When := 100, Error := none } freshOp freshOp)] =
          pre ++ [Effect.Publish (Event.OperationStepProcessed sp o o1)] ∧
        (1 : Duration) = Int.tdiv sp.When 100 := by
  have htrace : (runStep worldEnv (SpeedUp (managerOf []) 100) 1 (delayStep "a" 100).toStep
      freshOp (worldWith freshOp [])).trace =
      [Effect.Run "a" freshOp,
        Effect.Publish (Event.OperationStepProcessed
          { StepName := "a", Duration := 1, When := 100, Error := none } freshOp freshOp)] ++
        Effect.Sleep 1 :: [] := by decide
  exact ⟨htrace, (runStep_sleeps_scaled worldEnv (managerOf []) 100 1 (delayStep "a" 100).toStep
    freshOp (worldWith freshOp [])).2.2.2.2 _ _ _ htrace⟩

theorem elapsedOf_append (a b : List Effect) :
    elapsedOf (a ++ b) = elapsedOf a + elapsedOf b := by
  induction a with
  | nil => simp [elapsedOf]
  | cons x xs ih =>
    show x.ticks + elapsedOf (xs ++ b) = x.ticks + elapsedOf xs + elapsedOf b
    rw [ih, add_assoc]

theorem eachWithElapsed_decompose {Q : Duration → Effect → List Effect → Prop}
    (l : List Effect) :
    ∀ acc, EachWithElapsed Q acc l →
      ∀ tr1 x tr2, l = tr1 ++ x :: tr2 → Q (acc + elapsedOf tr1) x tr2 := by
  induction l with
  | nil =>
    intro acc _ tr1 x tr2 h
    cases tr1 <;> simp at h
  | cons y ys ih =>
    intro acc hl tr1 x tr2 h
    cases tr1 with
    | nil =>
      simp only [List.nil_append, List.cons.injEq] at h
      obtain ⟨rfl, rfl⟩ := h
      simpa [elapsedOf] using hl.1
    | cons z zs =>
      simp only [List.cons_append, List.cons.injEq] at h
      obtain ⟨rfl, h⟩ := h
      have := ih _ hl.2 zs x tr2 h
      simpa [elapsedOf, add_assoc] using this

theorem eachWithElapsed_append {P Q : Duration → Effect → List Effect → Prop}
    (a b : List Effect) :
    ∀ acc, EachWithElapsed P acc a → (∀ c x xs, P c x xs → Q c x (xs ++ b)) →
      EachWithElapsed Q (acc + elapsedOf a) b → EachWithElapsed Q acc (a ++ b) := by
  induction a with
  | nil =>
    intro acc _ _ hb
    simpa [elapsedOf] using hb
  | cons y ys ih =>
    intro acc ha h hb
    refine ⟨h _ _ _ ha.1, ih _ ha.2 h ?_⟩
    simpa [elapsedOf, add_assoc] using hb

theorem runStepLoop_within (env : Env W) (m : StagedManager W) (step : Step W)
    (operation : Operation) (begin d : Duration) (hd : d > 0) (hsf : m.speedFactor ≠ 0)
    (hrun : ∀ o w, ∃ o1 w1, step.Run o w = (RunOutcome.returns o1 d none, w1) ∧
      o1.State ≠ LastOperationState.Failed ∧ o1.State ≠ LastOperationState.Succeeded ∧
      env.now w ≤ env.now w1 ∧
      env.now w + 1 ≤ env.now w1 + max (Int.tdiv d m.speedFactor) 0)
    (hpub : ∀ ev w, env.now (env.Publish ev w) = env.now w)
    (hsleep : ∀ w, env.now (env.sleep (Int.tdiv d m.speedFactor) w) =
      env.now w + max (Int.tdiv d m.speedFactor) 0) (fuel : Nat) :
    ∀ (p : Operation) (b : Duration) (w : W) (acc : Duration), env.now w - begin = acc →
      EachWithElapsed (SleepWithin m.cfg.MaxStepProcessingTime) acc
        (runStepLoop env m step operation begin fuel p b w).trace ∧
      EachWithElapsed (AttemptWithin m.cfg.MaxStepProcessingTime) acc
        (runStepLoop env m step operation begin fuel p b w).trace ∧
      (∀ x ∈ (runStepLoop env m step operation begin fuel p b w).trace, x.isUpdate = false) ∧
      (∀ o1 d1 e1, (runStepLoop env m step operation begin fuel p b w).ret = some (o1, d1, e1) →
        d1 = d ∧ e1 = none ∧ o1.State ≠ LastOperationState.Failed ∧
        o1.State ≠ LastOperationState.Succeeded ∧
        acc + elapsedOf (runStepLoop env m step operation begin fuel p b w).trace >
          m.cfg.MaxStepProcessingTime ∧
        ∃ pre ev, (runStepLoop env m step operation begin fuel p b w).trace =
          pre ++ [Effect.Publish ev]) ∧
      ((m.cfg.MaxStepProcessingTime - acc + 1).toNat + 1 ≤ fuel →
        (runStepLoop env m step operation begin fuel p b w).ret ≠ none) := by
  induction fuel with
  | zero =>
    intro p b w acc _
    simp [runStepLoop, EachWithElapsed]
  | succ n ih =>
    intro p b w acc hacc
    obtain ⟨o1, w1, hr, hnf, hns, hmono, hprog⟩ := hrun p w
    unfold runStepLoop
    split
    · rename_i heq
      rw [hr] at heq
      cases heq
    · rename_i heq
      rw [hr] at heq
      cases heq
      dsimp only
      have hnow : env.now (env.Publish (Event.OperationStepProcessed
          { StepName := step.Name, Duration := env.now w1 - env.now w, When := d,
            Error := none } o1 operation) w1) = env.now w1 := hpub _ _
      rw [hnow]
      split_ifs with hexit
      · have hover : env.now w1 - begin > m.cfg.MaxStepProcessingTime := by
          rcases hexit with h | h
          · unfold Duration at *
            omega
          · exact h
        refine ⟨?_, ?_, ?_, ?_, ?_⟩
        · simp [EachWithElapsed, SleepWithin]
        · simp [EachWithElapsed, AttemptWithin]
        · intro x hx
          simp only [List.mem_cons, List.mem_singleton, List.not_mem_nil, or_false] at hx
          rcases hx with rfl | rfl <;> rfl
        · intro o2 d2 e2 h
          simp only [Option.some.injEq, Prod.mk.injEq] at h
          obtain ⟨rfl, rfl, rfl⟩ := h
          refine ⟨rfl, rfl, hnf, hns, ?_, ⟨[Effect.Run step.Name p], _, rfl⟩⟩
          simp only [elapsedOf, Effect.ticks]
          unfold Duration at *
          omega
        · intro _ h
          cases h
      · have hle : env.now w1 - begin ≤ m.cfg.MaxStepProcessingTime := by
          have := not_or.mp hexit
          unfold Duration at *
          omega
        have hacc2 : env.now (env.sleep (Int.tdiv d m.speedFactor)
            (env.Publish (Event.OperationStepProcessed
              { StepName := step.Name, Duration := env.now w1 - env.now w, When := d,
                Error := none } o1 operation) w1)) - begin =
            acc + (env.now w1 - env.now w) + max (Int.tdiv d m.speedFactor) 0 := by
          rw [hsleep, hnow]
          unfold Duration at *
          omega
        obtain ⟨h1, h2, h3, h4, h5⟩ := ih o1 d _ _ hacc2
        refine ⟨?_, ?_, ?_, ?_, ?_⟩
        · simp only [EachWithElapsed, SleepWithin, Effect.ticks, add_zero]
          refine ⟨(by intro _ h; cases h), (by intro _ h; cases h), ?_, h1⟩
          intro _ _
          unfold Duration at *
          omega
        · simp only [EachWithElapsed, AttemptWithin, Effect.ticks, add_zero]
          refine ⟨(by intro _ h; cases h), ?_, (by intro _ h; cases h), h2⟩
          intro _ _ _
          unfold Duration at *
          omega
        · intro x hx
          simp only [List.mem_cons] at hx
          rcases hx with rfl | rfl | rfl | hx
          · rfl
          · rfl
          · rfl
          · exact h3 x hx
        · intro o2 d2 e2 h
          obtain ⟨k1, k2, k3, k4, k5, pre, ev, k6⟩ := h4 o2 d2 e2 h
          refine ⟨k1, k2, k3, k4, ?_, ?_⟩
          · simp only [elapsedOf, Effect.ticks]
            unfold Duration at *
            omega
          · rw [k6]
            exact ⟨_ :: _ :: _ :: pre, ev, rfl⟩
        · intro hfuel
          apply h5
          unfold Duration at *
          omega
    · rename_i heq
      rw [hr] at heq
      cases heq

theorem Execute_first_step_delay (env : Env W) (m : StagedManager W) (fuel : Nat)
    (operationID : String) (w w1 : W) (operation o1 : Operation) (s : stage W)
    (rest : List (stage W)) (b : StepWithCondition W) (bs : List (StepWithCondition W))
    (d : Duration)
    (hload : env.GetOperationByID operationID w = (Except.ok operation, w1))
    (htime : ¬ env.now w1 - operation.CreatedAt > m.operationTimeout)
    (hstages : m.stages = s :: rest) (hfresh : operation.IsStageFinished s.name = false)
    (hsteps : s.steps = b :: bs) (hcond : b.condition = none) (hd : d > 0)
    (hret : (runStep env m fuel b.toStep operation w1).ret = some (o1, d, none))
    (hnf : o1.State ≠ LastOperationState.Failed)
    (hns : o1.State ≠ LastOperationState.Succeeded) :
    (Execute env m fuel operationID w).ret = some (d, none) ∧
      (Execute env m fuel operationID w).trace =
        Effect.GetOperationByID operationID :: Effect.RunStep s.name b.Name operation ::
          ((runStep env m fuel b.toStep operation w1).trace ++ [Effect.Returned o1 d none]) := by
  have hsteps1 : ∀ r, r = stepsLoop env m fuel s.name (b :: bs) operation w1 →
      r.flow = Flow.exit d none ∧
      r.trace = Effect.RunStep s.name b.Name operation ::
        ((runStep env m fuel b.toStep operation w1).trace ++ [Effect.Returned o1 d none]) := by
    intro r hr
    unfold stepsLoop at hr
    simp only [skips, hcond, conditionEffects, Bool.false_eq_true, if_false, List.nil_append,
      hret, hnf, hns, or_self, hd, if_true] at hr
    subst hr
    exact ⟨rfl, rfl⟩
  obtain ⟨hflow, htr⟩ := hsteps1 _ rfl
  have hstages1 : ∀ r, r = stagesLoop env m fuel (s :: rest) operation w1 →
      r.ret = some (d, none) ∧
      r.trace = Effect.RunStep s.name b.Name operation ::
        ((runStep env m fuel b.toStep operation w1).trace ++ [Effect.Returned o1 d none]) := by
    intro r hr
    unfold stagesLoop at hr
    simp only [hfresh, Bool.false_eq_true, if_false, hsteps, hflow] at hr
    subst hr
    exact ⟨rfl, htr⟩
  obtain ⟨hret1, htr1⟩ := hstages1 _ rfl
  have hexec : ∀ r, r = Execute env m fuel operationID w →
      r.ret = some (d, none) ∧
      r.trace = Effect.GetOperationByID operationID :: Effect.RunStep s.name b.Name operation ::
        ((runStep env m fuel b.toStep operation w1).trace ++ [Effect.Returned o1 d none]) := by
    intro r hr
    unfold Execute at hr
    simp only [hload, htime, if_false, hstages] at hr
    subst hr
    exact ⟨hret1, by rw [← htr1]⟩
  exact hexec _ rfl

/-- What the retry loop does keep of the bound: over a clock that `Run` and
`Sleep` advance and publishing does not, with a speed factor other than 0, when
the first step of the first declared stage, not yet finished, always returns `(op, d, nil)` with `d > 0` and a non-terminal
state, and every attempt together with the sleep that follows it advances the
clock by at least one tick, the retry loop ends: `Execute` returns `(d, nil)`
right after the step-processed event of the first attempt that completes with
loop-elapsed time above `MaxStepProcessingTime`; every sleep starts, and every
attempt that is followed by another one completes, with loop-elapsed time at
most `MaxStepProcessingTime`; and no `UpdateOperation` is made, so the stage is
not marked finished.  (An attempt may start after the bound: the check is made
after the attempt only, and the sleep before it is not counted.) -/
theorem Execute_retry_within_budget (env : Env W) (m : StagedManager W) (fuel : Nat)
    (operationID : String) (w w1 : W) (operation : Operation) (s : stage W)
    (rest : List (stage W)) (b : StepWithCondition W) (bs : List (StepWithCondition W))
    (d : Duration)
    (hload : env.GetOperationByID operationID w = (Except.ok operation, w1))
    (htime : ¬ env.now w1 - operation.CreatedAt > m.operationTimeout)
    (hstages : m.stages = s :: rest) (hfresh : operation.IsStageFinished s.name = false)
    (hsteps : s.steps = b :: bs) (hcond : b.condition = none) (hd : d > 0)
    (hsf : m.speedFactor ≠ 0)
    (hrun : ∀ o v, ∃ o1 v1, b.Run o v = (RunOutcome.returns o1 d none, v1) ∧
      o1.State ≠ LastOperationState.Failed ∧ o1.State ≠ LastOperationState.Succeeded ∧
      env.now v ≤ env.now v1 ∧
      env.now v + 1 ≤ env.now v1 + max (Int.tdiv d m.speedFactor) 0)
    (hpub : ∀ ev v, env.now (env.Publish ev v) = env.now v)
    (hsleep : ∀ v, env.now (env.sleep (Int.tdiv d m.speedFactor) v) =
      env.now v + max (Int.tdiv d m.speedFactor) 0)
    (hfuel : (m.cfg.MaxStepProcessingTime + 1).toNat + 1 ≤ fuel) :
    (Execute env m fuel operationID w).ret = some (d, none) ∧
      (∀ x ∈ (Execute env m fuel operationID w).trace, x.isUpdate = false) ∧
      (∃ pre ev o, (Execute env m fuel operationID w).trace =
        pre ++ [Effect.Publish ev, Effect.Returned o d none]) ∧
      elapsedOf (Execute env m fuel operationID w).trace > m.cfg.MaxStepProcessingTime ∧
      (∀ tr1 x tr2, (Execute env m fuel operationID w).trace = tr1 ++ Effect.Sleep x :: tr2 →
        elapsedOf tr1 ≤ m.cfg.MaxStepProcessingTime) ∧
      (∀ tr1 ev tr2, (Execute env m fuel operationID w).trace = tr1 ++ Effect.Publish ev :: tr2 →
        (∃ y ∈ tr2, y.isRun = true) →
        elapsedOf (tr1 ++ [Effect.Publish ev]) ≤ m.cfg.MaxStepProcessingTime) := by
  obtain ⟨h1, h2, h3, h4, h5⟩ := runStepLoop_within env m b.toStep operation (env.now w1) d hd
    hsf hrun hpub hsleep fuel operation 0 w1 0 (sub_self _)
  have hne := h5 (by simpa using hfuel)
  obtain ⟨⟨o1, d1, e1⟩, hsome⟩ := Option.ne_none_iff_exists'.mp hne
  obtain ⟨rfl, rfl, hnf, hns, hover, pre, ev, hend⟩ := h4 o1 d1 e1 hsome
  obtain ⟨hret, htrace⟩ := Execute_first_step_delay env m fuel operationID w w1 operation o1 s
    rest b bs d1 hload htime hstages hfresh hsteps hcond hd hsome hnf hns
  have hrt : (runStep env m fuel b.toStep operation w1).trace =
      (runStepLoop env m b.toStep operation (env.now w1) fuel operation 0 w1).trace := rfl
  rw [hrt] at htrace
  have hsl : EachWithElapsed (SleepWithin m.cfg.MaxStepProcessingTime) 0
      (Execute env m fuel operationID w).trace := by
    rw [htrace]
    refine ⟨(by intro _ h; cases h), ?_⟩
    refine ⟨(by intro _ h; cases h), ?_⟩
    simp only [Effect.ticks, add_zero]
    refine eachWithElapsed_append _ _ _ h1 (fun _ _ _ h => h) ?_
    exact ⟨(by intro _ h; cases h), trivial⟩
  have hat : EachWithElapsed (AttemptWithin m.cfg.MaxStepProcessingTime) 0
      (Execute env m fuel operationID w).trace := by
    rw [htrace]
    refine ⟨(by intro _ h; cases h), ?_⟩
    refine ⟨(by intro _ h; cases h), ?_⟩
    simp only [Effect.ticks, add_zero]
    refine eachWithElapsed_append _ _ _ h2 ?_ ?_
    · intro c x xs h ev1 hx hy
      refine h ev1 hx ?_
      obtain ⟨y, hy1, hy2⟩ := hy
      simp only [List.mem_append, List.mem_singleton] at hy1
      rcases hy1 with hy1 | rfl
      · exact ⟨y, hy1, hy2⟩
      · cases hy2
    · exact ⟨(by intro _ h; cases h), trivial⟩
  refine ⟨hret, ?_, ?_, ?_, ?_, ?_⟩
  · intro x hx
    rw [htrace] at hx
    simp only [List.mem_cons, List.mem_append, List.mem_singleton, List.not_mem_nil,
      or_false] at hx
    rcases hx with rfl | rfl | hx | rfl
    · rfl
    · rfl
    · exact h3 x hx
    · rfl
  · refine ⟨Effect.GetOperationByID operationID :: Effect.RunStep s.name b.Name operation :: pre,
      ev, o1, ?_⟩
    rw [htrace, hend]
    simp
  · rw [htrace]
    simp only [elapsedOf, elapsedOf_append, Effect.ticks]
    unfold Duration at *
    omega
  · intro tr1 x tr2 h
    have := eachWithElapsed_decompose _ 0 hsl tr1 _ tr2 h x rfl
    simpa using this
  · intro tr1 ev1 tr2 h hy
    have := eachWithElapsed_decompose _ 0 hat tr1 _ tr2 h ev1 rfl hy
    simpa [elapsedOf_append, elapsedOf] using this

/-- An instance of the above: with a maximal step processing time of 10, speed
factor 1 and a first step that takes one tick and asks for a delay of 100,
`Execute` returns `(100, nil)` and the only sleep starts at loop-elapsed time 1. -/
theorem Execute_retry_within_budget_witness :
    (Execute worldEnv (managerOf (stageWithFirst (stateStep "a" LastOperationState.InProgress 100)))
        12 "op" (worldWith freshOp [])).ret = some (100, none) ∧
      (∀ x ∈ (Execute worldEnv
          (managerOf (stageWithFirst (stateStep "a" LastOperationState.InProgress 100)))
          12 "op" (worldWith freshOp [])).trace, x.isUpdate = false) ∧
      elapsedOf (Execute worldEnv
          (managerOf (stageWithFirst (stateStep "a" LastOperationState.InProgress 100)))
          12 "op" (worldWith freshOp [])).trace > 10 ∧
      (∀ tr1 x tr2, (Execute worldEnv
          (managerOf (stageWithFirst (stateStep "a" LastOperationState.InProgress 100)))
          12 "op" (worldWith freshOp [])).trace = tr1 ++ Effect.Sleep x :: tr2 →
        elapsedOf tr1 ≤ 10) := by
  have h := Execute_retry_within_budget worldEnv
    (managerOf (stageWithFirst (stateStep "a" LastOperationState.InProgress 100))) 12 "op"
    (worldWith freshOp []) (worldWith freshOp []) freshOp
    { name := "A", steps := [stateStep "a" LastOperationState.InProgress 100, okStep "b"] } []
    (stateStep "a" LastOperationState.InProgress 100) [okStep "b"] 100
    rfl (by decide) rfl rfl rfl rfl (by decide) (by decide)
    (fun o v => ⟨{ o with State := LastOperationState.InProgress },
      { v with clock := v.clock + 1 }, rfl, (by simp), (by simp),
      (by show v.clock ≤ v.clock + 1; unfold Duration; omega),
      (by show v.clock + 1 ≤ v.clock + 1 + max (Int.tdiv 100 1) 0
          have : (0 : Int) ≤ max (Int.tdiv 100 1) 0 := le_max_right _ _
          unfold Duration; omega)⟩)
    (fun _ _ => rfl)
    (fun v => by
      show v.clock + Int.tdiv 100 1 = v.clock + max (Int.tdiv 100 1) 0
      have : max (Int.tdiv 100 1) 0 = Int.tdiv 100 1 := by decide
      rw [this])
    (by decide)
  exact ⟨h.1, h.2.1, h.2.2.2.1, h.2.2.2.2.1⟩

/-- C12: the code does not keep the bound.  With a maximal step processing time
of 10, speed factor 1 and a first step that takes one tick, keeps the operation
in progress and asks for a delay of 100: the first attempt completes at
loop-elapsed time 1, the worker sleeps 100, the second call of `Run` starts at
loop-elapsed time 101, and `Execute` returns `(100, nil)` at loop-elapsed time
102, having made no `UpdateOperation`.  The elapsed time is tested after an
attempt and before the sleep only, and the sleep is not cut to what is left of
the budget. -/
theorem Execute_attempt_starts_after_bound :
    (managerOf (stageWithFirst (stateStep "a" LastOperationState.InProgress 100))).cfg.MaxStepProcessingTime
        = 10 ∧
      (Execute worldEnv (managerOf (stageWithFirst (stateStep "a" LastOperationState.InProgress 100)))
        5 "op" (worldWith freshOp [])).ret = some (100, none) ∧
      (Execute worldEnv (managerOf (stageWithFirst (stateStep "a" LastOperationState.InProgress 100)))
        5 "op" (worldWith freshOp [])).trace =
        [Effect.GetOperationByID "op", Effect.RunStep "A" "a" freshOp, Effect.Run "a" freshOp,
          Effect.Publish (Event.OperationStepProcessed
            { StepName := "a", Duration := 1, When := 100, Error := none } freshOp freshOp),
          Effect.Sleep 100] ++
        Effect.Run "a" freshOp ::
          [Effect.Publish (Event.OperationStepProcessed
            { StepName := "a", Duration := 1, When := 100, Error := none } freshOp freshOp),
            Effect.Returned freshOp 100 none] ∧
      elapsedOf
        [Effect.GetOperationByID "op", Effect.RunStep "A" "a" freshOp, Effect.Run "a" freshOp,
          Effect.Publish (Event.OperationStepProcessed
            { StepName := "a", Duration := 1, When := 100, Error := none } freshOp freshOp),
          Effect.Sleep 100] = 101 ∧
      elapsedOf (Execute worldEnv
        (managerOf (stageWithFirst (stateStep "a" LastOperationState.InProgress 100)))
        5 "op" (worldWith freshOp [])).trace = 102 ∧
      (Execute worldEnv (managerOf (stageWithFirst (stateStep "a" LastOperationState.InProgress 100)))
        5 "op" (worldWith freshOp [])).world.clock = 5 + 102 := by
  refine ⟨?_, ?_, ?_, ?_, ?_, ?_⟩ <;> decide

end KEB
